import Mathlib

/-!
# A shallow embedding of the sector-aligned write-back buffer of `Src/io.c`

The C functions of `io.c` are translated one by one into pure functions over an
explicit descriptor state.  Machine integers are natural numbers; every
arithmetic operation the C code performs on `UINT` operands is reduced modulo
`2^32`, and the `uint64_t` computations of `buffer_specs` modulo `2^64`.

* a byte is a `Nat`; memory (the malloc-ed buffer, the content of the file on
  storage) is a function from an index to a byte, so that files close to the
  4 GiB ceiling can be written down;
* the storage driver (`f_open`, `f_read`, ...) is a record of functions over an
  abstract handle state; `posix` is the driver of `Tests/src/ff.c`;
* `malloc` is an oracle of the environment: it may fail, and the block it
  returns has arbitrary content.
-/

namespace FatFsIO

/-! ## Machine integers -/

/-- The modulus of `UINT` (a 32-bit unsigned integer). -/
def UINT_MOD : Nat := 4294967296

/-- The modulus of `uint64_t`. -/
def U64_MOD : Nat := 18446744073709551616

/-- Modelled from the spec: the type `FSIZE_t` is declared in `ff.h`, which is not part of
the sources; the spec speaks of the "4-byte-size-field ceiling of the target filesystem",
so a file size is a 32-bit unsigned integer. -/
def FSIZE_MOD : Nat := 4294967296

/-- The modulus of `WORD` (16-bit unsigned). -/
def WORD_MOD : Nat := 65536

/-- The modulus of `BYTE` (8-bit unsigned). -/
def BYTE_MOD : Nat := 256

/-- Addition of two `UINT` operands. -/
def uadd (a b : Nat) : Nat := (a + b) % UINT_MOD

/-- Multiplication of two `UINT` operands. -/
def umul (a b : Nat) : Nat := (a * b) % UINT_MOD

/-- Subtraction of two `UINT` operands (wraps below zero). -/
def usub (a b : Nat) : Nat := (a % UINT_MOD + UINT_MOD - b % UINT_MOD) % UINT_MOD

/-! ## Constants of `io.c`, `io.h` and `ff.h` -/

/-- The constant `MAX_FILE_SIZE` of `io.c`. -/
def MAX_FILE_SIZE : Nat := 4294967294

/-- The constant `MAX_BUFFER_SIZE` of `io.h`. -/
def MAX_BUFFER_SIZE : Nat := 16384

/-- The constant `BUF_MULTIPLIER` of `io.h`. -/
def BUF_MULTIPLIER : Nat := 1

/-- Mode flag `FA_READ` of FatFs. -/
def FA_READ : Nat := 1

/-- Mode flag `FA_WRITE` of FatFs. -/
def FA_WRITE : Nat := 2

/-- Mode flag `FA_CREATE_ALWAYS` of FatFs. -/
def FA_CREATE_ALWAYS : Nat := 8

/-- The status codes of FatFs. -/
inductive FRESULT where
  | FR_OK
  | FR_DISK_ERR
  | FR_INT_ERR
  | FR_NOT_READY
  | FR_NO_FILE
  | FR_NO_PATH
  | FR_INVALID_NAME
  | FR_DENIED
  | FR_EXIST
  | FR_INVALID_OBJECT
  | FR_WRITE_PROTECTED
  | FR_INVALID_DRIVE
  | FR_NOT_ENABLED
  | FR_NO_FILESYSTEM
  | FR_MKFS_ABORTED
  | FR_TIMEOUT
  | FR_LOCKED
  | FR_NOT_ENOUGH_CORE
  | FR_TOO_MANY_OPEN_FILES
  | FR_INVALID_PARAMETER
  deriving DecidableEq, Repr

open FRESULT

/-- The compile-time options of `ffconf.h` that `io.c` tests. -/
structure FFConf where
  FS_READONLY : Nat
  FS_MINIMIZE : Nat
  USE_EXPAND : Nat
  USE_CHMOD : Nat
  MAX_SS : Nat
  MIN_SS : Nat

/-! ## Memory -/

/-- A block of bytes, indexed from its first byte. -/
abbrev Mem := Nat → Nat

/-- Store one byte: `m[i] = v`. -/
def poke (m : Mem) (i v : Nat) : Mem := fun j => if j = i then v else m j

/-- The call `memcpy(dst + off, src, n)`. -/
def memcpy (dst : Mem) (off : Nat) (src : List Nat) (n : Nat) : Mem :=
  fun j => if off ≤ j ∧ j < off + n then src.getD (j - off) 0 else dst j

/-- The `n` bytes of a block starting at `off`. -/
def view (m : Mem) (off n : Nat) : List Nat := (List.range n).map (fun i => m (off + i))

/-! ## The storage driver -/

/-- The FatFs calls used by `io.c`, over a handle state `σ` (the `FIL` object together with
the storage behind it). `f_read` returns the bytes it stored at the start of the caller's
buffer (their number is `*br`); `f_write` returns `*bw`. The numbers a driver returns are
values of their C types (`UINT`, `FSIZE_t`). -/
structure Driver (σ : Type) where
  f_open : σ → String → Nat → FRESULT × σ
  f_close : σ → FRESULT × σ
  f_read : σ → Nat → FRESULT × List Nat × σ
  f_write : σ → Mem → Nat → FRESULT × Nat × σ
  f_lseek : σ → Nat → FRESULT × σ
  f_truncate : σ → FRESULT × σ
  f_sync : σ → FRESULT × σ
  f_expand : σ → Nat → Nat → FRESULT × σ
  f_unlink : σ → String → FRESULT × σ
  f_utime : σ → String → Nat → Nat → FRESULT × σ
  f_size : σ → Nat
  f_tell : σ → Nat
  f_error : σ → Nat
  fs_ssize : σ → Nat

/-- What surrounds `io.c`: build options, driver, and the allocator. `malloc n` is the
content of the fresh block, or `none` when the allocation fails; `allocDescriptor` and
`allocFIL` tell whether the two allocations of `allocFileDescriptor` succeed. -/
structure Env (σ : Type) where
  conf : FFConf
  drv : Driver σ
  malloc : Nat → Option Mem
  allocDescriptor : Bool
  allocFIL : Bool

/-! ## The descriptor -/

/-- The structure `IO_FileDescriptor` of `io.h`. The field `buffer` is `none` for a `NULL`
pointer. -/
structure IO_FileDescriptor (σ : Type) where
  isOpen : Nat
  ssize : Nat
  bufferBegin : Nat
  bufferSize : Nat
  actualSize : Nat
  buffer : Option Mem
  file : σ
  unsavedData : Nat
  actualFileSize : Nat
  rwPointer : Nat

variable {σ : Type}

/-! ## Static helpers of `io.c`

The static helpers are only called on a descriptor pointer their caller has checked, so the
embedding takes the descriptor itself and their `fp == NULL` guard has no counterpart. -/

/-- The function `allocFileDescriptor`: `w` is the handle state the fresh `FIL` starts in. -/
def allocFileDescriptor (env : Env σ) (w : σ) : Option (IO_FileDescriptor σ) :=
  if env.allocDescriptor = false then none
  else if env.allocFIL = false then none
  else some
    { isOpen := 0, ssize := 0, bufferBegin := 0, bufferSize := 0, actualSize := 0,
      buffer := none, file := w, unsavedData := 0, actualFileSize := 0, rwPointer := 0 }

/-- The function `seek`. -/
def seek (env : Env σ) (fp : IO_FileDescriptor σ) (ofs : Nat) : FRESULT × IO_FileDescriptor σ :=
  if fp.isOpen = 0 then (FR_INVALID_OBJECT, fp)
  else if env.conf.FS_MINIMIZE > 2 then (FR_DENIED, fp)
  else
    let r := env.drv.f_lseek fp.file ofs
    (r.1, { fp with file := r.2 })

/-- The function `preallocate`. -/
def preallocate (env : Env σ) (fp : IO_FileDescriptor σ) (size : Nat) :
    FRESULT × IO_FileDescriptor σ :=
  if fp.isOpen = 0 then (FR_INVALID_OBJECT, fp)
  else if size ≤ env.drv.f_size fp.file then (FR_OK, fp)
  else
    let r := seek env fp size
    if r.1 ≠ FR_OK then (r.1, r.2)
    else (FR_OK, { r.2 with actualFileSize := env.drv.f_tell r.2.file })

/-- The function `buffer_specs`; the result is `(res, begin, end, size)`. -/
def buffer_specs (fp : IO_FileDescriptor σ) (bytes start : Nat) : FRESULT × Nat × Nat × Nat :=
  if fp.ssize = 0 then (FR_INVALID_PARAMETER, 0, 0, 0)
  else
    let begin_tmp :=
      if umul (start / fp.ssize) fp.ssize > fp.actualFileSize then fp.actualFileSize / fp.ssize
      else start / fp.ssize
    let end_tmp := ((start + bytes + U64_MOD - 1) % U64_MOD) / fp.ssize
    let size_tmp := (((end_tmp + U64_MOD - begin_tmp + 1) % U64_MOD) * fp.ssize) % U64_MOD
    if size_tmp > MAX_BUFFER_SIZE then (FR_NOT_ENOUGH_CORE, 0, 0, 0)
    else (FR_OK, begin_tmp % UINT_MOD, end_tmp % UINT_MOD, size_tmp % UINT_MOD)

/-- The function `buffer_exists`. -/
def buffer_exists (fp : IO_FileDescriptor σ) (begin size : Nat) : Nat :=
  if fp.buffer.isNone then 0
  else if begin < fp.bufferBegin then 0
  else if uadd size (umul begin fp.ssize) > uadd fp.bufferSize (umul fp.bufferBegin fp.ssize)
    then 0
  else if uadd size (umul begin fp.ssize) > uadd fp.actualSize (umul fp.bufferBegin fp.ssize)
    then 1
  else 2

/-- The function `io_size` on a non-null descriptor. -/
def io_size_body (fp : IO_FileDescriptor σ) : FRESULT × Nat :=
  if fp.isOpen = 0 then (FR_INVALID_OBJECT, 0) else (FR_OK, fp.actualFileSize)

/-- The function `write_cache`. A dirty descriptor without a buffer hands the driver a
block of zeros. -/
def write_cache (env : Env σ) (fp : IO_FileDescriptor σ) : FRESULT × IO_FileDescriptor σ :=
  if fp.isOpen = 0 then (FR_INVALID_OBJECT, fp)
  else if fp.unsavedData ≠ 0 then
    let s := io_size_body fp
    if s.1 ≠ FR_OK then (s.1, fp)
    else
      let p := preallocate env fp s.2
      let k := seek env p.2 (umul p.2.bufferBegin p.2.ssize)
      if k.1 ≠ FR_OK then (k.1, k.2)
      else if env.conf.FS_READONLY ≠ 0 then (FR_DENIED, k.2)
      else
        let w := env.drv.f_write k.2.file (k.2.buffer.getD (fun _ => 0)) k.2.actualSize
        let fp1 := { k.2 with file := w.2.2 }
        if w.1 ≠ FR_OK then (w.1, fp1)
        else if w.2.1 % UINT_MOD ≠ fp1.actualSize then (FR_INT_ERR, fp1)
        else (FR_OK, { fp1 with unsavedData := 0 })
  else (FR_OK, fp)

/-- The zero-filling loop of `modif_cache`:
`while (offset > fp->actualSize) { buffer[actualSize] = 0; actualSize += 1; }`.
Every turn brings `actualSize` one closer to `offset`, so `offset` turns are enough. -/
def zero_fill : Nat → Nat → Mem → Nat → Mem × Nat
  | 0, _, buf, actualSize => (buf, actualSize)
  | fuel + 1, offset, buf, actualSize =>
      if offset > actualSize then zero_fill fuel offset (poke buf actualSize 0) (actualSize + 1)
      else (buf, actualSize)

/-- The function `modif_cache`; the result is `(res, bw, fp)`. -/
def modif_cache (fp : IO_FileDescriptor σ) (data : List Nat) (position btw : Nat) :
    FRESULT × Nat × IO_FileDescriptor σ :=
  let offset := usub position (umul fp.bufferBegin fp.ssize)
  let z := zero_fill offset offset (fp.buffer.getD (fun _ => 0)) fp.actualSize
  let bw := btw
  let actualSize1 := if z.2 < uadd offset btw then uadd offset btw else z.2
  let actualFileSize1 :=
    if uadd actualSize1 (umul fp.bufferBegin fp.ssize) > fp.actualFileSize
    then uadd actualSize1 (umul fp.bufferBegin fp.ssize) else fp.actualFileSize
  (FR_OK, bw,
    { fp with
      buffer := fp.buffer.map (fun _ => memcpy z.1 offset data btw),
      actualSize := actualSize1,
      unsavedData := 1,
      actualFileSize := actualFileSize1,
      rwPointer := uadd bw position })

/-- The function `free_buffer`. -/
def free_buffer (env : Env σ) (fp : IO_FileDescriptor σ) (ignoreWriteErrors : Nat) :
    FRESULT × IO_FileDescriptor σ :=
  let flushed : FRESULT × IO_FileDescriptor σ :=
    if fp.buffer.isSome then write_cache env fp else (FR_OK, fp)
  if fp.buffer.isSome ∧ ignoreWriteErrors = 0 ∧ flushed.1 ≠ FR_OK then (flushed.1, flushed.2)
  else
    (flushed.1,
      { flushed.2 with
        buffer := none, bufferBegin := 0, bufferSize := 0, unsavedData := 0, actualSize := 0 })

/-- The function `alloc_buffer`. -/
def alloc_buffer (env : Env σ) (fp : IO_FileDescriptor σ) (begin size : Nat) :
    FRESULT × IO_FileDescriptor σ :=
  let fp1 := { fp with bufferSize := size, actualSize := 0, bufferBegin := begin }
  if size = 0 then (FR_INVALID_PARAMETER, fp1)
  else (FR_OK, { fp1 with buffer := env.malloc size })

/-! ## The public functions of `io.c`

A descriptor pointer is an `Option`: `none` is `NULL`. For each public function `f` the
definition `f_body` is the function on a non-null pointer, and `f` adds the `NULL` case. -/

/-- The end of `io_read`, from the computation of `offset` on: position the driver at the
start of the window, read the whole window, update the valid length and the byte count. -/
def io_read_fill (env : Env σ) (fp : IO_FileDescriptor σ) (position btr : Nat) :
    Option Nat × Nat × IO_FileDescriptor σ :=
  let offset := usub position (umul fp.bufferBegin fp.ssize)
  let k := seek env fp (umul fp.bufferBegin fp.ssize)
  if k.1 ≠ FR_OK then (none, 0, k.2)
  else
    let r := env.drv.f_read k.2.file k.2.bufferSize
    let bytesread := r.2.1.length % UINT_MOD
    let fp1 : IO_FileDescriptor σ :=
      { k.2 with
        file := r.2.2,
        buffer := k.2.buffer.map (fun b => memcpy b 0 r.2.1 r.2.1.length) }
    let fp2 : IO_FileDescriptor σ :=
      if fp1.actualSize < bytesread then
        { fp1 with
          actualSize := bytesread,
          actualFileSize :=
            if uadd bytesread (umul fp1.bufferBegin fp1.ssize) > fp1.actualFileSize
            then uadd bytesread (umul fp1.bufferBegin fp1.ssize) else fp1.actualFileSize }
      else fp1
    let br0 := usub bytesread offset
    let br := if br0 > btr then btr else br0
    let fp3 : IO_FileDescriptor σ := { fp2 with rwPointer := uadd br position }
    if r.1 ≠ FR_OK then (none, br, fp3) else (some offset, br, fp3)

/-- The function `io_read` on a non-null descriptor; the result is `(ret, br, fp)` where
`ret` is `none` for `NULL` and `some offset` for the pointer `fp->buffer + offset`. -/
def io_read_body (env : Env σ) (fp : IO_FileDescriptor σ) (position btr : Nat) :
    Option Nat × Nat × IO_FileDescriptor σ :=
  if btr = 0 then (none, 0, fp)
  else if fp.isOpen = 0 then (none, 0, fp)
  else if fp.ssize = 0 then (none, 0, fp)
  else if position ≥ env.drv.f_size fp.file ∧
      position ≥ uadd fp.actualSize (umul fp.bufferBegin fp.ssize) then (none, 0, fp)
  else
    let btr1 :=
      if uadd position btr > env.drv.f_size fp.file ∧
          uadd position btr > uadd fp.actualSize (umul fp.bufferBegin fp.ssize)
      then usub (env.drv.f_size fp.file) position else btr
    let s := buffer_specs fp btr1 position
    if s.1 ≠ FR_OK then (none, 0, fp)
    else
      let buf_exist := buffer_exists fp s.2.1 s.2.2.2
      if buf_exist = 2 then
        (some (usub position (umul fp.bufferBegin fp.ssize)), btr1,
          { fp with rwPointer := uadd btr1 position })
      else if buf_exist = 0 then
        let f := free_buffer env fp 0
        if f.1 ≠ FR_OK then (none, 0, f.2)
        else
          let a := alloc_buffer env f.2 s.2.1 s.2.2.2
          if a.2.buffer.isNone ∨ a.1 ≠ FR_OK then (none, 0, a.2)
          else io_read_fill env a.2 position btr1
      else io_read_fill env fp position btr1

/-- The function `io_read`. -/
def io_read (env : Env σ) (fp : Option (IO_FileDescriptor σ)) (position btr : Nat) :
    Option Nat × Nat × Option (IO_FileDescriptor σ) :=
  match fp with
  | none => (none, 0, none)
  | some d => let r := io_read_body env d position btr; (r.1, r.2.1, some r.2.2)

/-- The function `io_write` on a non-null descriptor; the result is `(res, bw, fp)`. The sum
`position + btw` is formed in 64 bits and cannot wrap for 32-bit operands. -/
def io_write_body (env : Env σ) (fp : IO_FileDescriptor σ) (buff : List Nat)
    (position btw : Nat) : FRESULT × Nat × IO_FileDescriptor σ :=
  if btw = 0 then (FR_OK, 0, fp)
  else if fp.isOpen = 0 then (FR_INVALID_OBJECT, 0, fp)
  else if fp.ssize = 0 then (FR_INT_ERR, 0, fp)
  else if position ≥ MAX_FILE_SIZE then (FR_INVALID_PARAMETER, 0, fp)
  else
    let btw1 :=
      if position + btw > MAX_FILE_SIZE then (MAX_FILE_SIZE - position) % UINT_MOD else btw
    if btw1 = 0 then (FR_OK, 0, fp)
    else
      let s := buffer_specs fp btw1 position
      if s.1 ≠ FR_OK then (s.1, 0, fp)
      else if buffer_exists fp s.2.1 s.2.2.2 ≠ 0 then modif_cache fp buff position btw1
      else
        let f := free_buffer env fp 0
        if f.1 ≠ FR_OK then (f.1, 0, f.2)
        else
          let a := alloc_buffer env f.2 s.2.1 s.2.2.2
          if a.1 ≠ FR_OK then (a.1, 0, a.2)
          else if a.2.buffer.isNone then (FR_INT_ERR, 0, a.2)
          else if position ≠ umul s.2.1 a.2.ssize ∧
              umul s.2.1 a.2.ssize < env.drv.f_size a.2.file then
            let r := io_read_body env a.2 (umul s.2.1 a.2.ssize)
              (usub position (umul s.2.1 a.2.ssize))
            if r.1.isNone then (FR_INT_ERR, 0, r.2.2)
            else modif_cache r.2.2 buff position btw1
          else modif_cache a.2 buff position btw1

/-- The function `io_write`: a zero count is answered before the pointer is looked at. -/
def io_write (env : Env σ) (fp : Option (IO_FileDescriptor σ)) (buff : List Nat)
    (position btw : Nat) : FRESULT × Nat × Option (IO_FileDescriptor σ) :=
  match fp with
  | none => if btw = 0 then (FR_OK, 0, none) else (FR_INVALID_OBJECT, 0, none)
  | some d => let r := io_write_body env d buff position btw; (r.1, r.2.1, some r.2.2)

/-- The function `io_close` on a non-null descriptor: the descriptor is freed, what is left
is the status and the state of the storage. -/
def io_close_body (env : Env σ) (fp : IO_FileDescriptor σ) : FRESULT × σ :=
  let f := free_buffer env fp 1
  let res_return := if f.1 ≠ FR_OK then f.1 else FR_OK
  let c := env.drv.f_close f.2.file
  (if c.1 ≠ FR_OK then c.1 else res_return, c.2)

/-- The function `io_close`. -/
def io_close (env : Env σ) (fp : Option (IO_FileDescriptor σ)) : FRESULT × Option σ :=
  match fp with
  | none => (FR_INVALID_OBJECT, none)
  | some d => let r := io_close_body env d; (r.1, some r.2)

/-- The function `io_open`, started on the storage state `w`; the result is the descriptor
pointer and the storage state (the one inside the descriptor when it succeeds). -/
def io_open (env : Env σ) (w : σ) (path : String) (mode : Nat) :
    Option (IO_FileDescriptor σ) × σ :=
  match allocFileDescriptor env w with
  | none => (none, w)
  | some fp =>
    let mode1 := if mode &&& FA_WRITE ≠ 0 then (mode ||| FA_READ) % BYTE_MOD else mode
    let o := env.drv.f_open fp.file path mode1
    if o.1 ≠ FR_OK then (none, (io_close_body env { fp with file := o.2 }).2)
    else
      let sectorSize :=
        if env.conf.MAX_SS = env.conf.MIN_SS then env.conf.MAX_SS % WORD_MOD
        else env.drv.fs_ssize o.2 % WORD_MOD
      (some
        { fp with
          file := o.2,
          isOpen := 1,
          actualFileSize := env.drv.f_size o.2,
          rwPointer := env.drv.f_tell o.2,
          ssize := umul sectorSize BUF_MULTIPLIER }, o.2)

/-- The function `io_create_contiguous`. -/
def io_create_contiguous (env : Env σ) (w : σ) (path : String) (mode size : Nat) :
    Option (IO_FileDescriptor σ) × σ :=
  if env.conf.USE_EXPAND ≠ 1 ∨ env.conf.FS_READONLY ≠ 0 then (none, w)
  else
    match io_open env w path ((mode ||| (FA_WRITE ||| FA_CREATE_ALWAYS)) % BYTE_MOD) with
    | (none, w1) => (none, w1)
    | (some fp, _) =>
      let e := env.drv.f_expand fp.file size 1
      if e.1 ≠ FR_OK then
        let c := io_close_body env { fp with file := e.2 }
        (none, if env.conf.FS_MINIMIZE = 0 then (env.drv.f_unlink c.2 path).2 else c.2)
      else (some { fp with file := e.2, actualFileSize := size }, e.2)

/-- The function `io_sync` on a non-null descriptor. -/
def io_sync_body (env : Env σ) (fp : IO_FileDescriptor σ) : FRESULT × IO_FileDescriptor σ :=
  if fp.isOpen = 0 then (FR_INVALID_OBJECT, fp)
  else
    let c := write_cache env fp
    if c.1 ≠ FR_OK then (c.1, c.2)
    else if env.conf.FS_READONLY ≠ 0 then (FR_DENIED, c.2)
    else
      let y := env.drv.f_sync c.2.file
      (y.1, { c.2 with file := y.2 })

/-- The function `io_sync`. -/
def io_sync (env : Env σ) (fp : Option (IO_FileDescriptor σ)) :
    FRESULT × Option (IO_FileDescriptor σ) :=
  match fp with
  | none => (FR_INVALID_OBJECT, none)
  | some d => let r := io_sync_body env d; (r.1, some r.2)

/-- The function `io_size`; the second component is `*size` when the call succeeds. -/
def io_size (fp : Option (IO_FileDescriptor σ)) : FRESULT × Nat :=
  match fp with
  | none => (FR_INVALID_OBJECT, 0)
  | some d => io_size_body d

/-- The function `io_tell`. -/
def io_tell (fp : Option (IO_FileDescriptor σ)) : FRESULT × Nat :=
  match fp with
  | none => (FR_INVALID_OBJECT, 0)
  | some d => (FR_OK, d.rwPointer)

/-- The function `io_lseek` on a non-null descriptor. -/
def io_lseek_body (env : Env σ) (fp : IO_FileDescriptor σ) (rwPointer : Nat) :
    FRESULT × IO_FileDescriptor σ :=
  let s := io_size_body fp
  if s.1 ≠ FR_OK then (s.1, fp)
  else
    let p := if rwPointer > s.2 then preallocate env fp rwPointer else (FR_OK, fp)
    if p.1 ≠ FR_OK then (p.1, p.2)
    else
      let s1 := io_size_body p.2
      if s1.1 ≠ FR_OK then (s1.1, p.2)
      else
        let rwPointer1 := if rwPointer > s1.2 then s1.2 else rwPointer
        (FR_OK, if rwPointer1 ≠ p.2.rwPointer then { p.2 with rwPointer := rwPointer1 } else p.2)

/-- The function `io_lseek`. -/
def io_lseek (env : Env σ) (fp : Option (IO_FileDescriptor σ)) (rwPointer : Nat) :
    FRESULT × Option (IO_FileDescriptor σ) :=
  match fp with
  | none => (FR_INVALID_OBJECT, none)
  | some d => let r := io_lseek_body env d rwPointer; (r.1, some r.2)

/-- The last step of `io_truncate`: cut the file on storage when it is longer than
`newSize`. -/
def io_truncate_disk (env : Env σ) (fp : IO_FileDescriptor σ) (newSize : Nat) :
    FRESULT × IO_FileDescriptor σ :=
  if newSize < env.drv.f_size fp.file then
    if env.conf.FS_READONLY ≠ 0 ∨ env.conf.FS_MINIMIZE ≠ 0 then (FR_DENIED, fp)
    else
      let k := seek env fp newSize
      if k.1 ≠ FR_OK then (k.1, k.2)
      else
        let t := env.drv.f_truncate k.2.file
        if t.1 ≠ FR_OK then (t.1, { k.2 with file := t.2 })
        else (FR_OK, { k.2 with file := t.2 })
  else (FR_OK, fp)

/-- The function `io_truncate` on a non-null descriptor. -/
def io_truncate_body (env : Env σ) (fp : IO_FileDescriptor σ) (newSize : Nat) :
    FRESULT × IO_FileDescriptor σ :=
  if fp.isOpen = 0 then (FR_INVALID_OBJECT, fp)
  else
    let s := io_size_body fp
    if s.1 ≠ FR_OK then (s.1, fp)
    else if newSize = s.2 then (FR_OK, fp)
    else if newSize > s.2 then preallocate env fp newSize
    else if newSize < s.2 ∧ newSize ≥ umul fp.bufferBegin fp.ssize then
      io_truncate_disk env
        { fp with
          actualFileSize := newSize,
          actualSize := usub newSize (umul fp.bufferBegin fp.ssize) } newSize
    else if newSize < s.2 ∧ newSize < umul fp.bufferBegin fp.ssize then
      let f := free_buffer env
        { fp with actualFileSize := newSize, actualSize := 0, unsavedData := 0 } 1
      if f.1 ≠ FR_OK then (f.1, f.2)
      else io_truncate_disk env f.2 newSize
    else io_truncate_disk env fp newSize

/-- The function `io_truncate`. -/
def io_truncate (env : Env σ) (fp : Option (IO_FileDescriptor σ)) (newSize : Nat) :
    FRESULT × Option (IO_FileDescriptor σ) :=
  match fp with
  | none => (FR_INVALID_OBJECT, none)
  | some d => let r := io_truncate_body env d newSize; (r.1, some r.2)

/-- The function `io_error`. -/
def io_error (env : Env σ) (fp : Option (IO_FileDescriptor σ)) : FRESULT :=
  match fp with
  | none => FR_INVALID_OBJECT
  | some d =>
    if d.isOpen = 0 then FR_INVALID_OBJECT
    else if env.drv.f_error d.file = 0 then FR_OK
    else FR_DISK_ERR

/-- The packed date word of `io_set_timestamp`:
`(WORD)(((uint32_t)(year - 1980) * 512U) | month * 32U | day)`. -/
def fdate (year month day : Nat) : Nat :=
  ((((year + UINT_MOD - 1980) % UINT_MOD * 512) % UINT_MOD) ||| (month * 32) ||| day) % WORD_MOD

/-- The packed time word of `io_set_timestamp`:
`(WORD)(hour * 2048U | min * 32U | sec / 2U)`. -/
def ftime (hour min sec : Nat) : Nat :=
  ((hour * 2048) ||| (min * 32) ||| (sec / 2)) % WORD_MOD

/-- The function `io_set_timestamp`, on the storage state `w`. -/
def io_set_timestamp (env : Env σ) (w : σ) (path : String)
    (year month day hour min sec : Nat) : FRESULT × σ :=
  if env.conf.FS_READONLY ≠ 0 ∨ env.conf.USE_CHMOD ≠ 1 then (FR_DENIED, w)
  else if year < 1970 ∨ month > 12 ∨ month = 0 ∨ day > 31 ∨ day = 0 ∨ hour > 24 ∨ min > 60
      ∨ sec > 60 then (FR_INVALID_PARAMETER, w)
  else env.drv.f_utime w path (fdate year month day) (ftime hour min sec)

/-! ## The driver of the test suite (`Tests/src/ff.c`)

`ff.c` maps every FatFs call to a POSIX system call on one file descriptor. The state below
is that file: its length, its bytes, the offset of the descriptor and the access mode it
was opened with. System calls on the open file succeed whenever the access mode allows
them (the host has room); `open` fails only for the empty path, as in `OpenInvalidFile`.
A file that does not exist yet is the file of length 0, since `open` is always called
with `O_CREAT`. -/

/-- The file behind the descriptor of `ff.c`. -/
structure PosixFile where
  size : Nat
  data : Mem
  pos : Nat
  rd : Bool
  wr : Bool

/-- The function `f_size` of `ff.c`: the length found by `lseek(fd, 0, SEEK_END)`, cast to
`UINT`; the offset is restored. -/
def posix_f_size (f : PosixFile) : Nat := f.size % UINT_MOD

/-- The function `f_tell` of `ff.c`: `lseek(fd, 0, SEEK_CUR)`, cast to `FSIZE_t`. -/
def posix_f_tell (f : PosixFile) : Nat := f.pos % FSIZE_MOD

/-- The function `f_truncate` of `ff.c`: `ftruncate(fd, f_tell(file))`; bytes added to the
file are zero. -/
def posix_f_truncate (f : PosixFile) : FRESULT × PosixFile :=
  if f.wr then
    (FR_OK,
      { f with
        size := posix_f_tell f,
        data := fun i => if i < f.size ∧ i < posix_f_tell f then f.data i else 0 })
  else (FR_INT_ERR, f)

/-- The function `f_lseek` of `ff.c`: `lseek(fd, ofs, SEEK_SET)`, then `f_truncate` when the
offset lies beyond the end; the result of that `f_truncate` is dropped. -/
def posix_f_lseek (f : PosixFile) (ofs : Nat) : FRESULT × PosixFile :=
  let f1 := { f with pos := ofs }
  if ofs > posix_f_size f1 then (FR_OK, (posix_f_truncate f1).2) else (FR_OK, f1)

/-- The function `f_read` of `ff.c`: `read(fd, buff, btr)` returns the bytes from the offset
up to the end of the file, at most `btr`. On failure `*br` is left as it was (zero in
`io_read`). -/
def posix_f_read (f : PosixFile) (btr : Nat) : FRESULT × List Nat × PosixFile :=
  if f.rd then
    let n := min btr (f.size - f.pos)
    (FR_OK, view f.data f.pos n, { f with pos := f.pos + n })
  else (FR_INT_ERR, [], f)

/-- The function `f_write` of `ff.c`: `write(fd, buff, btw)` stores `btw` bytes at the
offset, growing the file when needed (a hole reads as zeros); a write of no byte changes
nothing. -/
def posix_f_write (f : PosixFile) (buff : Mem) (btw : Nat) : FRESULT × Nat × PosixFile :=
  if f.wr then
    if btw = 0 then (FR_OK, 0, f)
    else
      (FR_OK, btw % UINT_MOD,
        { f with
          size := max f.size (f.pos + btw),
          data := fun i =>
            if f.pos ≤ i ∧ i < f.pos + btw then buff (i - f.pos)
            else if i < f.size then f.data i else 0,
          pos := f.pos + btw })
  else (FR_INT_ERR, 0, f)

/-- The function `f_open` of `ff.c`: the access mode follows `FA_READ` and `FA_WRITE`, the
offset starts at 0, the content is kept (`O_CREAT` without `O_TRUNC`). -/
def posix_f_open (f : PosixFile) (path : String) (mode : Nat) : FRESULT × PosixFile :=
  if path = "" then (FR_INT_ERR, { f with rd := false, wr := false })
  else
    (FR_OK,
      { f with pos := 0, rd := decide (mode &&& FA_READ ≠ 0), wr := decide (mode &&& FA_WRITE ≠ 0) })

/-- The function `f_expand` of `ff.c`: `f_lseek(file, fsz)` then `f_truncate(file)`. -/
def posix_f_expand (f : PosixFile) (fsz _opt : Nat) : FRESULT × PosixFile :=
  posix_f_truncate (posix_f_lseek f fsz).2

/-- The driver of `Tests/src/ff.c`. `f_utime` is not defined there; it is taken to succeed.
`FAKE_SSIZE` is the sector size the tests are built with. -/
def posix (FAKE_SSIZE : Nat) : Driver PosixFile where
  f_open := posix_f_open
  f_close := fun f => (FR_OK, f)
  f_read := posix_f_read
  f_write := posix_f_write
  f_lseek := posix_f_lseek
  f_truncate := posix_f_truncate
  f_sync := fun f => (FR_OK, f)
  f_expand := posix_f_expand
  f_unlink := fun f _ => (FR_OK, { f with size := 0, data := fun _ => 0 })
  f_utime := fun f _ _ _ => (FR_OK, f)
  f_size := posix_f_size
  f_tell := posix_f_tell
  f_error := fun _ => 0
  fs_ssize := fun _ => FAKE_SSIZE

/-- The build options of the test suite: every FatFs function is available, and the sector
size is `FAKE_SSIZE`. -/
def testConf (FAKE_SSIZE : Nat) : FFConf where
  FS_READONLY := 0
  FS_MINIMIZE := 0
  USE_EXPAND := 1
  USE_CHMOD := 1
  MAX_SS := FAKE_SSIZE
  MIN_SS := FAKE_SSIZE

/-- The environment of the test suite: the build options and the driver of `ff.c`, with the
allocator `malloc` (the descriptor itself is always allocated). -/
def testEnv (FAKE_SSIZE : Nat) (malloc : Nat → Option Mem) : Env PosixFile where
  conf := testConf FAKE_SSIZE
  drv := posix FAKE_SSIZE
  malloc := malloc
  allocDescriptor := true
  allocFIL := true

/-- A file on storage, not yet opened, with the given length and bytes. -/
def onDisk (size : Nat) (data : Mem) : PosixFile where
  size := size
  data := fun i => if i < size then data i else 0
  pos := 0
  rd := false
  wr := false

/-- The bytes of a list as a block of memory. -/
def bytesOf (l : List Nat) : Mem := fun i => l.getD i 0

/-- The byte `read` returns at offset `i` of the file: the stored byte below the length,
zero past it (a later extension of the file exposes zeros). -/
def PosixFile.content (f : PosixFile) (i : Nat) : Nat := if i < f.size then f.data i else 0

/-- The descriptor `io_open` builds over the driver of `ff.c` for the file `f`, opened for
reading and writing, with sector unit `ss`. -/
def openedOn (ss : Nat) (f : PosixFile) : IO_FileDescriptor PosixFile where
  isOpen := 1
  ssize := ss
  bufferBegin := 0
  bufferSize := 0
  actualSize := 0
  buffer := none
  file := { f with pos := 0, rd := true, wr := true }
  unsavedData := 0
  actualFileSize := f.size % UINT_MOD
  rwPointer := 0

/-- The state of a descriptor over the driver of `ff.c` whose driver calls all succeed: it
is open on a handle with read and write access, the file on storage is no longer than the
logical size, the valid part of the buffer ends at or before the logical size, and sizes
are values of their C types. -/
structure Inv (fp : IO_FileDescriptor PosixFile) : Prop where
  isOpen : fp.isOpen ≠ 0
  wr : fp.file.wr = true
  rd : fp.file.rd = true
  disk_le : fp.file.size ≤ fp.actualFileSize
  valid_le : fp.bufferBegin * fp.ssize + fp.actualSize ≤ fp.actualFileSize
  size_lt : fp.actualFileSize < FSIZE_MOD
  ssize_lt : fp.ssize < UINT_MOD

/-- What the states reached over the driver of `ff.c` keep besides `Inv`: unsaved data sits in
a buffer, a descriptor without unsaved data has its whole logical size on storage, and the
window starts inside the file on storage. -/
structure Settled (fp : IO_FileDescriptor PosixFile) : Prop where
  backed : fp.unsavedData ≠ 0 → fp.buffer.isSome = true
  clean : fp.unsavedData = 0 → fp.file.size = fp.actualFileSize
  begin_le : fp.bufferBegin * fp.ssize ≤ fp.file.size

/-- The descriptor states a program reaches over the driver of `ff.c` built with sector size
`ss`: it opens or creates a file with write access and then reads, writes, syncs, seeks and
truncates in any order, with arguments that are values of their C types. The allocator may
answer differently at every call. -/
inductive Reachable (ss : Nat) : IO_FileDescriptor PosixFile → Prop where
  | opened (m : Nat → Option Mem) (f : PosixFile) (path : String) (mode : Nat)
      (fp : IO_FileDescriptor PosixFile) :
      ss < WORD_MOD → f.size < UINT_MOD → mode < BYTE_MOD → mode &&& FA_WRITE ≠ 0 →
      (io_open (testEnv ss m) f path mode).1 = some fp → Reachable ss fp
  | created (m : Nat → Option Mem) (f : PosixFile) (path : String) (mode size : Nat)
      (fp : IO_FileDescriptor PosixFile) :
      ss < WORD_MOD → f.size < UINT_MOD → mode < BYTE_MOD → size < FSIZE_MOD →
      (io_create_contiguous (testEnv ss m) f path mode size).1 = some fp → Reachable ss fp
  | read (m : Nat → Option Mem) (fp : IO_FileDescriptor PosixFile) (position btr : Nat) :
      Reachable ss fp → position < UINT_MOD → btr < UINT_MOD →
      Reachable ss (io_read_body (testEnv ss m) fp position btr).2.2
  | write (m : Nat → Option Mem) (fp : IO_FileDescriptor PosixFile) (buff : List Nat)
      (position btw : Nat) :
      Reachable ss fp → position < UINT_MOD → btw < UINT_MOD →
      Reachable ss (io_write_body (testEnv ss m) fp buff position btw).2.2
  | sync (m : Nat → Option Mem) (fp : IO_FileDescriptor PosixFile) :
      Reachable ss fp → Reachable ss (io_sync_body (testEnv ss m) fp).2
  | lseek (m : Nat → Option Mem) (fp : IO_FileDescriptor PosixFile) (rwPointer : Nat) :
      Reachable ss fp → rwPointer < FSIZE_MOD →
      Reachable ss (io_lseek_body (testEnv ss m) fp rwPointer).2
  | truncate (m : Nat → Option Mem) (fp : IO_FileDescriptor PosixFile) (newSize : Nat) :
      Reachable ss fp → newSize < FSIZE_MOD →
      Reachable ss (io_truncate_body (testEnv ss m) fp newSize).2

/-- Invariant 5 of the specification and its companion: unsaved data sits in an allocated
block, and an allocated block has a capacity. -/
structure DirtyBuffered {σ : Type} (fp : IO_FileDescriptor σ) : Prop where
  dirty : fp.unsavedData ≠ 0 → fp.buffer.isSome = true
  sized : fp.buffer.isSome = true → fp.bufferSize ≠ 0

/-- The descriptor states a program reaches over any driver, configuration and allocator,
which may all differ from call to call: it opens or creates a file and then reads, writes,
syncs, seeks and truncates in any order with any arguments, whatever each call returns. -/
inductive Reached {σ : Type} : IO_FileDescriptor σ → Prop where
  | opened (env : Env σ) (w : σ) (path : String) (mode : Nat) (fp : IO_FileDescriptor σ) :
      (io_open env w path mode).1 = some fp → Reached fp
  | created (env : Env σ) (w : σ) (path : String) (mode size : Nat)
      (fp : IO_FileDescriptor σ) :
      (io_create_contiguous env w path mode size).1 = some fp → Reached fp
  | read (env : Env σ) (fp : IO_FileDescriptor σ) (position btr : Nat) :
      Reached fp → Reached (io_read_body env fp position btr).2.2
  | write (env : Env σ) (fp : IO_FileDescriptor σ) (buff : List Nat) (position btw : Nat) :
      Reached fp → Reached (io_write_body env fp buff position btw).2.2
  | sync (env : Env σ) (fp : IO_FileDescriptor σ) :
      Reached fp → Reached (io_sync_body env fp).2
  | lseek (env : Env σ) (fp : IO_FileDescriptor σ) (rwPointer : Nat) :
      Reached fp → Reached (io_lseek_body env fp rwPointer).2
  | truncate (env : Env σ) (fp : IO_FileDescriptor σ) (newSize : Nat) :
      Reached fp → Reached (io_truncate_body env fp newSize).2

/-- The number of turns of the zero-filling loop of `modif_cache`, counted along
`zero_fill`: one for every time the test `offset > fp->actualSize` holds. -/
def zero_fill_steps : Nat → Nat → Nat → Nat
  | 0, _, _ => 0
  | fuel + 1, offset, actualSize =>
      if offset > actualSize then zero_fill_steps fuel offset (actualSize + 1) + 1 else 0

/-- The logical content of the file behind a descriptor over the driver of `ff.c`: the byte
of the buffer at the offsets the valid part of the buffer covers, the byte on storage at
every other offset. -/
def logicalContent (fp : IO_FileDescriptor PosixFile) (i : Nat) : Nat :=
  match fp.buffer with
  | some b =>
    if fp.bufferBegin * fp.ssize ≤ i ∧ i < fp.bufferBegin * fp.ssize + fp.actualSize
    then b (i - fp.bufferBegin * fp.ssize) else fp.file.content i
  | none => fp.file.content i

/-! ## Concrete scenarios -/

/-- The open descriptor of an empty file with 16-byte sectors. -/
def fresh16 : IO_FileDescriptor PosixFile := openedOn 16 (onDisk 0 (fun _ => 0))

/-- The test environment with 16-byte sectors (`FAKE_SSIZE 16`); every allocation succeeds
and a fresh block holds `0xAA`. -/
def env16 : Env PosixFile := testEnv 16 (fun _ => some (fun _ => 170))

/-- Ten bytes of data. -/
def data10 : List Nat := [1, 2, 3, 4, 5, 6, 7, 8, 9, 10]

/-- The descriptor of a newly created empty file, as `io_open(filename, FA_WRITE)` returns
it. -/
def emptyOpened : Option (IO_FileDescriptor PosixFile) :=
  (io_open env16 (onDisk 0 (fun _ => 0)) "testTmpFile" FA_WRITE).1

/-- The descriptor of an existing file holding `data10`, opened for reading and writing. -/
def tenOpened : Option (IO_FileDescriptor PosixFile) :=
  (io_open env16 (onDisk 10 (bytesOf data10)) "testTmpFile" (FA_WRITE ||| FA_READ)).1

/-- A driver that behaves as `ff.c` except that `f_read` reports a disk error after it has
delivered the bytes (FatFs's own `f_read` counts the bytes of the sectors it has read
before a later sector fails). -/
def brokenRead : Driver PosixFile :=
  { posix 16 with
    f_read := fun f btr => (FR_DISK_ERR, (posix_f_read f btr).2.1, (posix_f_read f btr).2.2) }

/-- The test environment over `brokenRead`. -/
def envBrokenRead : Env PosixFile := { env16 with drv := brokenRead }

/-- A driver that behaves as `ff.c` except that `f_read` fails at once: it delivers no byte
and leaves `*br` as it was. -/
def failingRead : Driver PosixFile :=
  { posix 16 with f_read := fun f _ => (FR_DISK_ERR, [], f) }

/-- The test environment over `failingRead`. -/
def envFailingRead : Env PosixFile := { env16 with drv := failingRead }

/-- The descriptor after `data10` has been written at offset 0 of a newly opened empty
file. -/
def tenWritten : IO_FileDescriptor PosixFile := (io_write_body env16 fresh16 data10 0 10).2.2

/-- The open descriptor of an existing file of 4294967280 bytes (a whole number of 16-byte
sectors, 14 bytes below the ceiling). -/
def alignedNearCeiling : IO_FileDescriptor PosixFile :=
  openedOn 16 (onDisk 4294967280 (fun _ => 5))

/-- The open descriptor of an existing file of 20000 bytes with 16-byte sectors. -/
def bigFile : IO_FileDescriptor PosixFile := openedOn 16 (onDisk 20000 (fun _ => 5))

/-- The open descriptor of an existing file of 50 bytes with 16-byte sectors. -/
def fifty : IO_FileDescriptor PosixFile := openedOn 16 (onDisk 50 (fun i => i + 1))

/-- The descriptor of the 50-byte file after three bytes have been written at offset 40: the
window starts at byte 32 and is dirty. -/
def dirtyFifty : IO_FileDescriptor PosixFile := (io_write_body env16 fifty [9, 9, 9] 40 3).2.2

/-- The descriptor of an existing file of 64 bytes (byte `i` holds `i + 1`) after four bytes
have been read at offset 0: the window is the first sector, wholly valid and clean. -/
def readSixtyFour : IO_FileDescriptor PosixFile :=
  (io_read_body env16 (openedOn 16 (onDisk 64 (fun i => i + 1))) 0 4).2.2

/-- A driver that behaves as `ff.c` on a volume with room for a file of `room` bytes only: a
seek past that point stops there and still reports success, as FatFs does when the volume is
full. -/
def fullDisk (room : Nat) : Driver PosixFile :=
  { posix 16 with f_lseek := fun f ofs => posix_f_lseek f (min ofs room) }

/-- The test environment over a volume with room for 30 bytes. -/
def envFullDisk : Env PosixFile := { env16 with drv := fullDisk 30 }

/-- The open descriptor of an existing file of 4294967264 bytes, two 16-byte sectors below
4 GiB. -/
def twoSectorsBelow : IO_FileDescriptor PosixFile :=
  openedOn 16 (onDisk 4294967264 (fun _ => 5))

/-- The descriptor after 18 bytes have been written at the end of that file: the window is
the last two sectors below 4 GiB. -/
def lastWindow : IO_FileDescriptor PosixFile :=
  (io_write_body env16 twoSectorsBelow (List.replicate 18 1) 4294967264 18).2.2

/-- The descriptor after a second write of two bytes inside that window. -/
def secondWindow : IO_FileDescriptor PosixFile :=
  (io_write_body env16 lastWindow [2, 2] 4294967266 2).2.2

/-- A driver that behaves as `ff.c` except that `f_write` fails with `FR_DISK_ERR` and
`f_close` with `FR_TIMEOUT`. -/
def failingWriteClose : Driver PosixFile :=
  { posix 16 with
    f_write := fun f _ _ => (FR_DISK_ERR, 0, f)
    f_close := fun f => (FR_TIMEOUT, f) }

/-- The test environment over `failingWriteClose`. -/
def envFailingWriteClose : Env PosixFile := { env16 with drv := failingWriteClose }

/-- The descriptor of an existing 64-byte file right after `io_truncate(40)`: no buffer was
ever allocated. -/
def truncatedUnbuffered : IO_FileDescriptor PosixFile :=
  (io_truncate_body env16 (openedOn 16 (onDisk 64 (fun i => i + 1))) 40).2

/-- The open descriptor of a file of 4294967295 bytes with a sector unit of one byte. -/
def byteSectors : IO_FileDescriptor PosixFile := openedOn 1 (onDisk 4294967295 (fun _ => 5))

/-- The descriptor of the file of 4294967280 bytes with a fresh 16-byte buffer on sector
268435455, the last one below 4 GiB. -/
def lastSectorBuffer : IO_FileDescriptor PosixFile :=
  (alloc_buffer env16 alignedNearCeiling 268435455 16).2

/-- The open descriptor of an existing file of 4294967266 bytes with 16-byte sectors. -/
def thirtyBelow : IO_FileDescriptor PosixFile := openedOn 16 (onDisk 4294967266 (fun _ => 5))

/-- A driver that behaves as `ff.c` except that `f_write` stores and reports one byte less
than it was asked for, as a volume that fills up does. -/
def shortWrite : Driver PosixFile :=
  { posix 16 with f_write := fun f buff btw => posix_f_write f buff (btw - 1) }

/-- The test environment over `shortWrite`. -/
def envShortWrite : Env PosixFile := { env16 with drv := shortWrite }

/-- The open descriptor of an existing file holding `data10`. -/
def tenOnDisk : IO_FileDescriptor PosixFile := openedOn 16 (onDisk 10 (bytesOf data10))

/-- The open descriptor of an existing file of 4294967292 bytes (byte `i` holds `i % 251`). -/
def fourBelow : IO_FileDescriptor PosixFile := openedOn 16 (onDisk 4294967292 (fun i => i % 251))

/-- That descriptor after 16 bytes have been read at offset 16000: the window is sector 1000,
wholly valid and clean. -/
def fourBelowRead : IO_FileDescriptor PosixFile := (io_read_body env16 fourBelow 16000 16).2.2

/-- The descriptor of the 50-byte file after two bytes have been written at offset 32, the
start of a sector: the window is bytes 32 to 47, of which two are valid. -/
def twoAtThirtyTwo : IO_FileDescriptor PosixFile := (io_write_body env16 fifty [9, 9] 32 2).2.2

/-- The descriptor after a second write of two bytes at offset 40, inside the same window. -/
def twoAtForty : IO_FileDescriptor PosixFile :=
  (io_write_body env16 twoAtThirtyTwo [7, 7] 40 2).2.2

/-- The descriptor `twoAtThirtyTwo` after the two bytes just written have been read back. -/
def readBack : IO_FileDescriptor PosixFile := (io_read_body env16 twoAtThirtyTwo 32 2).2.2

/-- The descriptor `io_open` returns for a new empty file on a volume with room for 30
bytes. -/
def newOnFullDisk : Option (IO_FileDescriptor PosixFile) :=
  (io_open envFullDisk (onDisk 0 (fun _ => 0)) "testTmpFile" FA_WRITE).1

/-- That descriptor after `io_write` of 40 bytes at offset 0: the bytes are in the buffer,
nothing has reached the volume yet. -/
def fortyBuffered : Option (IO_FileDescriptor PosixFile) :=
  (io_write envFullDisk newOnFullDisk (List.replicate 40 7) 0 40).2.2

/-- The descriptor after `io_lseek(100)` on top of that: the volume is full at 30 bytes, the
seek of `preallocate` stops there and reports success. -/
def clippedSeek : Option (IO_FileDescriptor PosixFile) :=
  (io_lseek envFullDisk fortyBuffered 100).2

/-- The descriptor `io_open` returns for an existing file holding `data10`, opened with
`FA_READ` over the driver of the tests. -/
def readOnlyTen : Option (IO_FileDescriptor PosixFile) :=
  (io_open env16 (onDisk 10 (bytesOf data10)) "testTmpFile" FA_READ).1

/-- The descriptor `io_open` returns for an existing file of 50 bytes, opened with
`FA_READ` over the driver of the tests. -/
def readOnlyFifty : Option (IO_FileDescriptor PosixFile) :=
  (io_open env16 (onDisk 50 (fun i => i + 1)) "testTmpFile" FA_READ).1

/-! ## Theorems -/

section Ceiling

variable {σ : Type}

/-- A write that starts at or past `MAX_FILE_SIZE` leaves `io_write` at its ceiling guard. -/
theorem io_write_body_ceiling (env : Env σ) (fp : IO_FileDescriptor σ) (buff : List Nat)
    (position btw : Nat) (hopen : fp.isOpen ≠ 0) (hss : fp.ssize ≠ 0)
    (hpos : MAX_FILE_SIZE ≤ position) (hbtw : 1 ≤ btw) :
    io_write_body env fp buff position btw = (FR_INVALID_PARAMETER, 0, fp) := by
  have h0 : btw ≠ 0 := by omega
  simp [io_write_body, h0, hopen, hss, hpos]

end Ceiling

/-! ### Machine arithmetic -/

theorem uadd_eq {a b : Nat} (h : a + b < UINT_MOD) : uadd a b = a + b := by
  unfold uadd; exact Nat.mod_eq_of_lt h

theorem umul_eq {a b : Nat} (h : a * b < UINT_MOD) : umul a b = a * b := by
  unfold umul; exact Nat.mod_eq_of_lt h

theorem usub_eq {a b : Nat} (ha : a < UINT_MOD) (hb : b ≤ a) : usub a b = a - b := by
  unfold usub
  have hb' : b < UINT_MOD := by omega
  rw [Nat.mod_eq_of_lt ha, Nat.mod_eq_of_lt hb']
  have : a + UINT_MOD - b = (a - b) + UINT_MOD := by omega
  rw [this, Nat.add_mod_right]
  exact Nat.mod_eq_of_lt (by omega)

set_option maxRecDepth 100000 in
theorem mode_bits : ∀ m < 256, m &&& FA_WRITE ≠ 0 →
    ((m ||| FA_READ) % BYTE_MOD) &&& FA_READ ≠ 0 ∧ ((m ||| FA_READ) % BYTE_MOD) &&& FA_WRITE ≠ 0 := by
  decide

theorem zero_fill_spec (fuel offset : Nat) : ∀ (buf : Mem) (a : Nat), offset - a ≤ fuel →
    zero_fill fuel offset buf a = (fun j => if a ≤ j ∧ j < offset then 0 else buf j, max a offset) := by
  induction fuel with
  | zero =>
    intro buf a h
    have h1 : offset ≤ a := by omega
    simp only [zero_fill]
    refine Prod.ext ?_ ?_
    · funext j
      have : ¬ (a ≤ j ∧ j < offset) := by omega
      simp [this]
    · simp [Nat.max_eq_left h1]
  | succ n ih =>
    intro buf a h
    simp only [zero_fill]
    split
    · rename_i hlt
      rw [ih _ _ (by omega)]
      refine Prod.ext ?_ ?_
      · funext j
        simp only [poke]
        by_cases h1 : a + 1 ≤ j ∧ j < offset
        · have : a ≤ j ∧ j < offset := by omega
          simp [h1, this]
        · by_cases h2 : j = a
          · have : a ≤ j ∧ j < offset := by omega
            subst h2
            simp [hlt]
          · have : ¬ (a ≤ j ∧ j < offset) := by omega
            simp [h1, h2, this]
      · simp; omega
    · rename_i hlt
      have h1 : offset ≤ a := by omega
      refine Prod.ext ?_ ?_
      · funext j
        have : ¬ (a ≤ j ∧ j < offset) := by omega
        simp [this]
      · simp [Nat.max_eq_left h1]

theorem io_open_testEnv (ss : Nat) (m : Nat → Option Mem) (f : PosixFile) (path : String)
    (mode : Nat) (hp : path ≠ "") (hm : mode < 256) (hw : mode &&& FA_WRITE ≠ 0)
    (hss : ss < WORD_MOD) :
    io_open (testEnv ss m) f path mode = (some (openedOn ss f), (openedOn ss f).file) := by
  have hb := mode_bits mode hm hw
  simp [io_open, allocFileDescriptor, testEnv, posix, hw, posix_f_open, hp, hb.1, hb.2, testConf,
    openedOn, posix_f_size, posix_f_tell, umul, BUF_MULTIPLIER, Nat.mod_eq_of_lt hss]
  simp only [WORD_MOD, UINT_MOD] at *
  omega



/-! ### Geometry -/

section Specs
variable {σ : Type}

theorem div_mul_le' (a s : Nat) : a / s * s ≤ a := Nat.div_mul_le_self a s

theorem lt_div_mul_add (a s : Nat) (hs : 0 < s) : a < a / s * s + s := by
  have h2 := Nat.div_add_mod a s
  have h3 := Nat.mod_lt a hs
  rw [Nat.mul_comm] at h2
  omega

/-- window begin chosen by buffer_specs -/
theorem buffer_specs_eq (fp : IO_FileDescriptor σ) (bytes start : Nat)
    (hss : 0 < fp.ssize) (hssu : fp.ssize < UINT_MOD) (hb : 1 ≤ bytes)
    (hsum : start + bytes ≤ UINT_MOD) :
    buffer_specs fp bytes start =
      if ((start + bytes - 1) / fp.ssize
            - (if start / fp.ssize * fp.ssize > fp.actualFileSize
                then fp.actualFileSize / fp.ssize else start / fp.ssize) + 1) * fp.ssize
          > MAX_BUFFER_SIZE
      then (FR_NOT_ENOUGH_CORE, 0, 0, 0)
      else (FR_OK,
        (if start / fp.ssize * fp.ssize > fp.actualFileSize
          then fp.actualFileSize / fp.ssize else start / fp.ssize),
        (start + bytes - 1) / fp.ssize,
        ((start + bytes - 1) / fp.ssize
            - (if start / fp.ssize * fp.ssize > fp.actualFileSize
                then fp.actualFileSize / fp.ssize else start / fp.ssize) + 1) * fp.ssize) := by
  have hss0 : fp.ssize ≠ 0 := by omega
  have hmul : umul (start / fp.ssize) fp.ssize = start / fp.ssize * fp.ssize := by
    apply umul_eq
    have := div_mul_le' start fp.ssize
    omega
  have hstart : start < UINT_MOD := by omega
  have he : (start + bytes + U64_MOD - 1) % U64_MOD = start + bytes - 1 := by
    have : start + bytes + U64_MOD - 1 = (start + bytes - 1) + U64_MOD := by omega
    rw [this, Nat.add_mod_right]
    apply Nat.mod_eq_of_lt
    simp only [UINT_MOD, U64_MOD] at *
    omega
  have hble : (if start / fp.ssize * fp.ssize > fp.actualFileSize
          then fp.actualFileSize / fp.ssize else start / fp.ssize) ≤ start / fp.ssize := by
    split
    · rename_i h
      apply Nat.div_le_div_right
      have := div_mul_le' start fp.ssize
      omega
    · exact le_refl _
  have hse : start / fp.ssize ≤ (start + bytes - 1) / fp.ssize :=
    Nat.div_le_div_right (by omega)
  have helt : (start + bytes - 1) / fp.ssize < UINT_MOD :=
    lt_of_le_of_lt (Nat.div_le_self _ _) (by omega)
  simp only [buffer_specs, hss0, if_false, hmul, he]
  generalize (if start / fp.ssize * fp.ssize > fp.actualFileSize
          then fp.actualFileSize / fp.ssize else start / fp.ssize) = b at hble ⊢
  generalize (start + bytes - 1) / fp.ssize = e at hse helt ⊢
  have hd : (e + U64_MOD - b + 1) % U64_MOD = e - b + 1 := by
    have : e + U64_MOD - b + 1 = (e - b + 1) + U64_MOD := by omega
    rw [this, Nat.add_mod_right]
    apply Nat.mod_eq_of_lt
    simp only [UINT_MOD, U64_MOD] at *
    omega
  have hprod : (e - b + 1) * fp.ssize < U64_MOD := by
    have h1 : e - b + 1 ≤ UINT_MOD := by omega
    calc (e - b + 1) * fp.ssize ≤ UINT_MOD * fp.ssize := Nat.mul_le_mul_right _ h1
      _ < UINT_MOD * UINT_MOD := Nat.mul_lt_mul_of_pos_left hssu (by decide)
      _ = U64_MOD := by decide
  rw [hd, Nat.mod_eq_of_lt hprod]
  split
  · rfl
  · rename_i hcap
    have hsz : (e - b + 1) * fp.ssize < UINT_MOD := by
      simp only [MAX_BUFFER_SIZE, UINT_MOD] at *
      omega
    rw [Nat.mod_eq_of_lt helt, Nat.mod_eq_of_lt hsz, Nat.mod_eq_of_lt (show b < UINT_MOD by omega)]

end Specs

/-! ### The driver of `ff.c` -/

section PosixLemmas

theorem posix_f_lseek_fst (f : PosixFile) (ofs : Nat) : (posix_f_lseek f ofs).1 = FR_OK := by
  unfold posix_f_lseek; simp only []; split <;> rfl

theorem posix_f_lseek_pos (f : PosixFile) (ofs : Nat) : (posix_f_lseek f ofs).2.pos = ofs := by
  unfold posix_f_lseek posix_f_truncate; simp only []; split
  · split <;> rfl
  · rfl

theorem posix_f_lseek_wr (f : PosixFile) (ofs : Nat) : (posix_f_lseek f ofs).2.wr = f.wr := by
  unfold posix_f_lseek posix_f_truncate; simp only []; split
  · split <;> rfl
  · rfl

theorem posix_f_lseek_rd (f : PosixFile) (ofs : Nat) : (posix_f_lseek f ofs).2.rd = f.rd := by
  unfold posix_f_lseek posix_f_truncate; simp only []; split
  · split <;> rfl
  · rfl

theorem posix_f_lseek_size (f : PosixFile) (ofs : Nat) (hw : f.wr = true)
    (hs : f.size < UINT_MOD) (ho : ofs < UINT_MOD) :
    (posix_f_lseek f ofs).2.size = max f.size ofs := by
  unfold posix_f_lseek posix_f_truncate posix_f_size posix_f_tell
  simp only [hw, if_true, Nat.mod_eq_of_lt hs]
  split
  · simp only [FSIZE_MOD]; simp only [UINT_MOD] at ho; rw [Nat.mod_eq_of_lt ho]; omega
  · simp only []; omega

theorem posix_f_lseek_content (f : PosixFile) (ofs : Nat)
    (hs : f.size < UINT_MOD) (ho : ofs < UINT_MOD) :
    (posix_f_lseek f ofs).2.content = f.content := by
  funext i
  unfold posix_f_lseek posix_f_truncate posix_f_size posix_f_tell PosixFile.content
  simp only [Nat.mod_eq_of_lt hs]
  simp only [UINT_MOD] at ho
  simp only [FSIZE_MOD, Nat.mod_eq_of_lt ho]
  split
  · split
    · simp only []
      by_cases h1 : i < f.size
      · have : i < ofs := by omega
        simp [h1, this]
      · simp [h1]
    · rfl
  · rfl

theorem posix_f_write_fst (f : PosixFile) (buf : Mem) (n : Nat) (hw : f.wr = true) :
    (posix_f_write f buf n).1 = FR_OK := by
  unfold posix_f_write; simp only [hw, if_true]; split <;> rfl

theorem posix_f_write_count (f : PosixFile) (buf : Mem) (n : Nat) (hw : f.wr = true) :
    (posix_f_write f buf n).2.1 = n % UINT_MOD := by
  unfold posix_f_write; simp only [hw, if_true]; split
  · rename_i h; subst h; rfl
  · rfl

theorem posix_f_write_wr (f : PosixFile) (buf : Mem) (n : Nat) :
    (posix_f_write f buf n).2.2.wr = f.wr := by
  unfold posix_f_write; split
  · split <;> rfl
  · rfl

theorem posix_f_write_rd (f : PosixFile) (buf : Mem) (n : Nat) :
    (posix_f_write f buf n).2.2.rd = f.rd := by
  unfold posix_f_write; split
  · split <;> rfl
  · rfl

theorem posix_f_write_size (f : PosixFile) (buf : Mem) (n : Nat) (hw : f.wr = true) :
    (posix_f_write f buf n).2.2.size = if n = 0 then f.size else max f.size (f.pos + n) := by
  unfold posix_f_write; simp only [hw, if_true]; split <;> rfl

theorem posix_f_write_content (f : PosixFile) (buf : Mem) (n : Nat) (hw : f.wr = true) (i : Nat) :
    (posix_f_write f buf n).2.2.content i
      = if f.pos ≤ i ∧ i < f.pos + n then buf (i - f.pos) else f.content i := by
  unfold posix_f_write PosixFile.content; simp only [hw, if_true]
  split
  · rename_i h; subst h
    have : ¬ (f.pos ≤ i ∧ i < f.pos) := by omega
    simp [this]
  · simp only []
    by_cases h1 : f.pos ≤ i ∧ i < f.pos + n
    · have : i < max f.size (f.pos + n) := by omega
      simp [h1, this]
    · by_cases h2 : i < f.size
      · have : i < max f.size (f.pos + n) := by omega
        simp [h1, h2, this]
      · simp [h1, h2]

end PosixLemmas

/-! ### The paths through `io_write` and `io_read` -/

section Paths
variable {σ : Type}

theorem io_write_body_match (env : Env σ) (fp : IO_FileDescriptor σ) (buff : List Nat)
    (position btw btw1 b e sz : Nat) (h0 : btw ≠ 0) (hopen : fp.isOpen ≠ 0)
    (hss : fp.ssize ≠ 0) (hpos : position < MAX_FILE_SIZE)
    (hc : (if position + btw > MAX_FILE_SIZE then (MAX_FILE_SIZE - position) % UINT_MOD
      else btw) = btw1)
    (hb1 : btw1 ≠ 0) (hs : buffer_specs fp btw1 position = (FR_OK, b, e, sz))
    (hm : buffer_exists fp b sz ≠ 0) :
    io_write_body env fp buff position btw = modif_cache fp buff position btw1 := by
  have hpos' : ¬ position ≥ MAX_FILE_SIZE := by omega
  simp only [io_write_body, h0, hopen, hss, hpos', if_false, hc, hb1, hs, ne_eq,
    not_true_eq_false, hm, not_false_eq_true, if_true]

theorem io_write_body_nomatch (env : Env σ) (fp f a : IO_FileDescriptor σ) (buff : List Nat)
    (position btw btw1 b e sz : Nat) (h0 : btw ≠ 0) (hopen : fp.isOpen ≠ 0)
    (hss : fp.ssize ≠ 0) (hpos : position < MAX_FILE_SIZE)
    (hc : (if position + btw > MAX_FILE_SIZE then (MAX_FILE_SIZE - position) % UINT_MOD
      else btw) = btw1)
    (hb1 : btw1 ≠ 0) (hs : buffer_specs fp btw1 position = (FR_OK, b, e, sz))
    (hm : buffer_exists fp b sz = 0) (hf : free_buffer env fp 0 = (FR_OK, f))
    (ha : alloc_buffer env f b sz = (FR_OK, a)) (hbuf : a.buffer.isSome = true) :
    io_write_body env fp buff position btw =
      if position ≠ umul b a.ssize ∧ umul b a.ssize < env.drv.f_size a.file then
        if (io_read_body env a (umul b a.ssize) (usub position (umul b a.ssize))).1.isNone
        then (FR_INT_ERR, 0,
          (io_read_body env a (umul b a.ssize) (usub position (umul b a.ssize))).2.2)
        else modif_cache
          (io_read_body env a (umul b a.ssize) (usub position (umul b a.ssize))).2.2
          buff position btw1
      else modif_cache a buff position btw1 := by
  have hpos' : ¬ position ≥ MAX_FILE_SIZE := by omega
  have hbuf' : ¬ a.buffer.isNone = true := by
    cases h : a.buffer <;> simp_all
  simp only [io_write_body, h0, hopen, hss, hpos', if_false, hc, hb1, hs, ne_eq,
    not_true_eq_false, hm, not_false_eq_true, if_true, hf, ha, hbuf', Bool.false_eq_true]


theorem io_read_body_full (env : Env σ) (fp : IO_FileDescriptor σ)
    (position btr btr1 b e sz : Nat) (h0 : btr ≠ 0) (hopen : fp.isOpen ≠ 0)
    (hss : fp.ssize ≠ 0)
    (heof : ¬ (position ≥ env.drv.f_size fp.file ∧
      position ≥ uadd fp.actualSize (umul fp.bufferBegin fp.ssize)))
    (hc : (if uadd position btr > env.drv.f_size fp.file ∧
          uadd position btr > uadd fp.actualSize (umul fp.bufferBegin fp.ssize)
      then usub (env.drv.f_size fp.file) position else btr) = btr1)
    (hs : buffer_specs fp btr1 position = (FR_OK, b, e, sz))
    (hm : buffer_exists fp b sz = 2) :
    io_read_body env fp position btr =
      (some (usub position (umul fp.bufferBegin fp.ssize)), btr1,
        { fp with rwPointer := uadd btr1 position }) := by
  simp only [io_read_body, h0, hopen, hss, heof, if_false, hc, hs, ne_eq,
    not_true_eq_false, hm, if_true]

theorem io_read_body_refill (env : Env σ) (fp : IO_FileDescriptor σ)
    (position btr btr1 b e sz : Nat) (h0 : btr ≠ 0) (hopen : fp.isOpen ≠ 0)
    (hss : fp.ssize ≠ 0)
    (heof : ¬ (position ≥ env.drv.f_size fp.file ∧
      position ≥ uadd fp.actualSize (umul fp.bufferBegin fp.ssize)))
    (hc : (if uadd position btr > env.drv.f_size fp.file ∧
          uadd position btr > uadd fp.actualSize (umul fp.bufferBegin fp.ssize)
      then usub (env.drv.f_size fp.file) position else btr) = btr1)
    (hs : buffer_specs fp btr1 position = (FR_OK, b, e, sz))
    (hm : buffer_exists fp b sz = 1) :
    io_read_body env fp position btr = io_read_fill env fp position btr1 := by
  simp only [io_read_body, h0, hopen, hss, heof, if_false, hc, hs, ne_eq,
    not_true_eq_false, hm, if_true, OfNat.one_ne_ofNat, one_ne_zero]

end Paths

/-! ### The helpers of `io.c` over the driver of `ff.c` -/

section TestEnvLemmas
variable (ss : Nat) (m : Nat → Option Mem)

theorem view_length (mem : Mem) (off n : Nat) : (view mem off n).length = n := by
  simp [view]

theorem view_getD (mem : Mem) (off n j : Nat) :
    (view mem off n).getD j 0 = if j < n then mem (off + j) else 0 := by
  unfold view
  by_cases h : j < n
  · simp [h, List.getD_eq_getElem?_getD, List.getElem?_map, List.getElem?_range h]
  · simp [h, List.getD_eq_getElem?_getD]
    rw [List.getElem?_eq_none]
    · rfl
    · simp; omega

theorem seek_testEnv (fp : IO_FileDescriptor PosixFile) (ofs : Nat) (ho : fp.isOpen ≠ 0) :
    seek (testEnv ss m) fp ofs = (FR_OK, { fp with file := (posix_f_lseek fp.file ofs).2 }) := by
  simp [seek, ho, testEnv, testConf, posix, posix_f_lseek_fst]

theorem preallocate_testEnv (fp : IO_FileDescriptor PosixFile) (size : Nat)
    (ho : fp.isOpen ≠ 0) :
    preallocate (testEnv ss m) fp size =
      if size ≤ posix_f_size fp.file then (FR_OK, fp)
      else (FR_OK,
        { fp with
          file := (posix_f_lseek fp.file size).2,
          actualFileSize := size % FSIZE_MOD }) := by
  unfold preallocate
  simp only [ho, if_false, seek_testEnv ss m fp size ho]
  simp [testEnv, posix, posix_f_tell, posix_f_lseek_pos]


theorem umul_exact_of_inv {fp : IO_FileDescriptor PosixFile} (h : Inv fp) :
    umul fp.bufferBegin fp.ssize = fp.bufferBegin * fp.ssize := by
  apply umul_eq
  have h1 := h.valid_le
  have h2 := h.size_lt
  simp only [FSIZE_MOD, UINT_MOD] at *
  omega

theorem write_cache_testEnv (fp : IO_FileDescriptor PosixFile) (h : Inv fp) :
    ∃ F : PosixFile,
      write_cache (testEnv ss m) fp = (FR_OK, { fp with file := F, unsavedData := 0 }) ∧
      F.wr = true ∧ F.rd = true ∧
      F.size = (if fp.unsavedData ≠ 0 then fp.actualFileSize else fp.file.size) ∧
      ∀ i, F.content i =
        if fp.unsavedData ≠ 0 ∧ fp.bufferBegin * fp.ssize ≤ i ∧
            i < fp.bufferBegin * fp.ssize + fp.actualSize
        then (fp.buffer.getD (fun _ => 0)) (i - fp.bufferBegin * fp.ssize)
        else fp.file.content i := by
  have hL := h.size_lt
  have hd := h.disk_le
  have hv := h.valid_le
  have hmul := umul_exact_of_inv h
  simp only [FSIZE_MOD] at hL
  have hsz : fp.file.size < UINT_MOD := by simp only [UINT_MOD]; omega
  by_cases hu : fp.unsavedData = 0
  · refine ⟨fp.file, ?_, h.wr, h.rd, by simp [hu], by simp [hu]⟩
    unfold write_cache
    simp only [h.isOpen, if_false, hu, ne_eq, not_true_eq_false]
    cases fp
    simp_all
  · -- the file after `preallocate`
    let F0 : PosixFile :=
      if fp.actualFileSize ≤ posix_f_size fp.file then fp.file
      else (posix_f_lseek fp.file fp.actualFileSize).2
    have hF0wr : F0.wr = true := by
      simp only [F0]; split
      · exact h.wr
      · rw [posix_f_lseek_wr]; exact h.wr
    have hF0rd : F0.rd = true := by
      simp only [F0]; split
      · exact h.rd
      · rw [posix_f_lseek_rd]; exact h.rd
    have hF0size : F0.size = fp.actualFileSize := by
      simp only [F0]; split
      · rename_i hle
        unfold posix_f_size at hle
        rw [Nat.mod_eq_of_lt hsz] at hle
        omega
      · rw [posix_f_lseek_size _ _ h.wr hsz (by simp only [UINT_MOD]; omega)]
        omega
    have hF0content : F0.content = fp.file.content := by
      simp only [F0]; split
      · rfl
      · exact posix_f_lseek_content _ _ hsz (by simp only [UINT_MOD]; omega)
    let F1 : PosixFile := (posix_f_lseek F0 (fp.bufferBegin * fp.ssize)).2
    have hF0lt : F0.size < UINT_MOD := by rw [hF0size]; simp only [UINT_MOD]; omega
    have hPlt : fp.bufferBegin * fp.ssize < UINT_MOD := by simp only [UINT_MOD]; omega
    have hF1wr : F1.wr = true := by simp only [F1]; rw [posix_f_lseek_wr]; exact hF0wr
    have hF1rd : F1.rd = true := by simp only [F1]; rw [posix_f_lseek_rd]; exact hF0rd
    have hF1size : F1.size = fp.actualFileSize := by
      simp only [F1]; rw [posix_f_lseek_size _ _ hF0wr hF0lt hPlt, hF0size]; omega
    have hF1pos : F1.pos = fp.bufferBegin * fp.ssize := posix_f_lseek_pos _ _
    have hF1content : F1.content = fp.file.content := by
      simp only [F1]; rw [posix_f_lseek_content _ _ hF0lt hPlt, hF0content]
    let buf : Mem := fp.buffer.getD (fun _ => 0)
    refine ⟨(posix_f_write F1 buf fp.actualSize).2.2, ?_, ?_, ?_, ?_, ?_⟩
    · unfold write_cache
      have has : fp.actualSize % UINT_MOD = fp.actualSize :=
        Nat.mod_eq_of_lt (by simp only [UINT_MOD]; omega)
      simp only [h.isOpen, if_false, hu, ne_eq, not_false_eq_true, if_true, io_size_body,
        not_true_eq_false, preallocate_testEnv ss m fp _ h.isOpen]
      have hLmod : fp.actualFileSize % FSIZE_MOD = fp.actualFileSize :=
        Nat.mod_eq_of_lt (by simp only [FSIZE_MOD]; omega)
      by_cases hle : fp.actualFileSize ≤ posix_f_size fp.file
      · have hF0 : F0 = fp.file := by simp only [F0, hle, if_true]
        simp only [hle, if_true, seek_testEnv ss m fp _ h.isOpen, hmul, not_true_eq_false,
          if_false]
        simp only [testEnv, testConf, posix, ne_eq, not_true_eq_false, if_false]
        have e1 : (posix_f_lseek fp.file (fp.bufferBegin * fp.ssize)).2 = F1 := by
          simp only [F1, hF0]
        simp only [e1, posix_f_write_fst F1 _ _ hF1wr, posix_f_write_count F1 _ _ hF1wr, has,
          not_true_eq_false, if_false]
      · have hF0 : F0 = (posix_f_lseek fp.file fp.actualFileSize).2 := by
          simp only [F0, hle, if_false]
        simp only [hle, if_false, hLmod]
        rw [seek_testEnv ss m _ _ (by exact h.isOpen)]
        simp only [hmul, not_true_eq_false, if_false]
        simp only [testEnv, testConf, posix, ne_eq, not_true_eq_false, if_false]
        have e1 : (posix_f_lseek (posix_f_lseek fp.file fp.actualFileSize).2
            (fp.bufferBegin * fp.ssize)).2 = F1 := by
          simp only [F1, hF0]
        simp only [e1, posix_f_write_fst F1 _ _ hF1wr, posix_f_write_count F1 _ _ hF1wr, has,
          not_true_eq_false, if_false]
    · rw [posix_f_write_wr]; exact hF1wr
    · rw [posix_f_write_rd]; exact hF1rd
    · rw [posix_f_write_size _ _ _ hF1wr, hF1size, hF1pos]
      simp only [hu, ne_eq, not_false_eq_true, if_true]
      split <;> omega
    · intro i
      rw [posix_f_write_content _ _ _ hF1wr, hF1pos, hF1content]
      simp only [hu, ne_eq, not_false_eq_true, true_and, buf]


theorem free_buffer_testEnv (fp : IO_FileDescriptor PosixFile) (ign : Nat) (h : Inv fp) :
    ∃ F : PosixFile,
      free_buffer (testEnv ss m) fp ign =
        (FR_OK, { fp with file := F, buffer := none, bufferBegin := 0, bufferSize := 0,
                          unsavedData := 0, actualSize := 0 }) ∧
      F.wr = true ∧ F.rd = true ∧
      F.size = (if fp.buffer.isSome ∧ fp.unsavedData ≠ 0 then fp.actualFileSize
        else fp.file.size) ∧
      ∀ i, F.content i =
        if (fp.buffer.isSome ∧ fp.unsavedData ≠ 0) ∧ fp.bufferBegin * fp.ssize ≤ i ∧
            i < fp.bufferBegin * fp.ssize + fp.actualSize
        then (fp.buffer.getD (fun _ => 0)) (i - fp.bufferBegin * fp.ssize)
        else fp.file.content i := by
  cases hb : fp.buffer with
  | none =>
    refine ⟨fp.file, ?_, h.wr, h.rd, by simp, by simp⟩
    simp [free_buffer, hb]
  | some b =>
    obtain ⟨F, hF, hwr, hrd, hsize, hcontent⟩ := write_cache_testEnv ss m fp h
    refine ⟨F, ?_, hwr, hrd, by simpa using hsize, ?_⟩
    · simp [free_buffer, hb, hF]
    · intro i
      rw [hcontent i, hb]
      simp

theorem alloc_buffer_eq {σ : Type} (env : Env σ) (fp : IO_FileDescriptor σ) (b sz : Nat)
    (hsz : sz ≠ 0) :
    alloc_buffer env fp b sz =
      (FR_OK, { fp with bufferSize := sz, actualSize := 0, bufferBegin := b,
                        buffer := env.malloc sz }) := by
  simp [alloc_buffer, hsz]


theorem io_read_fill_testEnv (fp : IO_FileDescriptor PosixFile) (position btr : Nat)
    (h : Inv fp) :
    ∃ F : PosixFile,
      io_read_fill (testEnv ss m) fp position btr =
        (some (usub position (fp.bufferBegin * fp.ssize)),
          (if usub (min fp.bufferSize
                (max fp.file.size (fp.bufferBegin * fp.ssize) - fp.bufferBegin * fp.ssize))
              (usub position (fp.bufferBegin * fp.ssize)) > btr then btr
            else usub (min fp.bufferSize
                (max fp.file.size (fp.bufferBegin * fp.ssize) - fp.bufferBegin * fp.ssize))
              (usub position (fp.bufferBegin * fp.ssize))),
          { fp with
            file := F,
            buffer := fp.buffer.map (fun b j =>
              if j < min fp.bufferSize
                  (max fp.file.size (fp.bufferBegin * fp.ssize) - fp.bufferBegin * fp.ssize)
              then fp.file.content (fp.bufferBegin * fp.ssize + j) else b j),
            actualSize := max fp.actualSize (min fp.bufferSize
                (max fp.file.size (fp.bufferBegin * fp.ssize) - fp.bufferBegin * fp.ssize)),
            rwPointer := uadd (if usub (min fp.bufferSize
                (max fp.file.size (fp.bufferBegin * fp.ssize) - fp.bufferBegin * fp.ssize))
              (usub position (fp.bufferBegin * fp.ssize)) > btr then btr
            else usub (min fp.bufferSize
                (max fp.file.size (fp.bufferBegin * fp.ssize) - fp.bufferBegin * fp.ssize))
              (usub position (fp.bufferBegin * fp.ssize))) position }) ∧
      F.wr = true ∧ F.rd = true ∧
      F.size = max fp.file.size (fp.bufferBegin * fp.ssize) ∧
      F.content = fp.file.content := by
  have hL := h.size_lt
  have hd := h.disk_le
  have hv := h.valid_le
  have hmul := umul_exact_of_inv h
  simp only [FSIZE_MOD] at hL
  have hsz : fp.file.size < UINT_MOD := by simp only [UINT_MOD]; omega
  have hPlt : fp.bufferBegin * fp.ssize < UINT_MOD := by simp only [UINT_MOD]; omega
  generalize hP : fp.bufferBegin * fp.ssize = P at *
  let F1 : PosixFile := (posix_f_lseek fp.file P).2
  have hF1wr : F1.wr = true := by simp only [F1]; rw [posix_f_lseek_wr]; exact h.wr
  have hF1rd : F1.rd = true := by simp only [F1]; rw [posix_f_lseek_rd]; exact h.rd
  have hF1size : F1.size = max fp.file.size P := posix_f_lseek_size _ _ h.wr hsz hPlt
  have hF1pos : F1.pos = P := posix_f_lseek_pos _ _
  have hF1content : F1.content = fp.file.content := posix_f_lseek_content _ _ hsz hPlt
  have hMle : max fp.file.size P ≤ fp.actualFileSize := max_le hd (by omega)
  have hMP : P ≤ max fp.file.size P := le_max_right _ _
  generalize max fp.file.size P = M at hF1size hMle hMP ⊢
  have hnle0 : min fp.bufferSize (M - P) ≤ M - P := min_le_right _ _
  generalize hn : min fp.bufferSize (M - P) = n at hnle0 ⊢
  have hnle : P + n ≤ M := by clear hn; omega
  have hnlt : n < UINT_MOD := by clear hn; simp only [UINT_MOD]; omega
  refine ⟨{ F1 with pos := F1.pos + n }, ?_, hF1wr, hF1rd, hF1size, ?_⟩
  · unfold io_read_fill
    simp only [seek_testEnv ss m fp _ h.isOpen, hmul, hP, not_true_eq_false, if_false, ne_eq]
    simp only [testEnv, posix, posix_f_read]
    have e1 : posix_f_lseek fp.file P = (FR_OK, F1) := by
      apply Prod.ext
      · exact posix_f_lseek_fst _ _
      · rfl
    have hbuf : Option.map (fun b => memcpy b 0 (view F1.data P n) n) fp.buffer
        = Option.map (fun b j => if j < n then fp.file.content (P + j) else b j) fp.buffer := by
      congr 1
      funext b j
      unfold memcpy
      by_cases hj : j < n
      · have h1 : P + j < F1.size := by rw [hF1size]; omega
        have h2 : F1.content (P + j) = F1.data (P + j) := by
          unfold PosixFile.content; simp [h1]
        have h3 : 0 ≤ j ∧ j < 0 + n := by omega
        rw [if_pos h3, if_pos hj, Nat.sub_zero, view_getD, if_pos hj, ← hF1content, h2]
      · simp [hj]
    have hno : ¬ (uadd n P > fp.actualFileSize) := by
      clear hn hbuf
      rw [uadd_eq (by simp only [UINT_MOD]; omega)]
      omega
    by_cases hlt : fp.actualSize < n
    · simp only [e1, hF1rd, if_true, hF1size, hF1pos, view_length, Nat.mod_eq_of_lt hnlt,
        not_true_eq_false, if_false, hlt, hno, hbuf, hn]
      rw [Nat.max_eq_right (by clear hn; omega)]
    · simp only [e1, hF1rd, if_true, hF1size, hF1pos, view_length, Nat.mod_eq_of_lt hnlt,
        not_true_eq_false, if_false, hlt, hbuf, hn]
      rw [Nat.max_eq_left (by clear hn; omega)]
  · funext i
    rw [← hF1content]
    unfold PosixFile.content
    rfl


theorem modif_cache_eq {σ : Type} (fp : IO_FileDescriptor σ) (data : List Nat)
    (position btw : Nat) (b : Mem) (hb : fp.buffer = some b)
    (hP : fp.bufferBegin * fp.ssize ≤ position) (hpos : position + btw < UINT_MOD)
    (hv : fp.bufferBegin * fp.ssize + fp.actualSize < UINT_MOD) :
    modif_cache fp data position btw =
      (FR_OK, btw,
        { fp with
          buffer := some (memcpy
            (fun j => if fp.actualSize ≤ j ∧ j < position - fp.bufferBegin * fp.ssize then 0
              else b j)
            (position - fp.bufferBegin * fp.ssize) data btw),
          actualSize := max fp.actualSize (position - fp.bufferBegin * fp.ssize + btw),
          unsavedData := 1,
          actualFileSize := max fp.actualFileSize
            (fp.bufferBegin * fp.ssize
              + max fp.actualSize (position - fp.bufferBegin * fp.ssize + btw)),
          rwPointer := position + btw }) := by
  have hmul : umul fp.bufferBegin fp.ssize = fp.bufferBegin * fp.ssize :=
    umul_eq (by omega)
  generalize hPdef : fp.bufferBegin * fp.ssize = P at *
  have hoff : usub position P = position - P := usub_eq (by omega) hP
  have hz := zero_fill_spec (position - P) (position - P) b fp.actualSize (by omega)
  have hadd : uadd (position - P) btw = position - P + btw := uadd_eq (by omega)
  have hbw : uadd btw position = position + btw := by
    rw [uadd_eq (by omega)]; omega
  unfold modif_cache
  simp only [hmul, hoff, hb, Option.getD_some, hz, hadd, hbw, Option.map_some']
  have h1 : (if max fp.actualSize (position - P) < position - P + btw then position - P + btw
      else max fp.actualSize (position - P)) = max fp.actualSize (position - P + btw) := by
    split <;> omega
  rw [h1]
  have hA : max fp.actualSize (position - P + btw) + P < UINT_MOD := by omega
  generalize max fp.actualSize (position - P + btw) = A at *
  rw [uadd_eq hA]
  have h2 : (if A + P > fp.actualFileSize then A + P else fp.actualFileSize)
      = max fp.actualFileSize (P + A) := by
    split <;> omega
  rw [h2]

end TestEnvLemmas

theorem inv_openedOn (ss : Nat) (f : PosixFile) (hf : f.size < UINT_MOD) (hss : ss < UINT_MOD) :
    Inv (openedOn ss f) := by
  constructor <;> simp [openedOn, Nat.mod_eq_of_lt hf, FSIZE_MOD, hss]
  simpa [UINT_MOD] using hf

/-! ### Writing through an evicted or a matching buffer -/

/-- The fill of `io_read`, with the number of bytes the driver delivers named. -/
theorem io_read_fill_spec (ss : Nat) (m : Nat → Option Mem)
    (fp : IO_FileDescriptor PosixFile) (position btr : Nat) (h : Inv fp) :
    ∃ (F : PosixFile) (nr br : Nat),
      io_read_fill (testEnv ss m) fp position btr =
        (some (usub position (fp.bufferBegin * fp.ssize)), br,
          { fp with
            file := F,
            buffer := fp.buffer.map (fun b j =>
              if j < nr then fp.file.content (fp.bufferBegin * fp.ssize + j) else b j),
            actualSize := max fp.actualSize nr,
            rwPointer := uadd br position }) ∧
      nr = min fp.bufferSize
        (max fp.file.size (fp.bufferBegin * fp.ssize) - fp.bufferBegin * fp.ssize) ∧
      F.wr = true ∧ F.rd = true ∧
      F.size = max fp.file.size (fp.bufferBegin * fp.ssize) ∧
      F.content = fp.file.content := by
  obtain ⟨F, h1, h2, h3, h4, h5⟩ := io_read_fill_testEnv ss m fp position btr h
  exact ⟨F, _, _, h1, rfl, h2, h3, h4, h5⟩

/-- Sector arithmetic: a range `[P, P + t)` with `1 <= t` that stays below `P + q * s`
ends in a sector below `b + q`, where `P = b * s`. -/
theorem end_sector_lt (b s q t : Nat) (hs : 0 < s) (ht : 1 ≤ t) (hle : t ≤ q * s) :
    b ≤ (b * s + t - 1) / s ∧ (b * s + t - 1) / s < b + q := by
  constructor
  · apply (Nat.le_div_iff_mul_le hs).mpr
    omega
  · apply (Nat.div_lt_iff_lt_mul hs).mpr
    rw [Nat.add_mul]
    omega

theorem supplemental_read (ss : Nat) (m : Nat → Option Mem)
    (a : IO_FileDescriptor PosixFile) (junk : Mem) (position b q : Nat)
    (hinv : Inv a) (hss : 0 < a.ssize)
    (hbuf : a.buffer = some junk) (has : a.actualSize = 0) (hbb : a.bufferBegin = b)
    (hbs : a.bufferSize = q * a.ssize)
    (hP : b * a.ssize < position) (hdisk : b * a.ssize < a.file.size)
    (hsz : position ≤ b * a.ssize + q * a.ssize)
    (hcap : q * a.ssize ≤ MAX_BUFFER_SIZE)
    (hwrap : b * a.ssize + q * a.ssize < UINT_MOD) :
    ∃ (F : PosixFile) (nr br : Nat),
      io_read_body (testEnv ss m) a (b * a.ssize) (position - b * a.ssize) =
        (some 0, br,
          { a with
            file := F,
            buffer := some (fun j =>
              if j < nr then a.file.content (b * a.ssize + j) else junk j),
            actualSize := nr,
            rwPointer := uadd br (b * a.ssize) }) ∧
      nr = min (q * a.ssize) (a.file.size - b * a.ssize) ∧
      F.wr = true ∧ F.rd = true ∧ F.size = a.file.size ∧ F.content = a.file.content := by
  have hL := hinv.size_lt
  have hd := hinv.disk_le
  have hv := hinv.valid_le
  rw [hbb] at hv
  simp only [FSIZE_MOD] at hL
  have hfs : (testEnv ss m).drv.f_size a.file = a.file.size := by
    show posix_f_size a.file = a.file.size
    unfold posix_f_size
    exact Nat.mod_eq_of_lt (by simp only [UINT_MOD]; omega)
  have hmul : umul a.bufferBegin a.ssize = b * a.ssize := by
    rw [hbb]; exact umul_eq (by omega)
  have hcache : uadd a.actualSize (umul a.bufferBegin a.ssize) = b * a.ssize := by
    rw [hmul, has, uadd_eq (by omega)]; omega
  have heof : ¬ (b * a.ssize ≥ (testEnv ss m).drv.f_size a.file ∧
      b * a.ssize ≥ uadd a.actualSize (umul a.bufferBegin a.ssize)) := by
    rw [hfs]; omega
  have hsum : uadd (b * a.ssize) (position - b * a.ssize) = position := by
    rw [uadd_eq (by omega)]; omega
  -- the clamped count
  obtain ⟨t, ht, ht1, ht2⟩ : ∃ t, (if uadd (b * a.ssize) (position - b * a.ssize)
        > (testEnv ss m).drv.f_size a.file ∧
      uadd (b * a.ssize) (position - b * a.ssize)
        > uadd a.actualSize (umul a.bufferBegin a.ssize)
      then usub ((testEnv ss m).drv.f_size a.file) (b * a.ssize)
      else position - b * a.ssize) = t ∧ 1 ≤ t ∧ t ≤ position - b * a.ssize := by
    rw [hsum, hfs, hcache]
    by_cases hc : position > a.file.size ∧ position > b * a.ssize
    · rw [if_pos hc, usub_eq (by simp only [UINT_MOD]; omega) (by omega)]
      exact ⟨_, rfl, by omega, by omega⟩
    · rw [if_neg hc]
      exact ⟨_, rfl, by omega, le_refl _⟩
  obtain ⟨he1, he2⟩ := end_sector_lt b a.ssize q t hss ht1 (by omega)
  have hPdiv : b * a.ssize / a.ssize = b := Nat.mul_div_cancel _ hss
  have hspec : buffer_specs a t (b * a.ssize)
      = (FR_OK, b, (b * a.ssize + t - 1) / a.ssize,
          ((b * a.ssize + t - 1) / a.ssize - b + 1) * a.ssize) := by
    have h := buffer_specs_eq a t (b * a.ssize) hss hinv.ssize_lt ht1 (by omega)
    rw [hPdiv] at h
    have hc1 : ¬ (b * a.ssize > a.actualFileSize) := by omega
    rw [if_neg hc1] at h
    have hle : ((b * a.ssize + t - 1) / a.ssize - b + 1) * a.ssize ≤ q * a.ssize :=
      Nat.mul_le_mul_right _ (by omega)
    have hc2 : ¬ (((b * a.ssize + t - 1) / a.ssize - b + 1) * a.ssize > MAX_BUFFER_SIZE) := by
      omega
    rw [if_neg hc2] at h
    exact h
  have hszle : ((b * a.ssize + t - 1) / a.ssize - b + 1) * a.ssize ≤ q * a.ssize :=
    Nat.mul_le_mul_right _ (by omega)
  have hszpos : a.ssize ≤ ((b * a.ssize + t - 1) / a.ssize - b + 1) * a.ssize := by
    calc a.ssize = 1 * a.ssize := (Nat.one_mul _).symm
      _ ≤ _ := Nat.mul_le_mul_right _ (by omega)
  have hu1 : uadd (((b * a.ssize + t - 1) / a.ssize - b + 1) * a.ssize) (b * a.ssize)
      = ((b * a.ssize + t - 1) / a.ssize - b + 1) * a.ssize + b * a.ssize :=
    uadd_eq (by omega)
  have hu2 : uadd (q * a.ssize) (b * a.ssize) = q * a.ssize + b * a.ssize :=
    uadd_eq (by omega)
  have hmatch : buffer_exists a b (((b * a.ssize + t - 1) / a.ssize - b + 1) * a.ssize) = 1 := by
    have hmulb : umul b a.ssize = b * a.ssize := umul_eq (by omega)
    have hu3 : uadd 0 (b * a.ssize) = b * a.ssize := by
      rw [uadd_eq (by omega)]; omega
    unfold buffer_exists
    rw [hbuf, hbb, hbs, has, hmulb, hu1, hu2, hu3]
    simp only [Option.isNone_some, Bool.false_eq_true, if_false, Nat.lt_irrefl]
    have hc3 : ¬ (((b * a.ssize + t - 1) / a.ssize - b + 1) * a.ssize + b * a.ssize
        > q * a.ssize + b * a.ssize) := by omega
    have hc4 : ((b * a.ssize + t - 1) / a.ssize - b + 1) * a.ssize + b * a.ssize
        > b * a.ssize := by omega
    rw [if_neg hc3, if_pos hc4]
  have hread := io_read_body_refill (testEnv ss m) a (b * a.ssize) (position - b * a.ssize) t
    b _ _ (by omega) hinv.isOpen (by omega) heof ht hspec hmatch
  obtain ⟨F, nr, br, hfill, hnr, hFwr, hFrd, hFsize, hFcontent⟩ :=
    io_read_fill_spec ss m a (b * a.ssize) t hinv
  rw [hbb, hbs, hbuf, has] at hfill
  rw [hbb, hbs] at hnr
  rw [hbb] at hFsize
  have hmax : max a.file.size (b * a.ssize) = a.file.size := by omega
  rw [hmax] at hnr hFsize
  have hoff0 : usub (b * a.ssize) (b * a.ssize) = 0 := by
    rw [usub_eq (by omega) (le_refl _)]; omega
  rw [hoff0, Option.map_some', Nat.zero_max] at hfill
  refine ⟨F, nr, br, ?_, hnr, hFwr, hFrd, hFsize, hFcontent⟩
  rw [hread, hfill]
  congr 3
  · exact hbb.symm
  · exact hbs.symm


theorem inv_f_size (ss : Nat) (m : Nat → Option Mem) (a : IO_FileDescriptor PosixFile)
    (h : Inv a) : (testEnv ss m).drv.f_size a.file = a.file.size := by
  have hL := h.size_lt
  have hd := h.disk_le
  simp only [FSIZE_MOD] at hL
  show posix_f_size a.file = a.file.size
  unfold posix_f_size
  exact Nat.mod_eq_of_lt (by simp only [UINT_MOD]; omega)

theorem io_write_body_evicted (ss : Nat) (m : Nat → Option Mem)
    (fp : IO_FileDescriptor PosixFile) (buff : List Nat) (position btw c b e q : Nat)
    (hinv : Inv fp) (hss : 0 < fp.ssize) (hm : ∀ s, (m s).isSome = true)
    (hbtw : btw ≠ 0) (hpos : position < MAX_FILE_SIZE)
    (hc : (if position + btw > MAX_FILE_SIZE then (MAX_FILE_SIZE - position) % UINT_MOD
      else btw) = c)
    (hc1 : 1 ≤ c)
    (hs : buffer_specs fp c position = (FR_OK, b, e, q * fp.ssize))
    (hbP : b * fp.ssize ≤ position) (hbL : b * fp.ssize ≤ fp.actualFileSize)
    (hcover : position + c ≤ b * fp.ssize + q * fp.ssize)
    (hcap : q * fp.ssize ≤ MAX_BUFFER_SIZE) (hwrap : b * fp.ssize + q * fp.ssize < UINT_MOD)
    (hmiss : buffer_exists fp b (q * fp.ssize) = 0) :
    ∃ (fpR : IO_FileDescriptor PosixFile) (F0 : PosixFile) (junk : Mem) (nr : Nat),
      io_write_body (testEnv ss m) fp buff position btw = modif_cache fpR buff position c ∧
      F0.size = (if fp.buffer.isSome ∧ fp.unsavedData ≠ 0 then fp.actualFileSize
        else fp.file.size) ∧
      (∀ i, F0.content i =
        if (fp.buffer.isSome ∧ fp.unsavedData ≠ 0) ∧ fp.bufferBegin * fp.ssize ≤ i ∧
            i < fp.bufferBegin * fp.ssize + fp.actualSize
        then (fp.buffer.getD (fun _ => 0)) (i - fp.bufferBegin * fp.ssize)
        else fp.file.content i) ∧
      Inv fpR ∧
      fpR.ssize = fp.ssize ∧ fpR.bufferBegin = b ∧ fpR.bufferSize = q * fp.ssize ∧
      fpR.actualSize = nr ∧
      fpR.buffer = some (fun j => if j < nr then F0.content (b * fp.ssize + j) else junk j) ∧
      fpR.unsavedData = 0 ∧ fpR.actualFileSize = fp.actualFileSize ∧
      fpR.file.size = F0.size ∧ fpR.file.content = F0.content ∧
      ((nr = 0 ∧ (position = b * fp.ssize ∨ F0.size ≤ b * fp.ssize)) ∨
        (nr = min (q * fp.ssize) (F0.size - b * fp.ssize) ∧ b * fp.ssize < position ∧
          b * fp.ssize < F0.size)) := by
  have hL := hinv.size_lt
  have hd := hinv.disk_le
  simp only [FSIZE_MOD] at hL
  obtain ⟨F0, hfree, hF0wr, hF0rd, hF0size, hF0content⟩ := free_buffer_testEnv ss m fp 0 hinv
  have hF0le : F0.size ≤ fp.actualFileSize := by
    rw [hF0size]; split
    · exact le_refl _
    · exact hd
  obtain ⟨junk, hjunk⟩ := Option.isSome_iff_exists.mp (hm (q * fp.ssize))
  obtain ⟨f, hf⟩ : ∃ f : IO_FileDescriptor PosixFile, f = { fp with
      file := F0, buffer := none, bufferBegin := 0, bufferSize := 0, unsavedData := 0
      actualSize := 0 } := ⟨_, rfl⟩
  rw [← hf] at hfree
  obtain ⟨a, ha⟩ : ∃ a : IO_FileDescriptor PosixFile, a = { f with
      bufferSize := q * fp.ssize, actualSize := 0, bufferBegin := b
      buffer := some junk } := ⟨_, rfl⟩
  have halloc : alloc_buffer (testEnv ss m) f b (q * fp.ssize) = (FR_OK, a) := by
    rw [alloc_buffer_eq _ _ _ _ (by omega), ha]
    rw [show (testEnv ss m).malloc (q * fp.ssize) = some junk from hjunk]
  have hass : a.ssize = fp.ssize := by rw [ha, hf]
  have habb : a.bufferBegin = b := by rw [ha]
  have habs : a.bufferSize = q * a.ssize := by rw [hass, ha]
  have haas : a.actualSize = 0 := by rw [ha]
  have haL : a.actualFileSize = fp.actualFileSize := by rw [ha, hf]
  have hafile : a.file = F0 := by rw [ha, hf]
  have habuf : a.buffer = some junk := by rw [ha]
  have had : a.unsavedData = 0 := by rw [ha, hf]
  have haopen : a.isOpen = fp.isOpen := by rw [ha, hf]
  have hainv : Inv a := by
    constructor
    · rw [haopen]; exact hinv.isOpen
    · rw [hafile]; exact hF0wr
    · rw [hafile]; exact hF0rd
    · rw [hafile, haL]; exact hF0le
    · rw [habb, hass, haas, haL]; omega
    · rw [haL]; exact hinv.size_lt
    · rw [hass]; exact hinv.ssize_lt
  have hbody := io_write_body_nomatch (testEnv ss m) fp f a buff position btw c b e
    (q * fp.ssize) hbtw hinv.isOpen (by omega) hpos hc (by omega) hs hmiss hfree halloc
    (by rw [habuf]; rfl)
  have hmulP : umul b a.ssize = b * fp.ssize := by
    rw [hass]; exact umul_eq (by omega)
  have hfs : (testEnv ss m).drv.f_size a.file = F0.size := by
    rw [inv_f_size ss m a hainv, hafile]
  rw [hmulP, hfs] at hbody
  by_cases hcond : position ≠ b * fp.ssize ∧ b * fp.ssize < F0.size
  · rw [if_pos hcond] at hbody
    have hoff : usub position (b * fp.ssize) = position - b * fp.ssize :=
      usub_eq (by simp only [UINT_MOD, MAX_FILE_SIZE] at *; omega) hbP
    rw [hoff] at hbody
    obtain ⟨F, nr, br, hread, hnr, hFwr, hFrd, hFsize, hFcontent⟩ :=
      supplemental_read ss m a junk position b q hainv (by omega) habuf haas habb habs
        (by rw [hass]; omega) (by rw [hass, hafile]; omega) (by rw [hass]; omega)
        (by rw [hass]; omega) (by rw [hass]; omega)
    rw [hass, hafile] at hread hnr
    rw [hafile] at hFsize hFcontent
    rw [hread] at hbody
    simp only [Option.isNone_some, Bool.false_eq_true, if_false] at hbody
    refine ⟨_, F0, junk, nr, hbody, hF0size, hF0content, ?_, rfl, habb, ?_, rfl, rfl, had, haL,
      hFsize, hFcontent, Or.inr ⟨hnr, by omega, hcond.2⟩⟩
    · constructor
      · exact hainv.isOpen
      · exact hFwr
      · exact hFrd
      · show F.size ≤ a.actualFileSize
        rw [hFsize, haL]; exact hF0le
      · show a.bufferBegin * fp.ssize + nr ≤ a.actualFileSize
        rw [habb, haL, hnr]; omega
      · exact hainv.size_lt
      · exact hinv.ssize_lt
    · show a.bufferSize = q * fp.ssize
      rw [habs, hass]
  · rw [if_neg hcond] at hbody
    refine ⟨a, F0, junk, 0, hbody, hF0size, hF0content, hainv, hass, habb, by rw [habs, hass],
      haas, ?_, had, haL, by rw [hafile], by rw [hafile], Or.inl ⟨rfl, by omega⟩⟩
    rw [habuf]
    congr 1


theorem buffer_specs_window {σ : Type} (fp : IO_FileDescriptor σ) (c position : Nat)
    (hss : 0 < fp.ssize) (hssu : fp.ssize < UINT_MOD) (hc1 : 1 ≤ c)
    (hsum : position + c ≤ UINT_MOD) (hok : (buffer_specs fp c position).1 = FR_OK) :
    ∃ b e q,
      buffer_specs fp c position = (FR_OK, b, e, q * fp.ssize) ∧
      b = (if position / fp.ssize * fp.ssize > fp.actualFileSize
        then fp.actualFileSize / fp.ssize else position / fp.ssize) ∧
      e = (position + c - 1) / fp.ssize ∧ q = e - b + 1 ∧ b ≤ e ∧
      b * fp.ssize ≤ position ∧ b * fp.ssize ≤ fp.actualFileSize ∧
      position + c ≤ b * fp.ssize + q * fp.ssize ∧ q * fp.ssize ≤ MAX_BUFFER_SIZE ∧
      b * fp.ssize + q * fp.ssize = (e + 1) * fp.ssize := by
  have h := buffer_specs_eq fp c position hss hssu hc1 hsum
  have hP1 := div_mul_le' position fp.ssize
  have hble : (if position / fp.ssize * fp.ssize > fp.actualFileSize
      then fp.actualFileSize / fp.ssize else position / fp.ssize) ≤ position / fp.ssize := by
    split
    · apply Nat.div_le_div_right; omega
    · exact le_refl _
  have hbL : (if position / fp.ssize * fp.ssize > fp.actualFileSize
      then fp.actualFileSize / fp.ssize else position / fp.ssize) * fp.ssize
        ≤ fp.actualFileSize := by
    split
    · exact div_mul_le' _ _
    · omega
  have hse : position / fp.ssize ≤ (position + c - 1) / fp.ssize :=
    Nat.div_le_div_right (by omega)
  have hE := lt_div_mul_add (position + c - 1) fp.ssize hss
  generalize (if position / fp.ssize * fp.ssize > fp.actualFileSize
      then fp.actualFileSize / fp.ssize else position / fp.ssize) = b at h hble hbL
  generalize (position + c - 1) / fp.ssize = e at h hse hE
  have hbP : b * fp.ssize ≤ position :=
    le_trans (Nat.mul_le_mul_right _ hble) hP1
  have hsplit : b * fp.ssize + (e - b + 1) * fp.ssize = (e + 1) * fp.ssize := by
    rw [← Nat.add_mul]
    congr 1
    omega
  have hE3 : (e + 1) * fp.ssize = e * fp.ssize + fp.ssize := by
    rw [Nat.add_mul, Nat.one_mul]
  by_cases hcap : (e - b + 1) * fp.ssize > MAX_BUFFER_SIZE
  · rw [if_pos hcap] at h
    rw [h] at hok
    exact absurd hok (by decide)
  · rw [if_neg hcap] at h
    exact ⟨b, e, e - b + 1, h, rfl, rfl, rfl, by omega, hbP, hbL, by omega, by omega, hsplit⟩


theorem modif_cache_inv (fpR : IO_FileDescriptor PosixFile) (data : List Nat)
    (position c : Nat) (rb : Mem) (hinv : Inv fpR) (hbuf : fpR.buffer = some rb)
    (hP : fpR.bufferBegin * fpR.ssize ≤ position) (hsum : position + c ≤ MAX_FILE_SIZE) :
    ∃ fp2 : IO_FileDescriptor PosixFile,
      modif_cache fpR data position c = (FR_OK, c, fp2) ∧ Inv fp2 ∧
      fp2.file = fpR.file ∧ fp2.ssize = fpR.ssize ∧ fp2.bufferBegin = fpR.bufferBegin ∧
      fp2.bufferSize = fpR.bufferSize ∧ fp2.unsavedData = 1 ∧
      fp2.actualSize
        = max fpR.actualSize (position - fpR.bufferBegin * fpR.ssize + c) ∧
      fp2.actualFileSize = max fpR.actualFileSize (position + c) ∧
      fp2.rwPointer = position + c ∧
      fp2.buffer = some (memcpy
        (fun j => if fpR.actualSize ≤ j ∧ j < position - fpR.bufferBegin * fpR.ssize then 0
          else rb j)
        (position - fpR.bufferBegin * fpR.ssize) data c) := by
  have hL := hinv.size_lt
  have hv := hinv.valid_le
  have hd := hinv.disk_le
  simp only [FSIZE_MOD] at hL
  have hmod := modif_cache_eq fpR data position c rb hbuf hP
    (by simp only [UINT_MOD, MAX_FILE_SIZE] at *; omega) (by simp only [UINT_MOD]; omega)
  have hLeq : max fpR.actualFileSize (fpR.bufferBegin * fpR.ssize
      + max fpR.actualSize (position - fpR.bufferBegin * fpR.ssize + c))
      = max fpR.actualFileSize (position + c) := by omega
  rw [hLeq] at hmod
  refine ⟨_, hmod, ?_, rfl, rfl, rfl, rfl, rfl, rfl, rfl, rfl, rfl⟩
  constructor
  · exact hinv.isOpen
  · exact hinv.wr
  · exact hinv.rd
  · show fpR.file.size ≤ max fpR.actualFileSize (position + c)
    omega
  · show fpR.bufferBegin * fpR.ssize
      + max fpR.actualSize (position - fpR.bufferBegin * fpR.ssize + c)
      ≤ max fpR.actualFileSize (position + c)
    omega
  · show max fpR.actualFileSize (position + c) < FSIZE_MOD
    simp only [FSIZE_MOD, MAX_FILE_SIZE] at *
    omega
  · exact hinv.ssize_lt

theorem io_close_testEnv (ss : Nat) (m : Nat → Option Mem)
    (fp : IO_FileDescriptor PosixFile) (h : Inv fp) :
    ∃ F : PosixFile,
      io_close (testEnv ss m) (some fp) = (FR_OK, some F) ∧
      F.size = (if fp.buffer.isSome ∧ fp.unsavedData ≠ 0 then fp.actualFileSize
        else fp.file.size) ∧
      ∀ i, F.content i =
        if (fp.buffer.isSome ∧ fp.unsavedData ≠ 0) ∧ fp.bufferBegin * fp.ssize ≤ i ∧
            i < fp.bufferBegin * fp.ssize + fp.actualSize
        then (fp.buffer.getD (fun _ => 0)) (i - fp.bufferBegin * fp.ssize)
        else fp.file.content i := by
  obtain ⟨F, hF, -, -, hFsize, hFcontent⟩ := free_buffer_testEnv ss m fp 1 h
  refine ⟨F, ?_, hFsize, hFcontent⟩
  simp only [io_close, io_close_body, hF]
  simp [testEnv, posix]

theorem close_after_modif (ss : Nat) (m : Nat → Option Mem)
    (fpR : IO_FileDescriptor PosixFile) (data : List Nat)
    (position c : Nat) (rb : Mem) (hinv : Inv fpR) (hbuf : fpR.buffer = some rb)
    (hP : fpR.bufferBegin * fpR.ssize ≤ position) (hsum : position + c ≤ MAX_FILE_SIZE) :
    ∃ F : PosixFile,
      io_close (testEnv ss m) (some (modif_cache fpR data position c).2.2)
        = (FR_OK, some F) ∧
      F.size = max fpR.actualFileSize (position + c) ∧
      ∀ i, F.content i =
        if position ≤ i ∧ i < position + c then data.getD (i - position) 0
        else if fpR.bufferBegin * fpR.ssize + fpR.actualSize ≤ i ∧ i < position then 0
        else if fpR.bufferBegin * fpR.ssize ≤ i ∧
            i < fpR.bufferBegin * fpR.ssize + fpR.actualSize
          then rb (i - fpR.bufferBegin * fpR.ssize)
        else fpR.file.content i := by
  obtain ⟨fp2, hmod, hinv2, h2file, h2ss, h2bb, -, h2d, h2as, h2L, -, h2buf⟩ :=
    modif_cache_inv fpR data position c rb hinv hbuf hP hsum
  obtain ⟨F, hclose, hFsize, hFcontent⟩ := io_close_testEnv ss m fp2 hinv2
  have hdirty : fp2.buffer.isSome = true ∧ fp2.unsavedData ≠ 0 := by
    rw [h2buf, h2d]; exact ⟨rfl, one_ne_zero⟩
  rw [if_pos hdirty, h2L] at hFsize
  refine ⟨F, by rw [hmod]; exact hclose, hFsize, ?_⟩
  intro i
  have h1 := hFcontent i
  simp only [hdirty.1, hdirty.2, ne_eq, not_false_eq_true, and_self, true_and] at h1
  rw [h2bb, h2ss, h2as, h2buf, h2file] at h1
  simp only [Option.getD_some] at h1
  rw [h1]
  unfold memcpy
  generalize fpR.bufferBegin * fpR.ssize = P at *
  generalize fpR.actualSize = A at *
  by_cases hr : position ≤ i ∧ i < position + c
  · have hc1 : P ≤ i ∧ i < P + max A (position - P + c) := by omega
    have hc2 : position - P ≤ i - P ∧ i - P < position - P + c := by omega
    have hc3 : i - P - (position - P) = i - position := by omega
    rw [if_pos hc1, if_pos hc2, if_pos hr, hc3]
  · rw [if_neg hr]
    by_cases hz : P + A ≤ i ∧ i < position
    · have hc1 : P ≤ i ∧ i < P + max A (position - P + c) := by omega
      have hc2 : ¬ (position - P ≤ i - P ∧ i - P < position - P + c) := by omega
      have hc3 : A ≤ i - P ∧ i - P < position - P := by omega
      rw [if_pos hc1, if_neg hc2, if_pos hz]
      simp only [hc3, and_self, if_true]
    · rw [if_neg hz]
      by_cases hv : P ≤ i ∧ i < P + A
      · have hc1 : P ≤ i ∧ i < P + max A (position - P + c) := by omega
        have hc2 : ¬ (position - P ≤ i - P ∧ i - P < position - P + c) := by omega
        have hc3 : ¬ (A ≤ i - P ∧ i - P < position - P) := by omega
        rw [if_pos hc1, if_neg hc2, if_pos hv]
        simp only [hc3, if_false]
      · have hc1 : ¬ (P ≤ i ∧ i < P + max A (position - P + c)) := by omega
        rw [if_neg hc1, if_neg hv]


theorem openedOn_content (ss S : Nat) (d0 : Mem) (i : Nat) :
    (openedOn ss (onDisk S d0)).file.content i = if i < S then d0 i else 0 := by
  simp only [PosixFile.content, openedOn, onDisk]
  split <;> rfl

theorem mod_le' (x M : Nat) : x % M ≤ x := Nat.mod_le x M

theorem buffer_exists_ne_zero {σ : Type} (fp : IO_FileDescriptor σ) (b sz : Nat)
    (h : buffer_exists fp b sz ≠ 0) :
    (∃ rb, fp.buffer = some rb) ∧ fp.bufferBegin ≤ b ∧
    ¬ (uadd sz (umul b fp.ssize) > uadd fp.bufferSize (umul fp.bufferBegin fp.ssize)) := by
  unfold buffer_exists at h
  cases hb : fp.buffer with
  | none => rw [hb] at h; simp at h
  | some rb =>
    refine ⟨⟨rb, rfl⟩, ?_, ?_⟩
    · by_contra hlt
      rw [hb] at h
      simp only [Option.isNone_some, Bool.false_eq_true, if_false] at h
      rw [if_pos (by omega)] at h
      exact h rfl
    · intro hgt
      rw [hb] at h
      simp only [Option.isNone_some, Bool.false_eq_true, if_false] at h
      by_cases hlt : b < fp.bufferBegin
      · rw [if_pos hlt] at h; exact h rfl
      · rw [if_neg hlt, if_pos hgt] at h; exact h rfl

/-- The function `modif_cache` always returns `FR_OK`. -/
theorem modif_cache_fst {σ : Type} (fp : IO_FileDescriptor σ) (data : List Nat)
    (position btw : Nat) : (modif_cache fp data position btw).1 = FR_OK := rfl

/-- The function `modif_cache` reports the count it was given. -/
theorem modif_cache_count {σ : Type} (fp : IO_FileDescriptor σ) (data : List Nat)
    (position btw : Nat) : (modif_cache fp data position btw).2.1 = btw := rfl

/-- Whatever path `io_write` takes past its guards, it either fails with `bw = 0` or returns
`FR_OK` with the clamped count. -/
theorem io_write_body_outcome {σ : Type} (env : Env σ) (fp : IO_FileDescriptor σ)
    (buff : List Nat) (position btw c : Nat) (hopen : fp.isOpen ≠ 0) (hss : fp.ssize ≠ 0)
    (hpos : position < MAX_FILE_SIZE) (hbtw : btw ≠ 0)
    (hc : (if position + btw > MAX_FILE_SIZE then (MAX_FILE_SIZE - position) % UINT_MOD
      else btw) = c) (hc0 : c ≠ 0) :
    ((io_write_body env fp buff position btw).1 = FR_OK ∧
      (io_write_body env fp buff position btw).2.1 = c) ∨
    ((io_write_body env fp buff position btw).1 ≠ FR_OK ∧
      (io_write_body env fp buff position btw).2.1 = 0) := by
  have hpos' : ¬ position ≥ MAX_FILE_SIZE := by omega
  unfold io_write_body
  simp only [hbtw, hopen, hss, hpos', if_false, hc, hc0]
  split_ifs with h1 h2 h3 h4 h5 h6 h7
  all_goals first
    | exact Or.inl ⟨rfl, rfl⟩
    | exact Or.inr ⟨(by assumption), rfl⟩
    | exact Or.inr ⟨(by simp), rfl⟩

/-! ### Every reachable state is well formed -/

section Preservation
variable (ss : Nat) (m : Nat → Option Mem)

/-- In a well-formed state the file on storage is shorter than 4 GiB. -/
theorem inv_disk_lt {fp : IO_FileDescriptor PosixFile} (h : Inv fp) :
    fp.file.size < UINT_MOD := by
  have h1 := h.disk_le
  have h2 := h.size_lt
  simp only [FSIZE_MOD, UINT_MOD] at *
  omega

/-- Over the driver of `ff.c`, `free_buffer` succeeds and keeps the state well formed. -/
theorem free_buffer_inv (fp : IO_FileDescriptor PosixFile) (ign : Nat) (h : Inv fp) :
    (free_buffer (testEnv ss m) fp ign).1 = FR_OK ∧
    Inv (free_buffer (testEnv ss m) fp ign).2 ∧
    (free_buffer (testEnv ss m) fp ign).2.ssize = fp.ssize ∧
    (free_buffer (testEnv ss m) fp ign).2.actualFileSize = fp.actualFileSize := by
  obtain ⟨F, hF, hwr, hrd, hsize, -⟩ := free_buffer_testEnv ss m fp ign h
  rw [hF]
  refine ⟨rfl, ⟨h.isOpen, hwr, hrd, ?_, ?_, h.size_lt, h.ssize_lt⟩, rfl, rfl⟩
  · show F.size ≤ fp.actualFileSize
    rw [hsize]
    split
    · exact le_refl _
    · exact h.disk_le
  · show 0 * fp.ssize + 0 ≤ fp.actualFileSize
    omega

/-- A window that starts at or before the logical end keeps the state well formed. -/
theorem alloc_buffer_inv (fp : IO_FileDescriptor PosixFile) (b sz : Nat) (h : Inv fp)
    (hb : b * fp.ssize ≤ fp.actualFileSize) :
    Inv (alloc_buffer (testEnv ss m) fp b sz).2 ∧
    (alloc_buffer (testEnv ss m) fp b sz).2.ssize = fp.ssize ∧
    (alloc_buffer (testEnv ss m) fp b sz).2.actualFileSize = fp.actualFileSize ∧
    (alloc_buffer (testEnv ss m) fp b sz).2.bufferBegin = b := by
  unfold alloc_buffer
  simp only []
  split
  · refine ⟨⟨h.isOpen, h.wr, h.rd, h.disk_le, ?_, h.size_lt, h.ssize_lt⟩, rfl, rfl, rfl⟩
    show b * fp.ssize + 0 ≤ fp.actualFileSize
    omega
  · refine ⟨⟨h.isOpen, h.wr, h.rd, h.disk_le, ?_, h.size_lt, h.ssize_lt⟩, rfl, rfl, rfl⟩
    show b * fp.ssize + 0 ≤ fp.actualFileSize
    omega

/-- The window chosen by `buffer_specs` starts at or before the logical end and at or before
the requested position. -/
theorem buffer_specs_begin {σ : Type} (fp : IO_FileDescriptor σ) (bytes start : Nat)
    (hs : start < UINT_MOD) :
    (buffer_specs fp bytes start).2.1 * fp.ssize ≤ fp.actualFileSize ∧
    (buffer_specs fp bytes start).2.1 * fp.ssize ≤ start := by
  unfold buffer_specs
  by_cases h0 : fp.ssize = 0
  · simp [h0]
  · have hmul : umul (start / fp.ssize) fp.ssize = start / fp.ssize * fp.ssize := by
      apply umul_eq
      have := div_mul_le' start fp.ssize
      omega
    have h1 := div_mul_le' start fp.ssize
    have h2 := div_mul_le' fp.actualFileSize fp.ssize
    have h3 : start / fp.ssize < UINT_MOD := lt_of_le_of_lt (Nat.div_le_self _ _) hs
    simp only [h0, if_false, hmul]
    by_cases hgt : start / fp.ssize * fp.ssize > fp.actualFileSize
    · have h4 : fp.actualFileSize / fp.ssize ≤ start / fp.ssize :=
        Nat.div_le_div_right (by omega)
      simp only [hgt, if_true]
      split
      · simp
      · simp only []
        rw [Nat.mod_eq_of_lt (by omega)]
        omega
    · simp only [hgt, if_false]
      split
      · simp
      · simp only []
        rw [Nat.mod_eq_of_lt h3]
        omega

/-- The fill of `io_read` keeps the state well formed and the window where it is. -/
theorem io_read_fill_inv (fp : IO_FileDescriptor PosixFile) (position btr : Nat)
    (h : Inv fp) :
    Inv (io_read_fill (testEnv ss m) fp position btr).2.2 ∧
    (io_read_fill (testEnv ss m) fp position btr).2.2.ssize = fp.ssize ∧
    (io_read_fill (testEnv ss m) fp position btr).2.2.actualFileSize = fp.actualFileSize ∧
    (io_read_fill (testEnv ss m) fp position btr).2.2.bufferBegin = fp.bufferBegin := by
  obtain ⟨F, nr, br, hF, hnr, hwr, hrd, hsize, -⟩ := io_read_fill_spec ss m fp position btr h
  rw [hF]
  have hd := h.disk_le
  have hv := h.valid_le
  refine ⟨⟨h.isOpen, hwr, hrd, ?_, ?_, h.size_lt, h.ssize_lt⟩, rfl, rfl, rfl⟩
  · show F.size ≤ fp.actualFileSize
    rw [hsize]
    omega
  · show fp.bufferBegin * fp.ssize + max fp.actualSize nr ≤ fp.actualFileSize
    have : nr ≤ max fp.file.size (fp.bufferBegin * fp.ssize) - fp.bufferBegin * fp.ssize := by
      rw [hnr]; exact min_le_right _ _
    omega

/-- Every path through `io_read` keeps the state well formed; the window either stays or
starts at or before the position read. -/
theorem io_read_body_inv (fp : IO_FileDescriptor PosixFile) (position btr : Nat)
    (h : Inv fp) (hpos : position < UINT_MOD) :
    Inv (io_read_body (testEnv ss m) fp position btr).2.2 ∧
    (io_read_body (testEnv ss m) fp position btr).2.2.ssize = fp.ssize ∧
    (io_read_body (testEnv ss m) fp position btr).2.2.actualFileSize = fp.actualFileSize ∧
    ((io_read_body (testEnv ss m) fp position btr).2.2.bufferBegin = fp.bufferBegin ∨
      (io_read_body (testEnv ss m) fp position btr).2.2.bufferBegin * fp.ssize ≤ position) := by
  unfold io_read_body
  by_cases h1 : btr = 0
  · simp only [h1, if_true]
    exact ⟨h, trivial, trivial, Or.inl trivial⟩
  by_cases h2 : fp.ssize = 0
  · simp only [h1, h.isOpen, h2, if_true, if_false]
    exact ⟨h, trivial, trivial, Or.inl trivial⟩
  by_cases h3 : position ≥ (testEnv ss m).drv.f_size fp.file ∧
      position ≥ uadd fp.actualSize (umul fp.bufferBegin fp.ssize)
  · simp only [h1, h.isOpen, h2, h3, and_self, if_true, if_false]
    exact ⟨h, trivial, trivial, Or.inl trivial⟩
  simp only [h1, h.isOpen, h2, h3, if_false]
  generalize (if uadd position btr > (testEnv ss m).drv.f_size fp.file ∧
          uadd position btr > uadd fp.actualSize (umul fp.bufferBegin fp.ssize)
      then usub ((testEnv ss m).drv.f_size fp.file) position else btr) = btr1
  have hbeg := buffer_specs_begin fp btr1 position hpos
  by_cases h4 : (buffer_specs fp btr1 position).1 = FR_OK
  swap
  · simp only [ne_eq, h4, not_false_eq_true, if_true]
    exact ⟨h, trivial, trivial, Or.inl trivial⟩
  simp only [ne_eq, h4, not_true_eq_false, if_false]
  by_cases h5 : buffer_exists fp (buffer_specs fp btr1 position).2.1
      (buffer_specs fp btr1 position).2.2.2 = 2
  · simp only [h5, if_true]
    exact ⟨⟨h.isOpen, h.wr, h.rd, h.disk_le, h.valid_le, h.size_lt, h.ssize_lt⟩, trivial,
      trivial, Or.inl trivial⟩
  simp only [h5, if_false]
  by_cases h6 : buffer_exists fp (buffer_specs fp btr1 position).2.1
      (buffer_specs fp btr1 position).2.2.2 = 0
  · simp only [h6, if_true]
    have hf := free_buffer_inv ss m fp 0 h
    have ha := alloc_buffer_inv ss m (free_buffer (testEnv ss m) fp 0).2
      (buffer_specs fp btr1 position).2.1 (buffer_specs fp btr1 position).2.2.2 hf.2.1
      (by rw [hf.2.2.1, hf.2.2.2]; exact hbeg.1)
    have hr := io_read_fill_inv ss m (alloc_buffer (testEnv ss m)
      (free_buffer (testEnv ss m) fp 0).2 (buffer_specs fp btr1 position).2.1
      (buffer_specs fp btr1 position).2.2.2).2 position btr1 ha.1
    simp only [hf.1, ne_eq, not_true_eq_false, if_false]
    split
    · exact ⟨ha.1, by rw [ha.2.1, hf.2.2.1], by rw [ha.2.2.1, hf.2.2.2],
        Or.inr (by rw [ha.2.2.2]; exact hbeg.2)⟩
    · exact ⟨hr.1, by rw [hr.2.1, ha.2.1, hf.2.2.1], by rw [hr.2.2.1, ha.2.2.1, hf.2.2.2],
        Or.inr (by rw [hr.2.2.2, ha.2.2.2]; exact hbeg.2)⟩
  · simp only [h6, if_false]
    have hr := io_read_fill_inv ss m fp position btr1 h
    exact ⟨hr.1, hr.2.1, hr.2.2.1, Or.inl hr.2.2.2⟩

/-- A write into the buffer at or after its start, ending at or below the ceiling, keeps the
state well formed. -/
theorem modif_cache_keeps_inv (fp : IO_FileDescriptor PosixFile) (data : List Nat)
    (position c : Nat) (h : Inv fp) (hP : fp.bufferBegin * fp.ssize ≤ position)
    (hsum : position + c ≤ MAX_FILE_SIZE) :
    Inv (modif_cache fp data position c).2.2 ∧
    (modif_cache fp data position c).2.2.ssize = fp.ssize := by
  have hmul := umul_exact_of_inv h
  have hL := h.size_lt
  have hv := h.valid_le
  have hd := h.disk_le
  simp only [FSIZE_MOD] at hL
  simp only [MAX_FILE_SIZE] at hsum
  generalize hPdef : fp.bufferBegin * fp.ssize = P at *
  have hoff : usub position P = position - P := usub_eq (by simp only [UINT_MOD]; omega) hP
  have hz := zero_fill_spec (position - P) (position - P) (fp.buffer.getD (fun _ => 0))
    fp.actualSize (by omega)
  have hadd : uadd (position - P) c = position - P + c :=
    uadd_eq (by simp only [UINT_MOD]; omega)
  have h1 : (if max fp.actualSize (position - P) < position - P + c then position - P + c
      else max fp.actualSize (position - P)) = max fp.actualSize (position - P + c) := by
    split <;> omega
  have hA : max fp.actualSize (position - P + c) + P < UINT_MOD := by
    simp only [UINT_MOD]; omega
  have hAP : uadd (max fp.actualSize (position - P + c)) P
      = max fp.actualSize (position - P + c) + P := uadd_eq hA
  unfold modif_cache
  simp only [hmul, hoff, hz, hadd, h1, hAP]
  refine ⟨⟨h.isOpen, h.wr, h.rd, ?_, ?_, ?_, ?_⟩, trivial⟩
  · show fp.file.size ≤ _
    simp only []
    split <;> omega
  · show fp.bufferBegin * fp.ssize + _ ≤ _
    simp only [hPdef]
    split <;> omega
  · simp only [FSIZE_MOD]
    split <;> omega
  · exact h.ssize_lt

theorem umul_le_mul (a b : Nat) : umul a b ≤ a * b := Nat.mod_le _ _

theorem umul_lt_mod (a b : Nat) : umul a b < UINT_MOD := Nat.mod_lt _ (by decide)

/-- Every path through `io_write` keeps the state well formed. -/
theorem io_write_body_inv (fp : IO_FileDescriptor PosixFile) (buff : List Nat)
    (position btw : Nat) (h : Inv fp) :
    Inv (io_write_body (testEnv ss m) fp buff position btw).2.2 ∧
    (io_write_body (testEnv ss m) fp buff position btw).2.2.ssize = fp.ssize := by
  unfold io_write_body
  by_cases h1 : btw = 0
  · simp only [h1, if_true]
    exact ⟨h, trivial⟩
  by_cases h2 : fp.ssize = 0
  · simp only [h1, h.isOpen, h2, if_true, if_false]
    exact ⟨h, trivial⟩
  by_cases h3 : position ≥ MAX_FILE_SIZE
  · simp only [h1, h.isOpen, h2, h3, if_true, if_false]
    exact ⟨h, trivial⟩
  simp only [h1, h.isOpen, h2, h3, if_false]
  obtain ⟨c, hc, hcle⟩ : ∃ c, (if position + btw > MAX_FILE_SIZE
      then (MAX_FILE_SIZE - position) % UINT_MOD else btw) = c ∧
      position + c ≤ MAX_FILE_SIZE := by
    refine ⟨_, rfl, ?_⟩
    split
    · have := mod_le' (MAX_FILE_SIZE - position) UINT_MOD
      omega
    · omega
  simp only [hc]
  by_cases h4 : c = 0
  · simp only [h4, if_true]
    exact ⟨h, trivial⟩
  simp only [h4, if_false]
  have hposlt : position < UINT_MOD := by
    simp only [MAX_FILE_SIZE] at h3
    simp only [UINT_MOD]
    omega
  have hbeg := buffer_specs_begin fp c position hposlt
  by_cases h5 : (buffer_specs fp c position).1 = FR_OK
  swap
  · simp only [ne_eq, h5, not_false_eq_true, if_true]
    exact ⟨h, trivial⟩
  simp only [ne_eq, h5, not_true_eq_false, if_false]
  generalize (buffer_specs fp c position).2.1 = b at hbeg ⊢
  generalize (buffer_specs fp c position).2.2.2 = sz
  by_cases h6 : buffer_exists fp b sz = 0
  swap
  · simp only [h6, not_false_eq_true, if_true]
    have hle := (buffer_exists_ne_zero fp b sz h6).2.1
    have : fp.bufferBegin * fp.ssize ≤ b * fp.ssize := Nat.mul_le_mul_right _ hle
    exact modif_cache_keeps_inv fp buff position c h (by omega) hcle
  simp only [h6, not_true_eq_false, if_false]
  have hf := free_buffer_inv ss m fp 0 h
  generalize free_buffer (testEnv ss m) fp 0 = F at hf ⊢
  simp only [hf.1, not_true_eq_false, if_false]
  have ha := alloc_buffer_inv ss m F.2 b sz hf.2.1 (by rw [hf.2.2.1, hf.2.2.2]; exact hbeg.1)
  generalize alloc_buffer (testEnv ss m) F.2 b sz = A at ha ⊢
  have hAss : A.2.ssize = fp.ssize := by rw [ha.2.1, hf.2.2.1]
  by_cases h7 : A.1 = FR_OK
  swap
  · simp only [h7, not_false_eq_true, if_true]
    exact ⟨ha.1, hAss⟩
  simp only [h7, not_true_eq_false, if_false]
  by_cases h8 : A.2.buffer.isNone = true
  · simp only [h8, if_true]
    exact ⟨ha.1, hAss⟩
  simp only [h8, Bool.false_eq_true, if_false]
  by_cases h9 : position ≠ umul b A.2.ssize ∧
      umul b A.2.ssize < (testEnv ss m).drv.f_size A.2.file
  swap
  · rw [if_neg h9]
    have := modif_cache_keeps_inv A.2 buff position c ha.1
      (by rw [ha.2.2.2, hAss]; exact hbeg.2) hcle
    exact ⟨this.1, by rw [this.2, hAss]⟩
  rw [if_pos h9]
  have hr := io_read_body_inv ss m A.2 (umul b A.2.ssize) (usub position (umul b A.2.ssize))
    ha.1 (umul_lt_mod _ _)
  generalize io_read_body (testEnv ss m) A.2 (umul b A.2.ssize)
    (usub position (umul b A.2.ssize)) = R at hr ⊢
  have hRss : R.2.2.ssize = fp.ssize := by rw [hr.2.1, hAss]
  by_cases h10 : R.1.isNone = true
  · rw [if_pos h10]
    exact ⟨hr.1, hRss⟩
  · rw [if_neg h10]
    have hP : R.2.2.bufferBegin * R.2.2.ssize ≤ position := by
      rw [hRss]
      rcases hr.2.2.2 with hb | hb
      · rw [hb, ha.2.2.2]; exact hbeg.2
      · have := umul_le_mul b A.2.ssize
        rw [hAss] at this hb
        omega
    have := modif_cache_keeps_inv R.2.2 buff position c hr.1 hP hcle
    exact ⟨this.1, by rw [this.2, hRss]⟩

/-- The function `io_sync` keeps the state well formed. -/
theorem io_sync_body_inv (fp : IO_FileDescriptor PosixFile) (h : Inv fp) :
    Inv (io_sync_body (testEnv ss m) fp).2 := by
  obtain ⟨F, hF, hwr, hrd, hsize, -⟩ := write_cache_testEnv ss m fp h
  unfold io_sync_body
  simp only [h.isOpen, if_false, hF, ne_eq, not_true_eq_false]
  simp only [testEnv, testConf, posix, not_true_eq_false, if_false]
  refine ⟨h.isOpen, hwr, hrd, ?_, h.valid_le, h.size_lt, h.ssize_lt⟩
  show F.size ≤ fp.actualFileSize
  rw [hsize]
  split
  · exact le_refl _
  · exact h.disk_le

/-- Growing the file to a size at or above the logical size succeeds and keeps the state well
formed. -/
theorem preallocate_inv (fp : IO_FileDescriptor PosixFile) (size : Nat) (h : Inv fp)
    (hsz : size < FSIZE_MOD) (hle : fp.actualFileSize ≤ size) :
    (preallocate (testEnv ss m) fp size).1 = FR_OK ∧
    Inv (preallocate (testEnv ss m) fp size).2 := by
  rw [preallocate_testEnv ss m fp size h.isOpen]
  have hv := h.valid_le
  have hd := h.disk_le
  split
  · exact ⟨rfl, h⟩
  · refine ⟨rfl, h.isOpen, ?_, ?_, ?_, ?_, ?_, h.ssize_lt⟩
    · show (posix_f_lseek fp.file size).2.wr = true
      rw [posix_f_lseek_wr]; exact h.wr
    · show (posix_f_lseek fp.file size).2.rd = true
      rw [posix_f_lseek_rd]; exact h.rd
    · show (posix_f_lseek fp.file size).2.size ≤ size % FSIZE_MOD
      rw [posix_f_lseek_size _ _ h.wr (inv_disk_lt h) (by simpa [FSIZE_MOD, UINT_MOD] using hsz),
        Nat.mod_eq_of_lt hsz]
      omega
    · show fp.bufferBegin * fp.ssize + fp.actualSize ≤ size % FSIZE_MOD
      rw [Nat.mod_eq_of_lt hsz]
      omega
    · show size % FSIZE_MOD < FSIZE_MOD
      exact Nat.mod_lt _ (by decide)

/-- The function `io_lseek` keeps the state well formed. -/
theorem io_lseek_body_inv (fp : IO_FileDescriptor PosixFile) (rwPointer : Nat) (h : Inv fp)
    (hrw : rwPointer < FSIZE_MOD) :
    Inv (io_lseek_body (testEnv ss m) fp rwPointer).2 := by
  unfold io_lseek_body io_size_body
  simp only [h.isOpen, if_false, ne_eq, not_true_eq_false]
  have hp : ∃ p : FRESULT × IO_FileDescriptor PosixFile,
      (if rwPointer > fp.actualFileSize then preallocate (testEnv ss m) fp rwPointer
        else (FR_OK, fp)) = p ∧ p.1 = FR_OK ∧ Inv p.2 := by
    refine ⟨_, rfl, ?_⟩
    split
    · rename_i hgt
      exact preallocate_inv ss m fp rwPointer h hrw (by omega)
    · exact ⟨rfl, h⟩
  obtain ⟨p, hp, hp1, hp2⟩ := hp
  simp only [hp, hp1, not_true_eq_false, if_false, hp2.isOpen]
  split_ifs
  all_goals first
    | exact hp2
    | exact ⟨hp2.isOpen, hp2.wr, hp2.rd, hp2.disk_le, hp2.valid_le, hp2.size_lt, hp2.ssize_lt⟩

/-- On a writable handle `f_truncate` of `ff.c` cuts or extends the file to the offset. -/
theorem posix_f_truncate_spec (f : PosixFile) (hw : f.wr = true) :
    (posix_f_truncate f).1 = FR_OK ∧ (posix_f_truncate f).2.wr = true ∧
    (posix_f_truncate f).2.rd = f.rd ∧ (posix_f_truncate f).2.size = f.pos % FSIZE_MOD := by
  unfold posix_f_truncate posix_f_tell
  simp [hw]

/-- The last step of `io_truncate` leaves a well-formed state once the logical size is the
new size. -/
theorem io_truncate_disk_inv (fp : IO_FileDescriptor PosixFile) (newSize : Nat)
    (hopen : fp.isOpen ≠ 0) (hwr : fp.file.wr = true) (hrd : fp.file.rd = true)
    (hL : fp.actualFileSize = newSize) (hsz : newSize < FSIZE_MOD)
    (hdisk : fp.file.size < UINT_MOD)
    (hv : fp.bufferBegin * fp.ssize + fp.actualSize ≤ newSize)
    (hss : fp.ssize < UINT_MOD) :
    Inv (io_truncate_disk (testEnv ss m) fp newSize).2 := by
  have hfs : (testEnv ss m).drv.f_size fp.file = fp.file.size := by
    show posix_f_size fp.file = fp.file.size
    exact Nat.mod_eq_of_lt hdisk
  unfold io_truncate_disk
  rw [hfs]
  by_cases hlt : newSize < fp.file.size
  · rw [if_pos hlt, seek_testEnv ss m fp newSize hopen]
    simp only [testEnv, testConf, posix, ne_eq, not_true_eq_false, or_self, if_false]
    have hT := posix_f_truncate_spec (posix_f_lseek fp.file newSize).2
      (by rw [posix_f_lseek_wr]; exact hwr)
    rw [posix_f_lseek_rd, posix_f_lseek_pos, Nat.mod_eq_of_lt hsz] at hT
    generalize posix_f_truncate (posix_f_lseek fp.file newSize).2 = T at hT ⊢
    simp only [hT.1, not_true_eq_false, if_false]
    refine ⟨hopen, hT.2.1, ?_, ?_, ?_, ?_, hss⟩
    · show T.2.rd = true
      rw [hT.2.2.1]; exact hrd
    · show T.2.size ≤ fp.actualFileSize
      rw [hT.2.2.2]; omega
    · show fp.bufferBegin * fp.ssize + fp.actualSize ≤ fp.actualFileSize
      omega
    · show fp.actualFileSize < FSIZE_MOD
      rw [hL]; exact hsz
  · rw [if_neg hlt]
    refine ⟨hopen, hwr, hrd, ?_, ?_, ?_, hss⟩
    · show fp.file.size ≤ fp.actualFileSize
      omega
    · show fp.bufferBegin * fp.ssize + fp.actualSize ≤ fp.actualFileSize
      omega
    · show fp.actualFileSize < FSIZE_MOD
      rw [hL]; exact hsz

/-- The function `io_truncate` keeps the state well formed. -/
theorem io_truncate_body_inv (fp : IO_FileDescriptor PosixFile) (newSize : Nat) (h : Inv fp)
    (hsz : newSize < FSIZE_MOD) :
    Inv (io_truncate_body (testEnv ss m) fp newSize).2 := by
  have hmul := umul_exact_of_inv h
  have hv := h.valid_le
  have hd := h.disk_le
  have hL := h.size_lt
  have hdisk := inv_disk_lt h
  have hnew : newSize < UINT_MOD := by simpa [FSIZE_MOD, UINT_MOD] using hsz
  unfold io_truncate_body io_size_body
  simp only [h.isOpen, if_false, ne_eq, not_true_eq_false, hmul]
  by_cases h1 : newSize = fp.actualFileSize
  · rw [if_pos h1]; exact h
  rw [if_neg h1]
  by_cases h2 : newSize > fp.actualFileSize
  · rw [if_pos h2]
    exact (preallocate_inv ss m fp newSize h hsz (by omega)).2
  rw [if_neg h2]
  have hlt : newSize < fp.actualFileSize := by omega
  by_cases h3 : newSize ≥ fp.bufferBegin * fp.ssize
  · rw [if_pos ⟨hlt, h3⟩]
    refine io_truncate_disk_inv ss m _ newSize ?_ ?_ ?_ rfl hsz ?_ ?_ ?_
    · exact h.isOpen
    · exact h.wr
    · exact h.rd
    · exact hdisk
    · show fp.bufferBegin * fp.ssize + usub newSize (fp.bufferBegin * fp.ssize) ≤ newSize
      rw [usub_eq hnew h3]
      omega
    · exact h.ssize_lt
  · have h3' : ¬ (newSize < fp.actualFileSize ∧ newSize ≥ fp.bufferBegin * fp.ssize) := by
      omega
    have h4 : newSize < fp.actualFileSize ∧ newSize < fp.bufferBegin * fp.ssize := by omega
    rw [if_neg h3', if_pos h4]
    have hfree : free_buffer (testEnv ss m)
        { fp with actualFileSize := newSize, actualSize := 0, unsavedData := 0 } 1
        = (FR_OK,
          { fp with
            actualFileSize := newSize, actualSize := 0, unsavedData := 0
            buffer := none, bufferBegin := 0, bufferSize := 0 }) := by
      unfold free_buffer write_cache
      simp [h.isOpen]
    rw [hfree]
    simp only [not_true_eq_false, if_false]
    refine io_truncate_disk_inv ss m _ newSize ?_ ?_ ?_ rfl hsz ?_ ?_ ?_
    · exact h.isOpen
    · exact h.wr
    · exact h.rd
    · exact hdisk
    · show 0 * fp.ssize + 0 ≤ newSize
      omega
    · exact h.ssize_lt

set_option maxRecDepth 100000 in
theorem create_mode_bits : ∀ m < 256,
    ((m ||| (FA_WRITE ||| FA_CREATE_ALWAYS)) % BYTE_MOD) &&& FA_WRITE ≠ 0 := by
  decide

/-- The descriptor `io_open` returns for a handle opened with write access is well formed. -/
theorem io_open_inv (f : PosixFile) (path : String) (mode : Nat)
    (fp : IO_FileDescriptor PosixFile) (hss : ss < WORD_MOD) (hf : f.size < UINT_MOD)
    (hm : mode < BYTE_MOD) (hw : mode &&& FA_WRITE ≠ 0)
    (ho : (io_open (testEnv ss m) f path mode).1 = some fp) : Inv fp := by
  by_cases hp : path = ""
  · exfalso
    subst hp
    simp [io_open, allocFileDescriptor, testEnv, posix, posix_f_open] at ho
  · rw [io_open_testEnv ss m f path mode hp hm hw hss] at ho
    have : openedOn ss f = fp := by simpa using ho
    rw [← this]
    exact inv_openedOn ss f hf (by simp only [WORD_MOD, UINT_MOD] at *; omega)

/-- The descriptor `io_create_contiguous` returns is well formed. -/
theorem io_create_contiguous_inv (f : PosixFile) (path : String) (mode size : Nat)
    (fp : IO_FileDescriptor PosixFile) (hss : ss < WORD_MOD) (hf : f.size < UINT_MOD)
    (hm : mode < BYTE_MOD) (hsz : size < FSIZE_MOD)
    (ho : (io_create_contiguous (testEnv ss m) f path mode size).1 = some fp) : Inv fp := by
  have hmode := create_mode_bits mode hm
  have hlt : (mode ||| (FA_WRITE ||| FA_CREATE_ALWAYS)) % BYTE_MOD < 256 :=
    Nat.mod_lt _ (by decide)
  by_cases hp : path = ""
  · exfalso
    subst hp
    simp [io_create_contiguous, io_open, allocFileDescriptor, testEnv, testConf, posix,
      posix_f_open] at ho
  · unfold io_create_contiguous at ho
    rw [io_open_testEnv ss m f path _ hp hlt hmode hss] at ho
    have hI := inv_openedOn ss f hf (by simp only [WORD_MOD, UINT_MOD] at *; omega)
    have hL := posix_f_lseek_wr (openedOn ss f).file size
    have hT := posix_f_truncate_spec (posix_f_lseek (openedOn ss f).file size).2
      (by rw [hL]; exact hI.wr)
    rw [posix_f_lseek_rd, posix_f_lseek_pos, Nat.mod_eq_of_lt hsz] at hT
    simp only [testEnv, testConf, posix, posix_f_expand, ne_eq, not_true_eq_false, or_self,
      if_false] at ho
    generalize posix_f_truncate (posix_f_lseek (openedOn ss f).file size).2 = T at hT ho
    simp only [hT.1, not_true_eq_false, if_false, Option.some.injEq] at ho
    rw [← ho]
    refine ⟨hI.isOpen, hT.2.1, ?_, ?_, ?_, hsz, hI.ssize_lt⟩
    · show T.2.rd = true
      rw [hT.2.2.1]; exact hI.rd
    · show T.2.size ≤ size
      rw [hT.2.2.2]
    · show (openedOn ss f).bufferBegin * (openedOn ss f).ssize + (openedOn ss f).actualSize
        ≤ size
      simp [openedOn]

end Preservation

/-- Every reachable state is well formed. -/
theorem inv_of_reachable (ss : Nat) (fp : IO_FileDescriptor PosixFile)
    (h : Reachable ss fp) : Inv fp := by
  induction h with
  | opened m f path mode fp hss hf hm hw ho => exact io_open_inv ss m f path mode fp hss hf hm hw ho
  | created m f path mode size fp hss hf hm hsz ho =>
    exact io_create_contiguous_inv ss m f path mode size fp hss hf hm hsz ho
  | read m fp position btr _ hpos _ ih => exact (io_read_body_inv ss m fp position btr ih hpos).1
  | write m fp buff position btw _ _ _ ih =>
    exact (io_write_body_inv ss m fp buff position btw ih).1
  | sync m fp _ ih => exact io_sync_body_inv ss m fp ih
  | lseek m fp rwPointer _ hrw ih => exact io_lseek_body_inv ss m fp rwPointer ih hrw
  | truncate m fp newSize _ hsz ih => exact io_truncate_body_inv ss m fp newSize ih hsz

/-! ### Every reachable state is settled -/

section SettledLemmas
variable (ss : Nat) (m : Nat → Option Mem)

/-- After `free_buffer` nothing is unsaved and the storage holds the whole logical size. -/
theorem free_buffer_settled (fp : IO_FileDescriptor PosixFile) (ign : Nat) (h : Inv fp)
    (hs : Settled fp) :
    Settled (free_buffer (testEnv ss m) fp ign).2 ∧
    (free_buffer (testEnv ss m) fp ign).2.unsavedData = 0 ∧
    (free_buffer (testEnv ss m) fp ign).2.file.size = fp.actualFileSize := by
  obtain ⟨F, hF, -, -, hsize, -⟩ := free_buffer_testEnv ss m fp ign h
  rw [hF]
  have hFL : F.size = fp.actualFileSize := by
    rw [hsize]
    split
    · rfl
    · rename_i hnd
      apply hs.clean
      by_contra hu
      exact hnd ⟨hs.backed hu, hu⟩
  refine ⟨⟨?_, ?_, ?_⟩, rfl, hFL⟩
  · intro hu; exact absurd rfl hu
  · intro _; exact hFL
  · show 0 * fp.ssize ≤ F.size
    omega

/-- A fresh window over a descriptor without unsaved data, starting inside the file on
storage, keeps the state settled. -/
theorem alloc_buffer_settled (fp : IO_FileDescriptor PosixFile) (b sz : Nat)
    (hs : Settled fp) (hu : fp.unsavedData = 0) (hb : b * fp.ssize ≤ fp.file.size) :
    Settled (alloc_buffer (testEnv ss m) fp b sz).2 ∧
    (alloc_buffer (testEnv ss m) fp b sz).2.unsavedData = 0 ∧
    (alloc_buffer (testEnv ss m) fp b sz).2.file = fp.file := by
  unfold alloc_buffer
  simp only []
  split
  · refine ⟨⟨?_, hs.clean, hb⟩, hu, rfl⟩
    intro h; exact absurd hu h
  · refine ⟨⟨?_, hs.clean, hb⟩, hu, rfl⟩
    intro h; exact absurd hu h

/-- The fill of `io_read` keeps the state settled, the dirty flag as it was and a buffer in
place. -/
theorem io_read_fill_settled (fp : IO_FileDescriptor PosixFile) (position btr : Nat)
    (h : Inv fp) (hs : Settled fp) :
    Settled (io_read_fill (testEnv ss m) fp position btr).2.2 ∧
    (io_read_fill (testEnv ss m) fp position btr).2.2.unsavedData = fp.unsavedData ∧
    (io_read_fill (testEnv ss m) fp position btr).2.2.buffer.isSome = fp.buffer.isSome ∧
    (io_read_fill (testEnv ss m) fp position btr).2.2.file.size = fp.file.size := by
  obtain ⟨F, nr, br, hF, -, -, -, hsize, -⟩ := io_read_fill_spec ss m fp position btr h
  rw [hF]
  have hb := hs.begin_le
  have hFs : F.size = fp.file.size := by rw [hsize]; omega
  refine ⟨⟨?_, ?_, ?_⟩, rfl, ?_, hFs⟩
  · intro hu
    have := hs.backed hu
    show (fp.buffer.map _).isSome = true
    simpa using this
  · intro hu
    show F.size = fp.actualFileSize
    rw [hFs]; exact hs.clean hu
  · show fp.bufferBegin * fp.ssize ≤ F.size
    rw [hFs]; exact hb
  · show (fp.buffer.map _).isSome = fp.buffer.isSome
    simp

/-- Every path through `io_read` keeps the state settled, and a view is only returned
out of a buffer. -/
theorem io_read_body_settled (fp : IO_FileDescriptor PosixFile) (position btr : Nat)
    (h : Inv fp) (hs : Settled fp) (hpos : position < UINT_MOD) :
    Settled (io_read_body (testEnv ss m) fp position btr).2.2 ∧
    ((io_read_body (testEnv ss m) fp position btr).1.isSome = true →
      (io_read_body (testEnv ss m) fp position btr).2.2.buffer.isSome = true) := by
  unfold io_read_body
  by_cases h1 : btr = 0
  · simp only [h1, if_true]
    exact ⟨hs, by simp⟩
  by_cases h2 : fp.ssize = 0
  · simp only [h1, h.isOpen, h2, if_true, if_false]
    exact ⟨hs, by simp⟩
  by_cases h3 : position ≥ (testEnv ss m).drv.f_size fp.file ∧
      position ≥ uadd fp.actualSize (umul fp.bufferBegin fp.ssize)
  · simp only [h1, h.isOpen, h2, h3, and_self, if_true, if_false]
    exact ⟨hs, by simp⟩
  simp only [h1, h.isOpen, h2, h3, if_false]
  generalize (if uadd position btr > (testEnv ss m).drv.f_size fp.file ∧
          uadd position btr > uadd fp.actualSize (umul fp.bufferBegin fp.ssize)
      then usub ((testEnv ss m).drv.f_size fp.file) position else btr) = btr1
  have hbeg := buffer_specs_begin fp btr1 position hpos
  by_cases h4 : (buffer_specs fp btr1 position).1 = FR_OK
  swap
  · simp only [ne_eq, h4, not_false_eq_true, if_true]
    exact ⟨hs, by simp⟩
  simp only [ne_eq, h4, not_true_eq_false, if_false]
  generalize (buffer_specs fp btr1 position).2.1 = b at hbeg ⊢
  generalize (buffer_specs fp btr1 position).2.2.2 = sz
  by_cases h5 : buffer_exists fp b sz = 2
  · simp only [h5, if_true]
    have hne : buffer_exists fp b sz ≠ 0 := by rw [h5]; decide
    obtain ⟨rb, hrb⟩ := (buffer_exists_ne_zero fp b sz hne).1
    refine ⟨⟨hs.backed, hs.clean, hs.begin_le⟩, ?_⟩
    intro _
    show fp.buffer.isSome = true
    rw [hrb]; rfl
  simp only [h5, if_false]
  by_cases h6 : buffer_exists fp b sz = 0
  · simp only [h6, if_true]
    have hf := free_buffer_inv ss m fp 0 h
    have hfs := free_buffer_settled ss m fp 0 h hs
    generalize free_buffer (testEnv ss m) fp 0 = F at hf hfs ⊢
    simp only [hf.1, not_true_eq_false, if_false]
    have hbL : b * F.2.ssize ≤ F.2.actualFileSize := by
      rw [hf.2.2.1, hf.2.2.2]; exact hbeg.1
    have hbD : b * F.2.ssize ≤ F.2.file.size := by
      rw [hf.2.2.1, hfs.2.2]; exact hbeg.1
    have ha := alloc_buffer_inv ss m F.2 b sz hf.2.1 hbL
    have has := alloc_buffer_settled ss m F.2 b sz hfs.1 hfs.2.1 hbD
    generalize alloc_buffer (testEnv ss m) F.2 b sz = A at ha has ⊢
    by_cases h7 : A.2.buffer.isNone = true ∨ A.1 ≠ FR_OK
    · rw [if_pos h7]
      exact ⟨has.1, by simp⟩
    · rw [if_neg h7]
      have hr := io_read_fill_settled ss m A.2 position btr1 ha.1 has.1
      refine ⟨hr.1, ?_⟩
      intro _
      rw [hr.2.2.1]
      cases hA : A.2.buffer with
      | none => exact absurd (Or.inl (by rw [hA]; rfl)) h7
      | some x => rfl
  · simp only [h6, if_false]
    have hr := io_read_fill_settled ss m fp position btr1 h hs
    obtain ⟨rb, hrb⟩ := (buffer_exists_ne_zero fp b sz h6).1
    refine ⟨hr.1, ?_⟩
    intro _
    rw [hr.2.2.1, hrb]; rfl

/-- A write into a buffer leaves the state settled: the data is now unsaved, in a buffer. -/
theorem modif_cache_settled (fp : IO_FileDescriptor PosixFile) (data : List Nat)
    (position c : Nat) (hs : Settled fp) (hb : fp.buffer.isSome = true) :
    Settled (modif_cache fp data position c).2.2 := by
  refine ⟨?_, ?_, hs.begin_le⟩
  · intro _
    show (fp.buffer.map _).isSome = true
    simpa using hb
  · intro hu
    exact absurd hu (by show (1 : Nat) ≠ 0; decide)

/-- The logical size after a write into the buffer is the larger of the size before and the
end of the write. -/
theorem modif_cache_size (fp : IO_FileDescriptor PosixFile) (data : List Nat)
    (position c : Nat) (h : Inv fp) (hP : fp.bufferBegin * fp.ssize ≤ position)
    (hsum : position + c ≤ MAX_FILE_SIZE) :
    (modif_cache fp data position c).2.2.actualFileSize
      = max fp.actualFileSize (position + c) := by
  have hmul := umul_exact_of_inv h
  have hL := h.size_lt
  have hv := h.valid_le
  simp only [FSIZE_MOD] at hL
  simp only [MAX_FILE_SIZE] at hsum
  generalize hPdef : fp.bufferBegin * fp.ssize = P at *
  have hoff : usub position P = position - P := usub_eq (by simp only [UINT_MOD]; omega) hP
  have hz := zero_fill_spec (position - P) (position - P) (fp.buffer.getD (fun _ => 0))
    fp.actualSize (by omega)
  have hadd : uadd (position - P) c = position - P + c :=
    uadd_eq (by simp only [UINT_MOD]; omega)
  have h1 : (if max fp.actualSize (position - P) < position - P + c then position - P + c
      else max fp.actualSize (position - P)) = max fp.actualSize (position - P + c) := by
    split <;> omega
  have hA : max fp.actualSize (position - P + c) + P < UINT_MOD := by
    simp only [UINT_MOD]; omega
  have hAP : uadd (max fp.actualSize (position - P + c)) P
      = max fp.actualSize (position - P + c) + P := uadd_eq hA
  unfold modif_cache
  simp only [hmul, hoff, hz, hadd, h1, hAP]
  split <;> omega

/-- Every path through `io_write` keeps the state settled. A call that reports no byte
leaves the logical size as it was; a call that reports bytes returns `FR_OK` and the logical
size is the larger of the size before and the end of the bytes written. -/
theorem io_write_body_settled (fp : IO_FileDescriptor PosixFile) (buff : List Nat)
    (position btw : Nat) (h : Inv fp) (hs : Settled fp) :
    Settled (io_write_body (testEnv ss m) fp buff position btw).2.2 ∧
    (((io_write_body (testEnv ss m) fp buff position btw).2.1 = 0 ∧
        (io_write_body (testEnv ss m) fp buff position btw).2.2.actualFileSize
          = fp.actualFileSize) ∨
      ((io_write_body (testEnv ss m) fp buff position btw).1 = FR_OK ∧
        (io_write_body (testEnv ss m) fp buff position btw).2.2.actualFileSize
          = max fp.actualFileSize
            (position + (io_write_body (testEnv ss m) fp buff position btw).2.1))) := by
  unfold io_write_body
  by_cases h1 : btw = 0
  · simp only [h1, if_true]
    exact ⟨hs, Or.inl ⟨trivial, trivial⟩⟩
  by_cases h2 : fp.ssize = 0
  · simp only [h1, h.isOpen, h2, if_true, if_false]
    exact ⟨hs, Or.inl ⟨trivial, trivial⟩⟩
  by_cases h3 : position ≥ MAX_FILE_SIZE
  · simp only [h1, h.isOpen, h2, h3, if_true, if_false]
    exact ⟨hs, Or.inl ⟨trivial, trivial⟩⟩
  simp only [h1, h.isOpen, h2, h3, if_false]
  obtain ⟨c, hc, hcle⟩ : ∃ c, (if position + btw > MAX_FILE_SIZE
      then (MAX_FILE_SIZE - position) % UINT_MOD else btw) = c ∧
      position + c ≤ MAX_FILE_SIZE := by
    refine ⟨_, rfl, ?_⟩
    split
    · have := mod_le' (MAX_FILE_SIZE - position) UINT_MOD
      omega
    · omega
  simp only [hc]
  by_cases h4 : c = 0
  · simp only [h4, if_true]
    exact ⟨hs, Or.inl ⟨trivial, trivial⟩⟩
  simp only [h4, if_false]
  have hposlt : position < UINT_MOD := by
    simp only [MAX_FILE_SIZE] at h3
    simp only [UINT_MOD]
    omega
  have hbeg := buffer_specs_begin fp c position hposlt
  by_cases h5 : (buffer_specs fp c position).1 = FR_OK
  swap
  · simp only [ne_eq, h5, not_false_eq_true, if_true]
    exact ⟨hs, Or.inl ⟨trivial, trivial⟩⟩
  simp only [ne_eq, h5, not_true_eq_false, if_false]
  generalize (buffer_specs fp c position).2.1 = b at hbeg ⊢
  generalize (buffer_specs fp c position).2.2.2 = sz
  by_cases h6 : buffer_exists fp b sz = 0
  swap
  · simp only [h6, not_false_eq_true, if_true]
    have hex := buffer_exists_ne_zero fp b sz h6
    obtain ⟨rb, hrb⟩ := hex.1
    have : fp.bufferBegin * fp.ssize ≤ b * fp.ssize := Nat.mul_le_mul_right _ hex.2.1
    refine ⟨modif_cache_settled fp buff position c hs (by rw [hrb]; rfl), Or.inr ⟨rfl, ?_⟩⟩
    rw [modif_cache_size fp buff position c h (by omega) hcle, modif_cache_count]
  simp only [h6, not_true_eq_false, if_false]
  have hf := free_buffer_inv ss m fp 0 h
  have hfs := free_buffer_settled ss m fp 0 h hs
  generalize free_buffer (testEnv ss m) fp 0 = F at hf hfs ⊢
  simp only [hf.1, not_true_eq_false, if_false]
  have hbL : b * F.2.ssize ≤ F.2.actualFileSize := by
    rw [hf.2.2.1, hf.2.2.2]; exact hbeg.1
  have hbD : b * F.2.ssize ≤ F.2.file.size := by
    rw [hf.2.2.1, hfs.2.2]; exact hbeg.1
  have ha := alloc_buffer_inv ss m F.2 b sz hf.2.1 hbL
  have has := alloc_buffer_settled ss m F.2 b sz hfs.1 hfs.2.1 hbD
  generalize alloc_buffer (testEnv ss m) F.2 b sz = A at ha has ⊢
  have hAss : A.2.ssize = fp.ssize := by rw [ha.2.1, hf.2.2.1]
  have hAL : A.2.actualFileSize = fp.actualFileSize := by rw [ha.2.2.1, hf.2.2.2]
  by_cases h7 : A.1 = FR_OK
  swap
  · simp only [h7, not_false_eq_true, if_true]
    exact ⟨has.1, Or.inl ⟨trivial, hAL⟩⟩
  simp only [h7, not_true_eq_false, if_false]
  by_cases h8 : A.2.buffer.isNone = true
  · simp only [h8, if_true]
    exact ⟨has.1, Or.inl ⟨trivial, hAL⟩⟩
  simp only [h8, Bool.false_eq_true, if_false]
  have hAbuf : A.2.buffer.isSome = true := by
    cases hA : A.2.buffer with
    | none => exact absurd (by rw [hA]; rfl) h8
    | some x => rfl
  by_cases h9 : position ≠ umul b A.2.ssize ∧
      umul b A.2.ssize < (testEnv ss m).drv.f_size A.2.file
  swap
  · rw [if_neg h9]
    refine ⟨modif_cache_settled A.2 buff position c has.1 hAbuf, Or.inr ⟨rfl, ?_⟩⟩
    rw [modif_cache_size A.2 buff position c ha.1 (by rw [ha.2.2.2, hAss]; exact hbeg.2) hcle,
      modif_cache_count, hAL]
  rw [if_pos h9]
  have hr := io_read_body_inv ss m A.2 (umul b A.2.ssize) (usub position (umul b A.2.ssize))
    ha.1 (umul_lt_mod _ _)
  have hrs := io_read_body_settled ss m A.2 (umul b A.2.ssize)
    (usub position (umul b A.2.ssize)) ha.1 has.1 (umul_lt_mod _ _)
  generalize io_read_body (testEnv ss m) A.2 (umul b A.2.ssize)
    (usub position (umul b A.2.ssize)) = R at hr hrs ⊢
  have hRss : R.2.2.ssize = fp.ssize := by rw [hr.2.1, hAss]
  have hRL : R.2.2.actualFileSize = fp.actualFileSize := by rw [hr.2.2.1, hAL]
  by_cases h10 : R.1.isNone = true
  · rw [if_pos h10]
    exact ⟨hrs.1, Or.inl ⟨rfl, hRL⟩⟩
  · rw [if_neg h10]
    have hRsome : R.1.isSome = true := by
      cases hR : R.1 with
      | none => exact absurd (by rw [hR]; rfl) h10
      | some x => rfl
    have hP : R.2.2.bufferBegin * R.2.2.ssize ≤ position := by
      rw [hRss]
      rcases hr.2.2.2 with hb | hb
      · rw [hb, ha.2.2.2]; exact hbeg.2
      · have := umul_le_mul b A.2.ssize
        rw [hAss] at this hb
        omega
    refine ⟨modif_cache_settled R.2.2 buff position c hrs.1 (hrs.2 hRsome), Or.inr ⟨rfl, ?_⟩⟩
    rw [modif_cache_size R.2.2 buff position c hr.1 hP hcle, modif_cache_count, hRL]

/-- The function `io_sync` over the driver of `ff.c`: the flush succeeds, the storage then
holds the whole logical size with the valid bytes of the buffer in place, and only the dirty
flag and the storage change. -/
theorem io_sync_body_testEnv (fp : IO_FileDescriptor PosixFile) (h : Inv fp) :
    ∃ F : PosixFile,
      io_sync_body (testEnv ss m) fp = (FR_OK, { fp with file := F, unsavedData := 0 }) ∧
      F.size = (if fp.unsavedData ≠ 0 then fp.actualFileSize else fp.file.size) ∧
      ∀ i, F.content i =
        if fp.unsavedData ≠ 0 ∧ fp.bufferBegin * fp.ssize ≤ i ∧
            i < fp.bufferBegin * fp.ssize + fp.actualSize
        then (fp.buffer.getD (fun _ => 0)) (i - fp.bufferBegin * fp.ssize)
        else fp.file.content i := by
  obtain ⟨F, hF, -, -, hsize, hcontent⟩ := write_cache_testEnv ss m fp h
  refine ⟨F, ?_, hsize, hcontent⟩
  unfold io_sync_body
  simp only [h.isOpen, if_false, hF, ne_eq, not_true_eq_false]
  simp only [testEnv, testConf, posix, not_true_eq_false, if_false]

/-- The function `io_sync` keeps the state settled. -/
theorem io_sync_body_settled (fp : IO_FileDescriptor PosixFile) (h : Inv fp)
    (hs : Settled fp) : Settled (io_sync_body (testEnv ss m) fp).2 := by
  obtain ⟨F, hF, hsize, -⟩ := io_sync_body_testEnv ss m fp h
  rw [hF]
  have hFL : F.size = fp.actualFileSize := by
    rw [hsize]
    split
    · rfl
    · rename_i hu
      exact hs.clean (by simpa using hu)
  have hv := h.valid_le
  refine ⟨?_, ?_, ?_⟩
  · intro hu; exact absurd rfl hu
  · intro _; exact hFL
  · show fp.bufferBegin * fp.ssize ≤ F.size
    omega

/-- Growing the file to a size above the logical size puts the new size on storage. -/
theorem preallocate_grow (fp : IO_FileDescriptor PosixFile) (size : Nat) (h : Inv fp)
    (hsz : size < FSIZE_MOD) (hlt : fp.actualFileSize < size) :
    ∃ F : PosixFile,
      preallocate (testEnv ss m) fp size
        = (FR_OK, { fp with file := F, actualFileSize := size }) ∧
      F.size = size ∧ F.content = fp.file.content := by
  have hd := h.disk_le
  have hdl := inv_disk_lt h
  have hsu : size < UINT_MOD := by simpa [FSIZE_MOD, UINT_MOD] using hsz
  refine ⟨(posix_f_lseek fp.file size).2, ?_, ?_, ?_⟩
  · rw [preallocate_testEnv ss m fp size h.isOpen]
    have : ¬ (size ≤ posix_f_size fp.file) := by
      unfold posix_f_size
      rw [Nat.mod_eq_of_lt hdl]
      omega
    rw [if_neg this, Nat.mod_eq_of_lt hsz]
  · rw [posix_f_lseek_size _ _ h.wr hdl hsu]
    omega
  · exact posix_f_lseek_content _ _ hdl hsu

/-- Growing the file keeps the state settled. -/
theorem preallocate_grow_settled (fp : IO_FileDescriptor PosixFile) (size : Nat) (h : Inv fp)
    (hs : Settled fp) (hsz : size < FSIZE_MOD) (hlt : fp.actualFileSize < size) :
    Settled (preallocate (testEnv ss m) fp size).2 := by
  obtain ⟨F, hF, hsize, -⟩ := preallocate_grow ss m fp size h hsz hlt
  rw [hF]
  have hv := h.valid_le
  refine ⟨hs.backed, ?_, ?_⟩
  · intro _; exact hsize
  · show fp.bufferBegin * fp.ssize ≤ F.size
    omega

/-- The function `io_lseek` keeps the state settled. -/
theorem io_lseek_body_settled (fp : IO_FileDescriptor PosixFile) (rwPointer : Nat)
    (h : Inv fp) (hs : Settled fp) (hrw : rwPointer < FSIZE_MOD) :
    Settled (io_lseek_body (testEnv ss m) fp rwPointer).2 := by
  unfold io_lseek_body io_size_body
  simp only [h.isOpen, if_false, ne_eq, not_true_eq_false]
  have hp : ∃ p : FRESULT × IO_FileDescriptor PosixFile,
      (if rwPointer > fp.actualFileSize then preallocate (testEnv ss m) fp rwPointer
        else (FR_OK, fp)) = p ∧ p.1 = FR_OK ∧ Inv p.2 ∧ Settled p.2 := by
    refine ⟨_, rfl, ?_⟩
    split
    · rename_i hgt
      have := preallocate_inv ss m fp rwPointer h hrw (by omega)
      exact ⟨this.1, this.2, preallocate_grow_settled ss m fp rwPointer h hs hrw hgt⟩
    · exact ⟨rfl, h, hs⟩
  obtain ⟨p, hp, hp1, hp2, hp3⟩ := hp
  simp only [hp, hp1, not_true_eq_false, if_false, hp2.isOpen]
  split_ifs
  all_goals first
    | exact hp3
    | exact ⟨hp3.backed, hp3.clean, hp3.begin_le⟩

/-- The bytes of the file after `f_truncate` of `ff.c` on a writable handle. -/
theorem posix_f_truncate_content (f : PosixFile) (hw : f.wr = true) (i : Nat) :
    (posix_f_truncate f).2.content i = if i < f.pos % FSIZE_MOD then f.content i else 0 := by
  unfold posix_f_truncate posix_f_tell PosixFile.content
  simp only [hw, if_true]
  by_cases h1 : i < f.pos % FSIZE_MOD
  · by_cases h2 : i < f.size
    · simp [h1, h2]
    · simp [h1, h2]
  · simp [h1]

/-- The last step of `io_truncate` over the driver of `ff.c`: it succeeds, cuts the file on
storage to `newSize` when it is longer, keeps the bytes below `newSize` and touches nothing
else. -/
theorem io_truncate_disk_testEnv (fp : IO_FileDescriptor PosixFile) (newSize : Nat)
    (hopen : fp.isOpen ≠ 0) (hwr : fp.file.wr = true) (hdisk : fp.file.size < UINT_MOD)
    (hsz : newSize < FSIZE_MOD) :
    ∃ F : PosixFile,
      io_truncate_disk (testEnv ss m) fp newSize = (FR_OK, { fp with file := F }) ∧
      F.size = min fp.file.size newSize ∧
      (∀ i, i < newSize → F.content i = fp.file.content i) := by
  have hnew : newSize < UINT_MOD := by simpa [FSIZE_MOD, UINT_MOD] using hsz
  have hfs : (testEnv ss m).drv.f_size fp.file = fp.file.size := by
    show posix_f_size fp.file = fp.file.size
    exact Nat.mod_eq_of_lt hdisk
  unfold io_truncate_disk
  rw [hfs]
  by_cases hlt : newSize < fp.file.size
  · rw [if_pos hlt, seek_testEnv ss m fp newSize hopen]
    simp only [testEnv, testConf, posix, ne_eq, not_true_eq_false, or_self, if_false]
    have hlw : (posix_f_lseek fp.file newSize).2.wr = true := by
      rw [posix_f_lseek_wr]; exact hwr
    have hT := posix_f_truncate_spec (posix_f_lseek fp.file newSize).2 hlw
    have hTc := posix_f_truncate_content (posix_f_lseek fp.file newSize).2 hlw
    rw [posix_f_lseek_pos, Nat.mod_eq_of_lt hsz] at hT hTc
    rw [posix_f_lseek_content _ _ hdisk hnew] at hTc
    generalize posix_f_truncate (posix_f_lseek fp.file newSize).2 = T at hT hTc ⊢
    simp only [hT.1, not_true_eq_false, if_false]
    refine ⟨T.2, rfl, ?_, ?_⟩
    · rw [hT.2.2.2]; omega
    · intro i hi
      rw [hTc i, if_pos hi]
  · rw [if_neg hlt]
    refine ⟨fp.file, rfl, by omega, fun _ _ => rfl⟩

/-- The function `io_truncate` over the driver of `ff.c`: it succeeds and the logical size is
the new size. The file on storage grows to a larger size and is cut to a smaller one; the
bytes below both sizes stay. A new size at or after the start of the window keeps the buffer
and its dirty flag, a new size before it leaves the descriptor without a buffer. -/
theorem io_truncate_body_testEnv (fp : IO_FileDescriptor PosixFile) (newSize : Nat)
    (h : Inv fp) (hsz : newSize < FSIZE_MOD) :
    ∃ fp1 : IO_FileDescriptor PosixFile,
      io_truncate_body (testEnv ss m) fp newSize = (FR_OK, fp1) ∧
      fp1.actualFileSize = newSize ∧ fp1.ssize = fp.ssize ∧ fp1.rwPointer = fp.rwPointer ∧
      fp1.file.size = (if fp.actualFileSize < newSize then newSize
        else min fp.file.size newSize) ∧
      (∀ i, i < newSize → i < fp.actualFileSize → fp1.file.content i = fp.file.content i) ∧
      ((fp.bufferBegin * fp.ssize ≤ newSize ∧ fp1.buffer = fp.buffer ∧
          fp1.unsavedData = fp.unsavedData ∧ fp1.bufferBegin = fp.bufferBegin ∧
          fp1.bufferSize = fp.bufferSize) ∨
        (newSize < fp.bufferBegin * fp.ssize ∧ fp1.buffer = none ∧ fp1.unsavedData = 0 ∧
          fp1.bufferBegin = 0 ∧ fp1.bufferSize = 0 ∧ fp1.actualSize = 0)) := by
  have hmul := umul_exact_of_inv h
  have hv := h.valid_le
  have hd := h.disk_le
  have hL := h.size_lt
  have hdisk := inv_disk_lt h
  have hnew : newSize < UINT_MOD := by simpa [FSIZE_MOD, UINT_MOD] using hsz
  unfold io_truncate_body io_size_body
  simp only [h.isOpen, if_false, ne_eq, not_true_eq_false, hmul]
  by_cases h1 : newSize = fp.actualFileSize
  · rw [if_pos h1]
    refine ⟨fp, rfl, h1.symm, rfl, rfl, ?_, fun _ _ _ => rfl,
      Or.inl ⟨by omega, rfl, rfl, rfl, rfl⟩⟩
    rw [if_neg (by omega)]
    omega
  rw [if_neg h1]
  by_cases h2 : newSize > fp.actualFileSize
  · rw [if_pos h2]
    obtain ⟨F, hF, hFs, hFc⟩ := preallocate_grow ss m fp newSize h hsz h2
    rw [hF]
    refine ⟨_, rfl, rfl, rfl, rfl, ?_, ?_, Or.inl ⟨by omega, rfl, rfl, rfl, rfl⟩⟩
    · show F.size = _
      rw [if_pos h2]; exact hFs
    · intro i _ _
      show F.content i = _
      rw [hFc]
  rw [if_neg h2]
  have hlt : newSize < fp.actualFileSize := by omega
  have hnlt : ¬ (fp.actualFileSize < newSize) := by omega
  by_cases h3 : newSize ≥ fp.bufferBegin * fp.ssize
  · rw [if_pos ⟨hlt, h3⟩]
    obtain ⟨F, hF, hFs, hFc⟩ := io_truncate_disk_testEnv ss m
      { fp with
        actualFileSize := newSize
        actualSize := usub newSize (fp.bufferBegin * fp.ssize) } newSize
      (by exact h.isOpen) (by exact h.wr) (by exact hdisk) hsz
    rw [hF]
    refine ⟨_, rfl, rfl, rfl, rfl, ?_, ?_, Or.inl ⟨h3, rfl, rfl, rfl, rfl⟩⟩
    · show F.size = _
      rw [if_neg hnlt]; exact hFs
    · intro i hi _
      exact hFc i hi
  · have h3' : ¬ (newSize < fp.actualFileSize ∧ newSize ≥ fp.bufferBegin * fp.ssize) := by
      omega
    have h4 : newSize < fp.actualFileSize ∧ newSize < fp.bufferBegin * fp.ssize := by omega
    rw [if_neg h3', if_pos h4]
    have hfree : free_buffer (testEnv ss m)
        { fp with actualFileSize := newSize, actualSize := 0, unsavedData := 0 } 1
        = (FR_OK,
          { fp with
            actualFileSize := newSize, actualSize := 0, unsavedData := 0
            buffer := none, bufferBegin := 0, bufferSize := 0 }) := by
      unfold free_buffer write_cache
      simp [h.isOpen]
    rw [hfree]
    simp only [not_true_eq_false, if_false]
    obtain ⟨F, hF, hFs, hFc⟩ := io_truncate_disk_testEnv ss m
      { fp with
        actualFileSize := newSize, actualSize := 0, unsavedData := 0
        buffer := none, bufferBegin := 0, bufferSize := 0 } newSize
      (by exact h.isOpen) (by exact h.wr) (by exact hdisk) hsz
    rw [hF]
    refine ⟨_, rfl, rfl, rfl, rfl, ?_, ?_, Or.inr ⟨by omega, rfl, rfl, rfl, rfl, rfl⟩⟩
    · show F.size = _
      rw [if_neg hnlt]; exact hFs
    · intro i hi _
      exact hFc i hi

/-- The function `io_truncate` keeps the state settled. -/
theorem io_truncate_body_settled (fp : IO_FileDescriptor PosixFile) (newSize : Nat)
    (h : Inv fp) (hs : Settled fp) (hsz : newSize < FSIZE_MOD) :
    Settled (io_truncate_body (testEnv ss m) fp newSize).2 := by
  obtain ⟨fp1, h1, hL, hss, -, hdisk, -, hcase⟩ := io_truncate_body_testEnv ss m fp newSize h hsz
  rw [h1]
  have hb := hs.begin_le
  have hd := h.disk_le
  have hv := h.valid_le
  show Settled fp1
  rcases hcase with ⟨hP, hbuf, hu, hbb, -⟩ | ⟨hP, hbuf, hu, hbb, -, -⟩
  · refine ⟨?_, ?_, ?_⟩
    · rw [hu, hbuf]; exact hs.backed
    · rw [hu, hL, hdisk]
      intro hu0
      have := hs.clean hu0
      split <;> omega
    · rw [hbb, hss, hdisk]
      split <;> omega
  · refine ⟨?_, ?_, ?_⟩
    · intro hne; exact absurd hu hne
    · intro _
      rw [hL, hdisk]
      split <;> omega
    · rw [hbb]; omega

/-- The descriptor of a freshly opened file is settled. -/
theorem settled_openedOn (f : PosixFile) (hf : f.size < UINT_MOD) : Settled (openedOn ss f) := by
  refine ⟨?_, ?_, ?_⟩
  · intro hu; exact absurd rfl hu
  · intro _
    show f.size = f.size % UINT_MOD
    rw [Nat.mod_eq_of_lt hf]
  · show 0 * ss ≤ f.size
    omega

/-- The descriptor `io_open` returns for a handle opened with write access is settled. -/
theorem io_open_settled (f : PosixFile) (path : String) (mode : Nat)
    (fp : IO_FileDescriptor PosixFile) (hss : ss < WORD_MOD) (hf : f.size < UINT_MOD)
    (hm : mode < BYTE_MOD) (hw : mode &&& FA_WRITE ≠ 0)
    (ho : (io_open (testEnv ss m) f path mode).1 = some fp) : Settled fp := by
  by_cases hp : path = ""
  · exfalso
    subst hp
    simp [io_open, allocFileDescriptor, testEnv, posix, posix_f_open] at ho
  · rw [io_open_testEnv ss m f path mode hp hm hw hss] at ho
    have : openedOn ss f = fp := by simpa using ho
    rw [← this]
    exact settled_openedOn ss f hf

/-- The descriptor `io_create_contiguous` returns is settled. -/
theorem io_create_contiguous_settled (f : PosixFile) (path : String) (mode size : Nat)
    (fp : IO_FileDescriptor PosixFile) (hss : ss < WORD_MOD) (hf : f.size < UINT_MOD)
    (hm : mode < BYTE_MOD) (hsz : size < FSIZE_MOD)
    (ho : (io_create_contiguous (testEnv ss m) f path mode size).1 = some fp) :
    Settled fp := by
  have hmode := create_mode_bits mode hm
  have hlt : (mode ||| (FA_WRITE ||| FA_CREATE_ALWAYS)) % BYTE_MOD < 256 :=
    Nat.mod_lt _ (by decide)
  by_cases hp : path = ""
  · exfalso
    subst hp
    simp [io_create_contiguous, io_open, allocFileDescriptor, testEnv, testConf, posix,
      posix_f_open] at ho
  · unfold io_create_contiguous at ho
    rw [io_open_testEnv ss m f path _ hp hlt hmode hss] at ho
    have hI := inv_openedOn ss f hf (by simp only [WORD_MOD, UINT_MOD] at *; omega)
    have hL := posix_f_lseek_wr (openedOn ss f).file size
    have hT := posix_f_truncate_spec (posix_f_lseek (openedOn ss f).file size).2
      (by rw [hL]; exact hI.wr)
    rw [posix_f_lseek_rd, posix_f_lseek_pos, Nat.mod_eq_of_lt hsz] at hT
    simp only [testEnv, testConf, posix, posix_f_expand, ne_eq, not_true_eq_false, or_self,
      if_false] at ho
    generalize posix_f_truncate (posix_f_lseek (openedOn ss f).file size).2 = T at hT ho
    simp only [hT.1, not_true_eq_false, if_false, Option.some.injEq] at ho
    rw [← ho]
    refine ⟨?_, ?_, ?_⟩
    · intro hu; exact absurd rfl hu
    · intro _
      show T.2.size = size
      exact hT.2.2.2
    · show 0 * ss ≤ T.2.size
      omega

end SettledLemmas

/-- Every reachable state is well formed and settled. -/
theorem settled_of_reachable (ss : Nat) (fp : IO_FileDescriptor PosixFile)
    (h : Reachable ss fp) : Inv fp ∧ Settled fp := by
  refine ⟨inv_of_reachable ss fp h, ?_⟩
  induction h with
  | opened m f path mode fp hss hf hm hw ho =>
    exact io_open_settled ss m f path mode fp hss hf hm hw ho
  | created m f path mode size fp hss hf hm hsz ho =>
    exact io_create_contiguous_settled ss m f path mode size fp hss hf hm hsz ho
  | read m fp position btr hr hpos _ ih =>
    exact (io_read_body_settled ss m fp position btr (inv_of_reachable ss fp hr) ih hpos).1
  | write m fp buff position btw hr _ _ ih =>
    exact (io_write_body_settled ss m fp buff position btw (inv_of_reachable ss fp hr) ih).1
  | sync m fp hr ih => exact io_sync_body_settled ss m fp (inv_of_reachable ss fp hr) ih
  | lseek m fp rwPointer hr hrw ih =>
    exact io_lseek_body_settled ss m fp rwPointer (inv_of_reachable ss fp hr) ih hrw
  | truncate m fp newSize hr hsz ih =>
    exact io_truncate_body_settled ss m fp newSize (inv_of_reachable ss fp hr) ih hsz

/-! ### Counts, windows and truncation -/

/-- Whatever path `io_write` takes, the count it reports is zero or the clamped count of a
write that starts below the ceiling. -/
theorem io_write_body_count {σ : Type} (env : Env σ) (fp : IO_FileDescriptor σ)
    (buff : List Nat) (position btw : Nat) :
    (io_write_body env fp buff position btw).2.1 = 0 ∨
    (position < MAX_FILE_SIZE ∧
      (io_write_body env fp buff position btw).2.1 =
        if position + btw > MAX_FILE_SIZE then (MAX_FILE_SIZE - position) % UINT_MOD
        else btw) := by
  unfold io_write_body
  by_cases h1 : btw = 0
  · rw [if_pos h1]; exact Or.inl rfl
  rw [if_neg h1]
  by_cases h2 : fp.isOpen = 0
  · rw [if_pos h2]; exact Or.inl rfl
  rw [if_neg h2]
  by_cases h3 : fp.ssize = 0
  · rw [if_pos h3]; exact Or.inl rfl
  rw [if_neg h3]
  by_cases h4 : position ≥ MAX_FILE_SIZE
  · rw [if_pos h4]; exact Or.inl rfl
  rw [if_neg h4]
  have hlt : position < MAX_FILE_SIZE := by omega
  simp only []
  generalize (if position + btw > MAX_FILE_SIZE then (MAX_FILE_SIZE - position) % UINT_MOD
    else btw) = c
  split_ifs
  all_goals first
    | exact Or.inl rfl
    | exact Or.inr ⟨hlt, rfl⟩

/-- The window `buffer_specs` needs for `count` bytes is at least `count` bytes long. -/
theorem window_ge_count (position count s L : Nat) (hs : 0 < s) (hc : 1 ≤ count) :
    count ≤ ((position + count - 1) / s
      - (if position / s * s > L then L / s else position / s) + 1) * s := by
  have hb : (if position / s * s > L then L / s else position / s) ≤ position / s := by
    split
    · rename_i h
      apply Nat.div_le_div_right
      have := div_mul_le' position s
      omega
    · exact le_refl _
  generalize (if position / s * s > L then L / s else position / s) = b at hb ⊢
  have hqe : position / s ≤ (position + count - 1) / s := Nat.div_le_div_right (by omega)
  have h1 := div_mul_le' position s
  have h2 := lt_div_mul_add (position + count - 1) s hs
  generalize position / s = q at *
  generalize (position + count - 1) / s = e at *
  have h3 : (e - q + 1) * s ≤ (e - b + 1) * s := Nat.mul_le_mul_right _ (by omega)
  have h4 : (e - q + 1) * s + q * s = e * s + s := by
    rw [← Nat.add_mul]
    have : e - q + 1 + q = e + 1 := by omega
    rw [this, Nat.add_mul, Nat.one_mul]
  omega

/-- Setting the cursor only when it differs is setting the cursor. -/
theorem set_cursor_eq {σ : Type} (d : IO_FileDescriptor σ) (a : Nat) :
    (if ¬ a = d.rwPointer then { d with rwPointer := a } else d) = { d with rwPointer := a } := by
  by_cases h : a = d.rwPointer
  · rw [if_neg (not_not.mpr h)]
    subst h
    rfl
  · rw [if_pos h]

/-! ### Exact geometry, and invariant 5 over any driver -/

/-- The descriptor of a file opened for writing over the driver of `ff.c` is reachable. -/
theorem reachable_openedOn (ss : Nat) (f : PosixFile) (hss : ss < WORD_MOD)
    (hf : f.size < UINT_MOD) : Reachable ss (openedOn ss f) :=
  Reachable.opened (fun _ => some (fun _ => 170)) f "testTmpFile" FA_WRITE (openedOn ss f)
    hss hf (by decide) (by decide)
    (by rw [io_open_testEnv ss _ f "testTmpFile" FA_WRITE (by decide) (by decide) (by decide)
      hss])

/-- The values `buffer_specs` returns, for every request whose last sector number is a
32-bit value. -/
theorem buffer_specs_exact {σ : Type} (fp : IO_FileDescriptor σ) (bytes start : Nat)
    (hss : 0 < fp.ssize) (hssu : fp.ssize < UINT_MOD) (hb : 1 ≤ bytes)
    (hstart : start < UINT_MOD) (hbytes : bytes < UINT_MOD)
    (helt : (start + bytes - 1) / fp.ssize < UINT_MOD) :
    buffer_specs fp bytes start =
      if ((start + bytes - 1) / fp.ssize
            - (if start / fp.ssize * fp.ssize > fp.actualFileSize
                then fp.actualFileSize / fp.ssize else start / fp.ssize) + 1) * fp.ssize
          > MAX_BUFFER_SIZE
      then (FR_NOT_ENOUGH_CORE, 0, 0, 0)
      else (FR_OK,
        (if start / fp.ssize * fp.ssize > fp.actualFileSize
          then fp.actualFileSize / fp.ssize else start / fp.ssize),
        (start + bytes - 1) / fp.ssize,
        ((start + bytes - 1) / fp.ssize
            - (if start / fp.ssize * fp.ssize > fp.actualFileSize
                then fp.actualFileSize / fp.ssize else start / fp.ssize) + 1) * fp.ssize) := by
  have hss0 : fp.ssize ≠ 0 := by omega
  have hmul : umul (start / fp.ssize) fp.ssize = start / fp.ssize * fp.ssize := by
    apply umul_eq
    have := div_mul_le' start fp.ssize
    omega
  have he : (start + bytes + U64_MOD - 1) % U64_MOD = start + bytes - 1 := by
    have : start + bytes + U64_MOD - 1 = (start + bytes - 1) + U64_MOD := by omega
    rw [this, Nat.add_mod_right]
    apply Nat.mod_eq_of_lt
    simp only [UINT_MOD, U64_MOD] at *
    omega
  have hble : (if start / fp.ssize * fp.ssize > fp.actualFileSize
          then fp.actualFileSize / fp.ssize else start / fp.ssize) ≤ start / fp.ssize := by
    split
    · rename_i h
      apply Nat.div_le_div_right
      have := div_mul_le' start fp.ssize
      omega
    · exact le_refl _
  have hse : start / fp.ssize ≤ (start + bytes - 1) / fp.ssize :=
    Nat.div_le_div_right (by omega)
  simp only [buffer_specs, hss0, if_false, hmul, he]
  generalize (if start / fp.ssize * fp.ssize > fp.actualFileSize
          then fp.actualFileSize / fp.ssize else start / fp.ssize) = b at hble ⊢
  generalize (start + bytes - 1) / fp.ssize = e at hse helt ⊢
  have hd : (e + U64_MOD - b + 1) % U64_MOD = e - b + 1 := by
    have : e + U64_MOD - b + 1 = (e - b + 1) + U64_MOD := by omega
    rw [this, Nat.add_mod_right]
    apply Nat.mod_eq_of_lt
    simp only [UINT_MOD, U64_MOD] at *
    omega
  have hprod : (e - b + 1) * fp.ssize < U64_MOD := by
    have h1 : e - b + 1 ≤ UINT_MOD := by omega
    calc (e - b + 1) * fp.ssize ≤ UINT_MOD * fp.ssize := Nat.mul_le_mul_right _ h1
      _ < UINT_MOD * UINT_MOD := Nat.mul_lt_mul_of_pos_left hssu (by decide)
      _ = U64_MOD := by decide
  rw [hd, Nat.mod_eq_of_lt hprod]
  split
  · rfl
  · rename_i hcap
    have hsz : (e - b + 1) * fp.ssize < UINT_MOD := by
      simp only [MAX_BUFFER_SIZE, UINT_MOD] at *
      omega
    rw [Nat.mod_eq_of_lt helt, Nat.mod_eq_of_lt hsz, Nat.mod_eq_of_lt (show b < UINT_MOD by omega)]

section AnyDriver
variable {σ : Type} (env : Env σ)

/-- The function `seek` touches the storage handle only. -/
theorem seek_buf (fp : IO_FileDescriptor σ) (ofs : Nat) :
    (seek env fp ofs).2.buffer = fp.buffer ∧
    (seek env fp ofs).2.unsavedData = fp.unsavedData ∧
    (seek env fp ofs).2.bufferSize = fp.bufferSize ∧
    (seek env fp ofs).2.isOpen = fp.isOpen := by
  unfold seek
  split_ifs <;> exact ⟨rfl, rfl, rfl, rfl⟩

/-- The function `preallocate` leaves the buffer, its capacity and the dirty flag alone. -/
theorem preallocate_buf (fp : IO_FileDescriptor σ) (size : Nat) :
    (preallocate env fp size).2.buffer = fp.buffer ∧
    (preallocate env fp size).2.unsavedData = fp.unsavedData ∧
    (preallocate env fp size).2.bufferSize = fp.bufferSize ∧
    (preallocate env fp size).2.isOpen = fp.isOpen := by
  unfold preallocate
  simp only []
  have hk := seek_buf env fp size
  generalize seek env fp size = K at hk ⊢
  split_ifs
  · exact ⟨rfl, rfl, rfl, rfl⟩
  · exact ⟨rfl, rfl, rfl, rfl⟩
  · exact hk
  · exact hk

/-- The function `write_cache` leaves the buffer and its capacity alone and can only clear
the dirty flag. -/
theorem write_cache_buf (fp : IO_FileDescriptor σ) :
    (write_cache env fp).2.buffer = fp.buffer ∧
    (write_cache env fp).2.bufferSize = fp.bufferSize ∧
    ((write_cache env fp).2.unsavedData = fp.unsavedData ∨
      (write_cache env fp).2.unsavedData = 0) := by
  unfold write_cache
  simp only []
  have hp := preallocate_buf env fp (io_size_body fp).2
  generalize preallocate env fp (io_size_body fp).2 = P at hp ⊢
  have hk := seek_buf env P.2 (umul P.2.bufferBegin P.2.ssize)
  generalize seek env P.2 (umul P.2.bufferBegin P.2.ssize) = K at hk ⊢
  have e1 : K.2.buffer = fp.buffer := by rw [hk.1, hp.1]
  have e2 : K.2.bufferSize = fp.bufferSize := by rw [hk.2.2.1, hp.2.2.1]
  have e3 : K.2.unsavedData = fp.unsavedData := by rw [hk.2.1, hp.2.1]
  split_ifs
  all_goals first
    | exact ⟨rfl, rfl, Or.inl rfl⟩
    | exact ⟨e1, e2, Or.inl e3⟩
    | exact ⟨e1, e2, Or.inr rfl⟩

/-- The function `write_cache` keeps invariant 5. -/
theorem write_cache_db (fp : IO_FileDescriptor σ) (h : DirtyBuffered fp) :
    DirtyBuffered (write_cache env fp).2 := by
  obtain ⟨h1, h2, h3⟩ := write_cache_buf env fp
  refine ⟨?_, ?_⟩
  · intro hu
    rw [h1]
    rcases h3 with h3 | h3
    · rw [h3] at hu; exact h.dirty hu
    · exact absurd h3 hu
  · rw [h1, h2]; exact h.sized

/-- The function `free_buffer` keeps invariant 5; when it reports success to a caller that
does not ignore write errors, the descriptor has no buffer and nothing unsaved. -/
theorem free_buffer_db (fp : IO_FileDescriptor σ) (ign : Nat) (h : DirtyBuffered fp) :
    DirtyBuffered (free_buffer env fp ign).2 ∧
    ((free_buffer env fp ign).1 = FR_OK → ign = 0 →
      (free_buffer env fp ign).2.buffer = none ∧
      (free_buffer env fp ign).2.unsavedData = 0) := by
  unfold free_buffer
  simp only []
  have hw := write_cache_db env fp h
  generalize write_cache env fp = W at hw ⊢
  by_cases hb : fp.buffer.isSome = true
  · simp only [hb, if_true, true_and]
    by_cases hc : ign = 0 ∧ W.1 ≠ FR_OK
    · rw [if_pos hc]
      refine ⟨hw, ?_⟩
      intro hok _
      exact absurd hok hc.2
    · rw [if_neg hc]
      refine ⟨⟨?_, ?_⟩, fun _ _ => ⟨rfl, rfl⟩⟩
      · intro hu; exact absurd rfl hu
      · intro hs; exact absurd hs (by simp)
  · simp only [hb, Bool.false_eq_true, if_false, false_and]
    refine ⟨⟨?_, ?_⟩, fun _ _ => ⟨trivial, trivial⟩⟩
    · intro hu; exact absurd rfl hu
    · intro hs; exact absurd hs (by simp)

/-- A fresh block on a descriptor without buffer and without unsaved data keeps
invariant 5. -/
theorem alloc_buffer_db (fp : IO_FileDescriptor σ) (b sz : Nat) (hb : fp.buffer = none)
    (hu : fp.unsavedData = 0) :
    DirtyBuffered (alloc_buffer env fp b sz).2 ∧
    (alloc_buffer env fp b sz).2.unsavedData = 0 := by
  unfold alloc_buffer
  simp only []
  split
  · refine ⟨⟨?_, ?_⟩, hu⟩
    · intro h; exact absurd hu h
    · intro h
      have : fp.buffer.isSome = true := h
      rw [hb] at this
      exact absurd this (by simp)
  · rename_i hsz
    refine ⟨⟨?_, ?_⟩, hu⟩
    · intro h; exact absurd hu h
    · intro _; exact hsz

/-- The fill of `io_read` keeps invariant 5 and the buffer in place. -/
theorem io_read_fill_db (fp : IO_FileDescriptor σ) (position btr : Nat)
    (h : DirtyBuffered fp) :
    DirtyBuffered (io_read_fill env fp position btr).2.2 ∧
    (io_read_fill env fp position btr).2.2.buffer.isSome = fp.buffer.isSome := by
  unfold io_read_fill
  simp only []
  have hk := seek_buf env fp (umul fp.bufferBegin fp.ssize)
  generalize seek env fp (umul fp.bufferBegin fp.ssize) = K at hk ⊢
  have hK : DirtyBuffered K.2 := by
    refine ⟨?_, ?_⟩
    · rw [hk.1, hk.2.1]; exact h.dirty
    · rw [hk.1, hk.2.2.1]; exact h.sized
  have hmap : ∀ g : Mem → Mem, (K.2.buffer.map g).isSome = fp.buffer.isSome := by
    intro g; rw [Option.isSome_map', hk.1]
  split_ifs
  all_goals first
    | exact ⟨hK, by rw [hk.1]⟩
    | refine ⟨⟨?_, ?_⟩, hmap _⟩
      · intro hu
        have hu' : K.2.unsavedData ≠ 0 := hu
        rw [hmap, ← hk.1]
        exact hK.dirty hu'
      · intro hs
        have hs' : (K.2.buffer.map _).isSome = true := hs
        rw [Option.isSome_map'] at hs'
        exact hK.sized hs'

/-- Every path through `io_read` keeps invariant 5, and a view is only returned out of a
buffer. -/
theorem io_read_body_db (fp : IO_FileDescriptor σ) (position btr : Nat)
    (h : DirtyBuffered fp) :
    DirtyBuffered (io_read_body env fp position btr).2.2 ∧
    ((io_read_body env fp position btr).1.isSome = true →
      (io_read_body env fp position btr).2.2.buffer.isSome = true) := by
  unfold io_read_body
  by_cases h1 : btr = 0
  · rw [if_pos h1]; exact ⟨h, by simp⟩
  rw [if_neg h1]
  by_cases h2 : fp.isOpen = 0
  · rw [if_pos h2]; exact ⟨h, by simp⟩
  rw [if_neg h2]
  by_cases h2' : fp.ssize = 0
  · rw [if_pos h2']; exact ⟨h, by simp⟩
  rw [if_neg h2']
  by_cases h3 : position ≥ env.drv.f_size fp.file ∧
      position ≥ uadd fp.actualSize (umul fp.bufferBegin fp.ssize)
  · rw [if_pos h3]; exact ⟨h, by simp⟩
  rw [if_neg h3]
  simp only []
  generalize (if uadd position btr > env.drv.f_size fp.file ∧
          uadd position btr > uadd fp.actualSize (umul fp.bufferBegin fp.ssize)
      then usub (env.drv.f_size fp.file) position else btr) = btr1
  by_cases h4 : (buffer_specs fp btr1 position).1 = FR_OK
  swap
  · simp only [ne_eq, h4, not_false_eq_true, if_true]
    exact ⟨h, by simp⟩
  simp only [ne_eq, h4, not_true_eq_false, if_false]
  generalize (buffer_specs fp btr1 position).2.1 = b
  generalize (buffer_specs fp btr1 position).2.2.2 = sz
  by_cases h5 : buffer_exists fp b sz = 2
  · simp only [h5, if_true]
    have hne : buffer_exists fp b sz ≠ 0 := by rw [h5]; decide
    obtain ⟨rb, hrb⟩ := (buffer_exists_ne_zero fp b sz hne).1
    refine ⟨⟨h.dirty, h.sized⟩, ?_⟩
    intro _
    show fp.buffer.isSome = true
    rw [hrb]; rfl
  simp only [h5, if_false]
  by_cases h6 : buffer_exists fp b sz = 0
  · simp only [h6, if_true]
    have hf := free_buffer_db env fp 0 h
    generalize free_buffer env fp 0 = F at hf ⊢
    by_cases h7 : F.1 = FR_OK
    swap
    · simp only [h7, not_false_eq_true, if_true]
      exact ⟨hf.1, by simp⟩
    simp only [h7, not_true_eq_false, if_false]
    have hF := hf.2 h7 rfl
    have ha := alloc_buffer_db env F.2 b sz hF.1 hF.2
    generalize alloc_buffer env F.2 b sz = A at ha ⊢
    by_cases h8 : A.2.buffer.isNone = true ∨ A.1 ≠ FR_OK
    · rw [if_pos h8]
      exact ⟨ha.1, by simp⟩
    · rw [if_neg h8]
      have hr := io_read_fill_db env A.2 position btr1 ha.1
      refine ⟨hr.1, ?_⟩
      intro _
      rw [hr.2]
      cases hA : A.2.buffer with
      | none => exact absurd (Or.inl (by rw [hA]; rfl)) h8
      | some x => rfl
  · simp only [h6, if_false]
    have hr := io_read_fill_db env fp position btr1 h
    obtain ⟨rb, hrb⟩ := (buffer_exists_ne_zero fp b sz h6).1
    refine ⟨hr.1, ?_⟩
    intro _
    rw [hr.2, hrb]; rfl

/-- A write into a buffer keeps invariant 5. -/
theorem modif_cache_db (fp : IO_FileDescriptor σ) (data : List Nat) (position c : Nat)
    (h : DirtyBuffered fp) (hb : fp.buffer.isSome = true) :
    DirtyBuffered (modif_cache fp data position c).2.2 := by
  refine ⟨?_, ?_⟩
  · intro _
    show (fp.buffer.map _).isSome = true
    simpa using hb
  · intro _
    exact h.sized hb

/-- Every path through `io_write` keeps invariant 5. -/
theorem io_write_body_db (fp : IO_FileDescriptor σ) (buff : List Nat) (position btw : Nat)
    (h : DirtyBuffered fp) :
    DirtyBuffered (io_write_body env fp buff position btw).2.2 := by
  unfold io_write_body
  by_cases h1 : btw = 0
  · rw [if_pos h1]; exact h
  rw [if_neg h1]
  by_cases h2 : fp.isOpen = 0
  · rw [if_pos h2]; exact h
  rw [if_neg h2]
  by_cases h2' : fp.ssize = 0
  · rw [if_pos h2']; exact h
  rw [if_neg h2']
  by_cases h3 : position ≥ MAX_FILE_SIZE
  · rw [if_pos h3]; exact h
  rw [if_neg h3]
  simp only []
  generalize (if position + btw > MAX_FILE_SIZE then (MAX_FILE_SIZE - position) % UINT_MOD
    else btw) = c
  by_cases h4 : c = 0
  · rw [if_pos h4]; exact h
  rw [if_neg h4]
  by_cases h5 : (buffer_specs fp c position).1 = FR_OK
  swap
  · simp only [ne_eq, h5, not_false_eq_true, if_true]
    exact h
  simp only [ne_eq, h5, not_true_eq_false, if_false]
  generalize (buffer_specs fp c position).2.1 = b
  generalize (buffer_specs fp c position).2.2.2 = sz
  by_cases h6 : buffer_exists fp b sz = 0
  swap
  · simp only [h6, not_false_eq_true, if_true]
    obtain ⟨rb, hrb⟩ := (buffer_exists_ne_zero fp b sz h6).1
    exact modif_cache_db fp buff position c h (by rw [hrb]; rfl)
  simp only [h6, not_true_eq_false, if_false]
  have hf := free_buffer_db env fp 0 h
  generalize free_buffer env fp 0 = F at hf ⊢
  by_cases h7 : F.1 = FR_OK
  swap
  · simp only [h7, not_false_eq_true, if_true]
    exact hf.1
  simp only [h7, not_true_eq_false, if_false]
  have hF := hf.2 h7 rfl
  have ha := alloc_buffer_db env F.2 b sz hF.1 hF.2
  generalize alloc_buffer env F.2 b sz = A at ha ⊢
  by_cases h8 : A.1 = FR_OK
  swap
  · simp only [h8, not_false_eq_true, if_true]
    exact ha.1
  simp only [h8, not_true_eq_false, if_false]
  by_cases h9 : A.2.buffer.isNone = true
  · simp only [h9, if_true]
    exact ha.1
  simp only [h9, Bool.false_eq_true, if_false]
  have hAbuf : A.2.buffer.isSome = true := by
    cases hA : A.2.buffer with
    | none => exact absurd (by rw [hA]; rfl) h9
    | some x => rfl
  by_cases h10 : position ≠ umul b A.2.ssize ∧ umul b A.2.ssize < env.drv.f_size A.2.file
  swap
  · rw [if_neg h10]
    exact modif_cache_db A.2 buff position c ha.1 hAbuf
  rw [if_pos h10]
  have hr := io_read_body_db env A.2 (umul b A.2.ssize) (usub position (umul b A.2.ssize)) ha.1
  generalize io_read_body env A.2 (umul b A.2.ssize) (usub position (umul b A.2.ssize)) = R
    at hr ⊢
  by_cases h11 : R.1.isNone = true
  · rw [if_pos h11]
    exact hr.1
  · rw [if_neg h11]
    have hRsome : R.1.isSome = true := by
      cases hR : R.1 with
      | none => exact absurd (by rw [hR]; rfl) h11
      | some x => rfl
    exact modif_cache_db R.2.2 buff position c hr.1 (hr.2 hRsome)

/-- The function `io_sync` keeps invariant 5. -/
theorem io_sync_body_db (fp : IO_FileDescriptor σ) (h : DirtyBuffered fp) :
    DirtyBuffered (io_sync_body env fp).2 := by
  unfold io_sync_body
  simp only []
  have hw := write_cache_db env fp h
  generalize write_cache env fp = W at hw ⊢
  split_ifs
  all_goals first
    | exact h
    | exact hw
    | exact ⟨hw.dirty, hw.sized⟩

/-- The function `io_lseek` keeps invariant 5. -/
theorem io_lseek_body_db (fp : IO_FileDescriptor σ) (rwPointer : Nat)
    (h : DirtyBuffered fp) : DirtyBuffered (io_lseek_body env fp rwPointer).2 := by
  unfold io_lseek_body
  simp only []
  have hp : ∃ P : FRESULT × IO_FileDescriptor σ,
      (if rwPointer > (io_size_body fp).2 then preallocate env fp rwPointer
        else (FR_OK, fp)) = P ∧ DirtyBuffered P.2 := by
    refine ⟨_, rfl, ?_⟩
    split
    · obtain ⟨e1, e2, e3, -⟩ := preallocate_buf env fp rwPointer
      refine ⟨?_, ?_⟩
      · rw [e1, e2]; exact h.dirty
      · rw [e1, e3]; exact h.sized
    · exact h
  obtain ⟨P, hP, hP2⟩ := hp
  rw [hP]
  split_ifs
  all_goals first
    | exact h
    | exact hP2
    | exact ⟨hP2.dirty, hP2.sized⟩

/-- The last step of `io_truncate` keeps invariant 5. -/
theorem io_truncate_disk_db (fp : IO_FileDescriptor σ) (newSize : Nat)
    (h : DirtyBuffered fp) : DirtyBuffered (io_truncate_disk env fp newSize).2 := by
  unfold io_truncate_disk
  simp only []
  obtain ⟨e1, e2, e3, -⟩ := seek_buf env fp newSize
  generalize seek env fp newSize = K at e1 e2 e3 ⊢
  have hK : DirtyBuffered K.2 := by
    refine ⟨?_, ?_⟩
    · rw [e1, e2]; exact h.dirty
    · rw [e1, e3]; exact h.sized
  split_ifs
  all_goals first
    | exact h
    | exact hK
    | exact ⟨hK.dirty, hK.sized⟩

/-- The function `io_truncate` keeps invariant 5. -/
theorem io_truncate_body_db (fp : IO_FileDescriptor σ) (newSize : Nat)
    (h : DirtyBuffered fp) : DirtyBuffered (io_truncate_body env fp newSize).2 := by
  unfold io_truncate_body
  by_cases h1 : fp.isOpen = 0
  · rw [if_pos h1]; exact h
  rw [if_neg h1]
  simp only []
  by_cases h2 : (io_size_body fp).1 = FR_OK
  swap
  · simp only [ne_eq, h2, not_false_eq_true, if_true]
    exact h
  simp only [ne_eq, h2, not_true_eq_false, if_false]
  by_cases h3 : newSize = (io_size_body fp).2
  · rw [if_pos h3]; exact h
  rw [if_neg h3]
  by_cases h4 : newSize > (io_size_body fp).2
  · rw [if_pos h4]
    obtain ⟨e1, e2, e3, -⟩ := preallocate_buf env fp newSize
    refine ⟨?_, ?_⟩
    · rw [e1, e2]; exact h.dirty
    · rw [e1, e3]; exact h.sized
  rw [if_neg h4]
  by_cases h5 : newSize < (io_size_body fp).2 ∧ newSize ≥ umul fp.bufferBegin fp.ssize
  · rw [if_pos h5]
    exact io_truncate_disk_db env _ newSize ⟨h.dirty, h.sized⟩
  rw [if_neg h5]
  by_cases h6 : newSize < (io_size_body fp).2 ∧ newSize < umul fp.bufferBegin fp.ssize
  · rw [if_pos h6]
    have hf := (free_buffer_db env
      { fp with actualFileSize := newSize, actualSize := 0, unsavedData := 0 } 1
      ⟨fun hu => absurd rfl hu, h.sized⟩).1
    generalize free_buffer env
      { fp with actualFileSize := newSize, actualSize := 0, unsavedData := 0 } 1 = F at hf ⊢
    split_ifs
    all_goals first
      | exact hf
      | exact io_truncate_disk_db env F.2 newSize hf
  · rw [if_neg h6]
    exact io_truncate_disk_db env fp newSize h

/-- The descriptor `io_open` returns has no buffer and nothing unsaved. -/
theorem io_open_fresh (w : σ) (path : String) (mode : Nat) (fp : IO_FileDescriptor σ)
    (ho : (io_open env w path mode).1 = some fp) :
    fp.buffer = none ∧ fp.unsavedData = 0 := by
  unfold io_open allocFileDescriptor at ho
  cases hA : env.allocDescriptor
  · simp [hA] at ho
  cases hF : env.allocFIL
  · simp [hA, hF] at ho
  simp only [hA, hF, Bool.true_eq_false, if_false] at ho
  generalize (if mode &&& FA_WRITE ≠ 0 then (mode ||| FA_READ) % BYTE_MOD else mode) = M
    at ho
  by_cases hc : (env.drv.f_open w path M).1 = FR_OK
  · simp only [hc, ne_eq, not_true_eq_false, if_false, Option.some.injEq] at ho
    rw [← ho]
    exact ⟨rfl, rfl⟩
  · simp only [hc, ne_eq, not_false_eq_true, if_true] at ho
    simp at ho

/-- The descriptor `io_create_contiguous` returns has no buffer and nothing unsaved. -/
theorem io_create_contiguous_fresh (w : σ) (path : String) (mode size : Nat)
    (fp : IO_FileDescriptor σ)
    (ho : (io_create_contiguous env w path mode size).1 = some fp) :
    fp.buffer = none ∧ fp.unsavedData = 0 := by
  unfold io_create_contiguous at ho
  by_cases hconf : env.conf.USE_EXPAND ≠ 1 ∨ env.conf.FS_READONLY ≠ 0
  · rw [if_pos hconf] at ho
    simp at ho
  rw [if_neg hconf] at ho
  have hopen := io_open_fresh env w path
    ((mode ||| (FA_WRITE ||| FA_CREATE_ALWAYS)) % BYTE_MOD)
  generalize io_open env w path ((mode ||| (FA_WRITE ||| FA_CREATE_ALWAYS)) % BYTE_MOD)
    = O at hopen ho
  rcases O with ⟨_ | d, w1⟩
  · simp at ho
  · have hd := hopen d rfl
    simp only [] at ho
    by_cases he : (env.drv.f_expand d.file size 1).1 = FR_OK
    · simp only [he, ne_eq, not_true_eq_false, if_false, Option.some.injEq] at ho
      rw [← ho]
      exact hd
    · simp only [he, ne_eq, not_false_eq_true, if_true] at ho
      simp at ho

end AnyDriver

/-- Every state reached over any driver keeps invariant 5. -/
theorem dirty_buffered_of_reached {σ : Type} (fp : IO_FileDescriptor σ) (h : Reached fp) :
    DirtyBuffered fp := by
  induction h with
  | opened env w path mode fp ho =>
    obtain ⟨hb, hu⟩ := io_open_fresh env w path mode fp ho
    exact ⟨fun h => absurd hu h, fun h => by rw [hb] at h; exact absurd h (by simp)⟩
  | created env w path mode size fp ho =>
    obtain ⟨hb, hu⟩ := io_create_contiguous_fresh env w path mode size fp ho
    exact ⟨fun h => absurd hu h, fun h => by rw [hb] at h; exact absurd h (by simp)⟩
  | read env fp position btr _ ih => exact (io_read_body_db env fp position btr ih).1
  | write env fp buff position btw _ ih => exact io_write_body_db env fp buff position btw ih
  | sync env fp _ ih => exact io_sync_body_db env fp ih
  | lseek env fp rwPointer _ ih => exact io_lseek_body_db env fp rwPointer ih
  | truncate env fp newSize _ ih => exact io_truncate_body_db env fp newSize ih

/-! ### The cache mutator, the flusher and the allocator on their own -/

/-- The zero-filling loop makes `offset - actualSize` turns whenever it has that much fuel,
and then its test is false. -/
theorem zero_fill_steps_spec (fuel offset : Nat) : ∀ (buf : Mem) (a : Nat), offset - a ≤ fuel →
    zero_fill_steps fuel offset a = offset - a ∧ ¬ (offset > (zero_fill fuel offset buf a).2) := by
  induction fuel with
  | zero =>
    intro buf a h
    simp only [zero_fill_steps, zero_fill]
    omega
  | succ n ih =>
    intro buf a h
    simp only [zero_fill_steps, zero_fill]
    by_cases hlt : offset > a
    · rw [if_pos hlt, if_pos hlt]
      obtain ⟨h1, h2⟩ := ih (poke buf a 0) (a + 1) (by omega)
      exact ⟨by omega, h2⟩
    · rw [if_neg hlt, if_neg hlt]
      exact ⟨by omega, hlt⟩

section Frames
variable {σ : Type} (env : Env σ)

/-- The function `seek` changes the storage handle only. -/
theorem seek_frame (fp : IO_FileDescriptor σ) (ofs : Nat) :
    seek env fp ofs = ((seek env fp ofs).1, { fp with file := (seek env fp ofs).2.file }) := by
  unfold seek
  split_ifs <;> rfl

/-- The function `preallocate` changes the storage handle and the logical size only. -/
theorem preallocate_frame (fp : IO_FileDescriptor σ) (size : Nat) :
    (preallocate env fp size).2 =
      { fp with
        file := (preallocate env fp size).2.file,
        actualFileSize := (preallocate env fp size).2.actualFileSize } := by
  unfold preallocate
  simp only []
  have hk := seek_frame env fp size
  generalize seek env fp size = K at hk ⊢
  split_ifs
  · rfl
  · rfl
  · rw [hk]
  · rw [hk]

/-- The function `write_cache` changes the storage handle and the logical size, and clears
the dirty flag when it succeeds; when it fails the dirty flag is as before. -/
theorem write_cache_frame (fp : IO_FileDescriptor σ) :
    (write_cache env fp).2 =
      { fp with
        file := (write_cache env fp).2.file,
        actualFileSize := (write_cache env fp).2.actualFileSize,
        unsavedData := (write_cache env fp).2.unsavedData } ∧
    ((write_cache env fp).1 ≠ FR_OK → (write_cache env fp).2.unsavedData = fp.unsavedData) := by
  unfold write_cache
  simp only []
  have hp := preallocate_frame env fp (io_size_body fp).2
  generalize preallocate env fp (io_size_body fp).2 = P at hp ⊢
  have hk := seek_frame env P.2 (umul P.2.bufferBegin P.2.ssize)
  generalize seek env P.2 (umul P.2.bufferBegin P.2.ssize) = K at hk ⊢
  have hK : K.2 = { fp with file := K.2.file, actualFileSize := K.2.actualFileSize } := by
    rw [hk, hp]
  have hu : K.2.unsavedData = fp.unsavedData := by rw [hK]
  split_ifs
  all_goals first
    | exact ⟨rfl, fun _ => rfl⟩
    | exact ⟨hK, fun _ => hu⟩
    | exact ⟨by rw [hK], fun _ => hu⟩
    | exact ⟨by rw [hK], fun h => absurd rfl h⟩

end Frames

/-- A window that `buffer_exists` classifies as FullMatch does not start before the
buffer. -/
theorem buffer_exists_full_begin {σ : Type} (fp : IO_FileDescriptor σ) (begin size : Nat)
    (h : buffer_exists fp begin size = 2) : fp.bufferBegin ≤ begin := by
  unfold buffer_exists at h
  split_ifs at h
  all_goals omega

/-- The packed date word as a sum, for a valid month and day. -/
theorem fdate_sum (q month day : Nat) (hm : month ≤ 12) (hd : day ≤ 31) :
    (q * 512 ||| month * 32 ||| day) = q * 512 + month * 32 + day := by
  have h1 : q * 512 ||| month * 32 = q * 512 + month * 32 := by
    have := Nat.mul_add_lt_is_or (show month * 32 < 2 ^ 9 by omega) q
    rw [Nat.mul_comm q 512]
    exact this.symm
  rw [h1]
  have h2 := Nat.mul_add_lt_is_or (show day < 2 ^ 5 by omega) (q * 16 + month)
  have e : q * 512 + month * 32 = 2 ^ 5 * (q * 16 + month) := by omega
  rw [e]
  exact h2.symm

/-- The packed time word as a sum, for the minutes and seconds `io_set_timestamp` accepts. -/
theorem ftime_sum (hour min sec : Nat) (hmin : min ≤ 60) (hsec : sec ≤ 60) :
    (hour * 2048 ||| min * 32 ||| sec / 2) = hour * 2048 + min * 32 + sec / 2 := by
  have h1 : hour * 2048 ||| min * 32 = hour * 2048 + min * 32 := by
    have := Nat.mul_add_lt_is_or (show min * 32 < 2 ^ 11 by omega) hour
    rw [Nat.mul_comm hour 2048]
    exact this.symm
  rw [h1]
  have h2 := Nat.mul_add_lt_is_or (show sec / 2 < 2 ^ 5 by omega) (hour * 64 + min)
  have e : hour * 2048 + min * 32 = 2 ^ 5 * (hour * 64 + min) := by omega
  rw [e]
  exact h2.symm

/-! ### A write that reaches the ceiling succeeds when its window fits -/

/-- In every state of `Reachable`, `io_size` reports the logical size, and a read of at least
one byte at a position at or past that size returns `NULL` with `br = 0` and leaves the
whole descriptor as it was. -/
theorem read_past_end_rejected (ss : Nat) (m : Nat → Option Mem)
    (fp : IO_FileDescriptor PosixFile) (position btr : Nat) (h : Reachable ss fp)
    (hpos : (io_size (some fp)).2 ≤ position) (hbtr : 1 ≤ btr) :
    io_size (some fp) = (FR_OK, fp.actualFileSize) ∧
    io_read (testEnv ss m) (some fp) position btr = (none, 0, some fp) := by
  have hI := inv_of_reachable ss fp h
  have hsize : io_size (some fp) = (FR_OK, fp.actualFileSize) := by
    simp [io_size, io_size_body, hI.isOpen]
  rw [hsize] at hpos
  refine ⟨hsize, ?_⟩
  have hd := hI.disk_le
  have hv := hI.valid_le
  have hfs := inv_f_size ss m fp hI
  have hmul := umul_exact_of_inv hI
  have hb : btr ≠ 0 := by omega
  have hge : position ≥ (testEnv ss m).drv.f_size fp.file ∧
      position ≥ uadd fp.actualSize (umul fp.bufferBegin fp.ssize) := by
    rw [hfs, hmul]
    have := mod_le' (fp.actualSize + fp.bufferBegin * fp.ssize) UINT_MOD
    unfold uadd
    simp only [] at hpos
    omega
  simp only [io_read, io_read_body, hb, hI.isOpen, if_false, hge, and_self, if_true]
  split <;> rfl

/-- In every state of `Reachable`, when `io_write` reports `bw >= 1` bytes written it has
returned `FR_OK`, and `io_size` afterwards reports the larger of the size it reported before
and `position + bw`. -/
theorem size_after_write_reachable (ss : Nat) (m : Nat → Option Mem)
    (fp : IO_FileDescriptor PosixFile) (buff : List Nat) (position btw : Nat)
    (h : Reachable ss fp)
    (hbw : 1 ≤ (io_write (testEnv ss m) (some fp) buff position btw).2.1) :
    (io_write (testEnv ss m) (some fp) buff position btw).1 = FR_OK ∧
    io_size (io_write (testEnv ss m) (some fp) buff position btw).2.2
      = (FR_OK, max (io_size (some fp)).2
          (position + (io_write (testEnv ss m) (some fp) buff position btw).2.1)) := by
  obtain ⟨hI, hS⟩ := settled_of_reachable ss fp h
  have hI2 := (io_write_body_inv ss m fp buff position btw hI).1
  have hcase := (io_write_body_settled ss m fp buff position btw hI hS).2
  have hbw' : 1 ≤ (io_write_body (testEnv ss m) fp buff position btw).2.1 := hbw
  show (io_write_body (testEnv ss m) fp buff position btw).1 = FR_OK ∧
    io_size_body (io_write_body (testEnv ss m) fp buff position btw).2.2
    = (FR_OK, max (io_size_body fp).2
        (position + (io_write_body (testEnv ss m) fp buff position btw).2.1))
  unfold io_size_body
  rw [if_neg hI2.isOpen, if_neg hI.isOpen]
  rcases hcase with ⟨h0, -⟩ | ⟨hok, hL⟩
  · omega
  · exact ⟨hok, by rw [hL]⟩

/-! ## The claims -/

/-- C1, evaluated at the scenario of the claim: on a newly created empty file with a 16-byte
sector unit, `io_write(0, data, 10)` returns `FR_OK` with `bw = 10`, and the `io_read(0, 10)`
that follows returns a non-NULL view but reports `br = 0` instead of 10. -/
theorem round_trip_unflushed_reports_no_bytes :
    (io_write env16 emptyOpened data10 0 10).1 = FR_OK ∧
    (io_write env16 emptyOpened data10 0 10).2.1 = 10 ∧
    (io_read env16 (io_write env16 emptyOpened data10 0 10).2.2 0 10).1 = some 0 ∧
    (io_read env16 (io_write env16 emptyOpened data10 0 10).2.2 0 10).2.1 = 0 := by
  decide

/-- C2 fails as stated at the size ceiling: on an existing file of the largest FAT size
(4294967295 bytes) a 1-byte write at position 4294967294 lies inside the file and its window
is one sector, but `io_write` returns `FR_INVALID_PARAMETER`; a 2-byte write at position
4294967293 returns `FR_OK` with `bw = 1`, not 2. -/
theorem write_inside_largest_file_hits_ceiling :
    (4294967294 < 4294967295 ∧ 4294967294 + 1 ≤ 4294967295) ∧
    (io_write env16
      (io_open env16 (onDisk 4294967295 (fun _ => 0)) "testTmpFile" (FA_WRITE ||| FA_READ)).1
      [7] 4294967294 1).1 = FR_INVALID_PARAMETER ∧
    (io_write env16
      (io_open env16 (onDisk 4294967295 (fun _ => 0)) "testTmpFile" (FA_WRITE ||| FA_READ)).1
      [7, 8] 4294967293 2).1 = FR_OK ∧
    (io_write env16
      (io_open env16 (onDisk 4294967295 (fun _ => 0)) "testTmpFile" (FA_WRITE ||| FA_READ)).1
      [7, 8] 4294967293 2).2.1 = 1 := by
  decide

/-- C2 as amended: for every existing file of size `S` (test driver, allocator that succeeds,
sector unit `ss`), every position below `S` and every length `n` with `position + n <= S`,
`position + n <= MAX_FILE_SIZE`, a sector window within `MAX_BUFFER_SIZE` that ends below
`2^32`: after `io_open`, one `io_write(position, data, n)` returns `FR_OK` with `bw = n`, and
after `io_close` the file on storage still has size `S`, its bytes `[position, position + n)`
are `data`, and every other byte is unchanged. -/
theorem single_write_touches_only_its_range (ss : Nat) (m : Nat → Option Mem) (path : String) (mode : Nat)
    (S : Nat) (d0 : Mem) (position n : Nat) (data : List Nat)
    (hss : 0 < ss) (hssw : ss < WORD_MOD) (hp : path ≠ "") (hmode : mode < BYTE_MOD)
    (hw : mode &&& FA_WRITE ≠ 0) (hm : ∀ s, (m s).isSome = true)
    (hS : S < UINT_MOD) (hpos : position < S) (hend : position + n ≤ S)
    (hceil : position + n ≤ MAX_FILE_SIZE)
    (hwin : ((position + n - 1) / ss + 1) * ss < UINT_MOD)
    (hcap : ((position + n - 1) / ss - position / ss + 1) * ss ≤ MAX_BUFFER_SIZE) :
    ∃ fp f,
      (io_open (testEnv ss m) (onDisk S d0) path mode).1 = some fp ∧
      (io_write (testEnv ss m) (some fp) data position n).1 = FR_OK ∧
      (io_write (testEnv ss m) (some fp) data position n).2.1 = n ∧
      io_close (testEnv ss m) (io_write (testEnv ss m) (some fp) data position n).2.2
        = (FR_OK, some f) ∧
      f.size = S ∧
      ∀ i, i < S → f.data i =
        if position ≤ i ∧ i < position + n then data.getD (i - position) 0 else d0 i := by
  have hopen := io_open_testEnv ss m (onDisk S d0) path mode hp hmode hw hssw
  have hssu : ss < UINT_MOD := by simp only [WORD_MOD, UINT_MOD] at *; omega
  have hinv : Inv (openedOn ss (onDisk S d0)) := inv_openedOn ss _ hS hssu
  have hfss : (openedOn ss (onDisk S d0)).ssize = ss := rfl
  have hfL : (openedOn ss (onDisk S d0)).actualFileSize = S := by
    simp [openedOn, onDisk, Nat.mod_eq_of_lt hS]
  have hfbuf : (openedOn ss (onDisk S d0)).buffer = none := rfl
  have hfsize : (openedOn ss (onDisk S d0)).file.size = S := rfl
  have hfcontent := openedOn_content ss S d0
  refine ⟨openedOn ss (onDisk S d0), ?_⟩
  generalize openedOn ss (onDisk S d0) = fp at *
  have hnobuf : ¬ (fp.buffer.isSome = true ∧ fp.unsavedData ≠ 0) := by
    rw [hfbuf]; simp
  by_cases hn0 : n = 0
  · subst hn0
    have hw0 : io_write (testEnv ss m) (some fp) data position 0 = (FR_OK, 0, some fp) := by
      simp [io_write, io_write_body]
    obtain ⟨F, hclose, hFsize, hFcontent⟩ := io_close_testEnv ss m fp hinv
    rw [if_neg hnobuf, hfsize] at hFsize
    refine ⟨F, by rw [hopen], by rw [hw0], by rw [hw0], by rw [hw0]; exact hclose, hFsize, ?_⟩
    intro i hi
    have h1 := hFcontent i
    have hc0 : ¬ ((fp.buffer.isSome = true ∧ fp.unsavedData ≠ 0) ∧
        fp.bufferBegin * fp.ssize ≤ i ∧ i < fp.bufferBegin * fp.ssize + fp.actualSize) :=
      fun h => hnobuf h.1
    rw [if_neg hc0, hfcontent i, if_pos hi] at h1
    have hc : ¬ (position ≤ i ∧ i < position + 0) := by omega
    rw [if_neg hc, ← h1]
    unfold PosixFile.content
    rw [hFsize, if_pos hi]
  · have hn : 1 ≤ n := by omega
    have hP1 : position / ss * ss ≤ position := div_mul_le' position ss
    have hok : (buffer_specs fp n position).1 = FR_OK := by
      rw [buffer_specs_eq fp n position (by omega) (by omega) hn
        (by simp only [UINT_MOD, MAX_FILE_SIZE] at *; omega), hfss, hfL]
      have hc1 : ¬ (position / ss * ss > S) := by omega
      rw [if_neg hc1]
      have hc2 : ¬ (((position + n - 1) / ss - position / ss + 1) * ss > MAX_BUFFER_SIZE) := by
        omega
      rw [if_neg hc2]
    obtain ⟨b, e, q, hs, hb, he, -, -, hbP, hbL, hcover, hqcap, hsplit⟩ :=
      buffer_specs_window fp n position (by omega) (by omega) hn
        (by simp only [UINT_MOD, MAX_FILE_SIZE] at *; omega) hok
    rw [hfss] at hs hbP hcover hqcap hsplit he
    rw [hfss, hfL] at hbL
    have hwrap : b * ss + q * ss < UINT_MOD := by rw [hsplit, he]; exact hwin
    have hmiss : buffer_exists fp b (q * ss) = 0 := by
      simp [buffer_exists, hfbuf]
    obtain ⟨fpR, F0, junk, nr, hbody, hF0size, hF0content, hRinv, hRss, hRbb, -, hRas, hRbuf, -,
      hRL, hRsize, hRcontent, hnr⟩ :=
      io_write_body_evicted ss m fp data position n n b e q hinv (by omega) hm hn0
        (by simp only [MAX_FILE_SIZE] at *; omega)
        (by rw [if_neg (by simp only [MAX_FILE_SIZE] at *; omega)]) hn
        (by rw [hfss]; exact hs) (by rw [hfss]; exact hbP) (by rw [hfss, hfL]; exact hbL)
        (by rw [hfss]; exact hcover) (by rw [hfss]; exact hqcap) (by rw [hfss]; exact hwrap)
        (by rw [hfss]; exact hmiss)
    rw [hfss] at hRss hnr hRbuf
    rw [hfL] at hRL
    rw [if_neg hnobuf, hfsize] at hF0size
    have hF0c : ∀ i, F0.content i = if i < S then d0 i else 0 := by
      intro i
      have hc0 : ¬ ((fp.buffer.isSome = true ∧ fp.unsavedData ≠ 0) ∧
          fp.bufferBegin * fp.ssize ≤ i ∧ i < fp.bufferBegin * fp.ssize + fp.actualSize) :=
        fun h => hnobuf h.1
      rw [hF0content i, if_neg hc0, hfcontent i]
    obtain ⟨fp2, hmod, -⟩ := modif_cache_inv fpR data position n _ hRinv hRbuf
      (by rw [hRbb, hRss]; exact hbP) hceil
    obtain ⟨F, hclose, hFsize, hFcontent⟩ := close_after_modif ss m fpR data position n _
      hRinv hRbuf (by rw [hRbb, hRss]; exact hbP) hceil
    have hw1 : io_write (testEnv ss m) (some fp) data position n
        = (FR_OK, n, some (modif_cache fpR data position n).2.2) := by
      simp only [io_write, hbody, hmod]
    rw [hRL] at hFsize
    have hFS : F.size = S := by omega
    refine ⟨F, by rw [hopen], by rw [hw1], by rw [hw1], by rw [hw1]; exact hclose, hFS, ?_⟩
    intro i hi
    have h1 := hFcontent i
    rw [hRbb, hRss, hRas, hRcontent, hF0c i, if_pos hi] at h1
    have h2 : F.content i = F.data i := by
      unfold PosixFile.content
      rw [hFS, if_pos hi]
    rw [← h2, h1]
    by_cases hr : position ≤ i ∧ i < position + n
    · rw [if_pos hr, if_pos hr]
    · rw [if_neg hr, if_neg hr]
      rw [hF0size] at hnr
      have hz : ¬ (b * ss + nr ≤ i ∧ i < position) := by
        rcases hnr with ⟨h0, h1 | h1⟩ | ⟨h0, h1, h2⟩ <;> omega
      rw [if_neg hz]
      by_cases hv : b * ss ≤ i ∧ i < b * ss + nr
      · rw [if_pos hv]
        have hj : i - b * ss < nr := by omega
        simp only [hj, if_true]
        have hi2 : b * ss + (i - b * ss) = i := by omega
        rw [hi2, hF0c i, if_pos hi]
      · rw [if_neg hv]

/-- Witness of C2 as amended: 5 bytes written at offset 30 of a 64-byte file with 16-byte
sectors (the write spans the sector boundary at 32). -/
theorem single_write_touches_only_its_range_witness :
    ∃ fp f,
      (io_open env16 (onDisk 64 (fun i => i + 1)) "testTmpFile" (FA_WRITE ||| FA_READ)).1
        = some fp ∧
      (io_write env16 (some fp) [201, 202, 203, 204, 205] 30 5).1 = FR_OK ∧
      (io_write env16 (some fp) [201, 202, 203, 204, 205] 30 5).2.1 = 5 ∧
      io_close env16 (io_write env16 (some fp) [201, 202, 203, 204, 205] 30 5).2.2
        = (FR_OK, some f) ∧
      f.size = 64 ∧
      ∀ i, i < 64 → f.data i =
        if 30 ≤ i ∧ i < 30 + 5 then [201, 202, 203, 204, 205].getD (i - 30) 0 else i + 1 :=
  single_write_touches_only_its_range 16 (fun _ => some (fun _ => 170)) "testTmpFile"
    (FA_WRITE ||| FA_READ) 64 (fun i => i + 1) 30 5 [201, 202, 203, 204, 205]
    (by decide) (by decide) (by decide) (by decide) (by decide) (fun _ => rfl) (by decide)
    (by decide) (by decide) (by decide) (by decide) (by decide)

/-- C3: on a newly created empty file (test driver, allocator that succeeds, sector unit
`ss`), for every offset `k` and length `n >= 1` such that `k + n` rounded up to whole sector
units does not exceed `MAX_BUFFER_SIZE`, `io_write(k, data, n)` returns `FR_OK` with `bw = n`,
and after `io_close` the file on storage has size exactly `k + n`, its bytes `[0, k)` are all
zero and its bytes `[k, k + n)` are `data`. -/
theorem sparse_write_into_empty_file (ss : Nat) (m : Nat → Option Mem) (path : String) (mode : Nat)
    (k n : Nat) (data : List Nat)
    (hss : 0 < ss) (hssw : ss < WORD_MOD) (hp : path ≠ "") (hmode : mode < BYTE_MOD)
    (hw : mode &&& FA_WRITE ≠ 0) (hm : ∀ s, (m s).isSome = true)
    (hn : 1 ≤ n) (hlen : data.length = n)
    (hcap : ((k + n - 1) / ss + 1) * ss ≤ MAX_BUFFER_SIZE) :
    ∃ fp f,
      (io_open (testEnv ss m) (onDisk 0 (fun _ => 0)) path mode).1 = some fp ∧
      (io_write (testEnv ss m) (some fp) data k n).1 = FR_OK ∧
      (io_write (testEnv ss m) (some fp) data k n).2.1 = n ∧
      io_close (testEnv ss m) (io_write (testEnv ss m) (some fp) data k n).2.2
        = (FR_OK, some f) ∧
      f.size = k + n ∧
      view f.data 0 k = List.replicate k 0 ∧
      view f.data k n = data := by
  have hopen := io_open_testEnv ss m (onDisk 0 (fun _ => 0)) path mode hp hmode hw hssw
  refine ⟨openedOn ss (onDisk 0 (fun _ => 0)), ?_⟩
  generalize hfp : openedOn ss (onDisk 0 (fun _ => 0)) = fp at *
  have hssu : ss < UINT_MOD := by simp only [WORD_MOD, UINT_MOD] at *; omega
  have hinv : Inv fp := by
    rw [← hfp]; exact inv_openedOn ss _ (by simp [onDisk, UINT_MOD]) hssu
  have hfss : fp.ssize = ss := by rw [← hfp]; rfl
  have hfL : fp.actualFileSize = 0 := by rw [← hfp]; rfl
  have hfbuf : fp.buffer = none := by rw [← hfp]; rfl
  have hkn : k + n ≤ ((k + n - 1) / ss + 1) * ss := by
    have := lt_div_mul_add (k + n - 1) ss hss
    rw [Nat.add_mul, Nat.one_mul]
    omega
  simp only [MAX_BUFFER_SIZE] at hcap
  have hb0 : (if k / ss * ss > 0 then 0 / ss else k / ss) = 0 := by
    split
    · simp
    · rename_i h
      have h0 : k / ss * ss = 0 := by omega
      rcases Nat.mul_eq_zero.mp h0 with h1 | h1
      · exact h1
      · omega
  have hspec : buffer_specs fp n k = (FR_OK, 0, (k + n - 1) / ss, ((k + n - 1) / ss + 1) * ss) := by
    have h := buffer_specs_eq fp n k (by omega) (by omega) hn (by simp only [UINT_MOD]; omega)
    rw [hfss, hfL] at h
    rw [h, hb0]
    simp only [Nat.sub_zero, MAX_BUFFER_SIZE]
    rw [if_neg (by omega)]
  have hfile : fp.file = { size := 0, data := fun _ => 0, pos := 0, rd := true, wr := true } := by
    rw [← hfp]; simp [openedOn, onDisk]
  have hfree : free_buffer (testEnv ss m) fp 0 = (FR_OK, fp) := by
    rw [← hfp]; simp [free_buffer, openedOn]
  obtain ⟨junk, hjunk⟩ := Option.isSome_iff_exists.mp (hm (((k + n - 1) / ss + 1) * ss))
  have halloc := alloc_buffer_eq (testEnv ss m) fp 0 (((k + n - 1) / ss + 1) * ss) (by omega)
  have hmal : (testEnv ss m).malloc (((k + n - 1) / ss + 1) * ss) = some junk := hjunk
  rw [hmal] at halloc
  generalize ha : ({ fp with
    bufferSize := ((k + n - 1) / ss + 1) * ss, actualSize := 0, bufferBegin := 0,
    buffer := some junk } : IO_FileDescriptor PosixFile) = a at halloc
  have hmatch : buffer_exists fp 0 (((k + n - 1) / ss + 1) * ss) = 0 := by
    simp [buffer_exists, hfbuf]
  have hbody := io_write_body_nomatch (testEnv ss m) fp fp a data k n n 0 _ _ (by omega)
    hinv.isOpen (by omega) (by simp only [MAX_FILE_SIZE]; omega)
    (by rw [if_neg (by simp only [MAX_FILE_SIZE]; omega)]) (by omega) hspec hmatch hfree halloc
    (by rw [← ha]; rfl)
  have hnoread : ¬ (k ≠ umul 0 a.ssize ∧ umul 0 a.ssize < (testEnv ss m).drv.f_size a.file) := by
    rw [← ha]
    simp [umul, testEnv, posix, posix_f_size, hfile]
  rw [if_neg hnoread] at hbody
  have hmod := modif_cache_eq a data k n junk (by rw [← ha]) (by rw [← ha]; simp)
    (by simp only [UINT_MOD]; omega) (by rw [← ha]; simp [UINT_MOD])
  have habb : a.bufferBegin = 0 := by rw [← ha]
  have haas : a.actualSize = 0 := by rw [← ha]
  have haL : a.actualFileSize = 0 := by rw [← ha]; exact hfL
  simp only [habb, haas, haL, Nat.zero_mul, Nat.sub_zero, Nat.zero_add, Nat.zero_le, true_and,
    Nat.zero_max] at hmod
  rw [hmod] at hbody
  have hw1 : io_write (testEnv ss m) (some fp) data k n
      = (FR_OK, n, some (io_write_body (testEnv ss m) fp data k n).2.2) := by
    simp [io_write, hbody]
  have h2file : (io_write_body (testEnv ss m) fp data k n).2.2.file = fp.file := by
    rw [hbody, ← ha]
  have h2bb : (io_write_body (testEnv ss m) fp data k n).2.2.bufferBegin = 0 := by rw [hbody]
  have h2as : (io_write_body (testEnv ss m) fp data k n).2.2.actualSize = k + n := by rw [hbody]
  have h2L : (io_write_body (testEnv ss m) fp data k n).2.2.actualFileSize = k + n := by
    rw [hbody]
  have h2d : (io_write_body (testEnv ss m) fp data k n).2.2.unsavedData = 1 := by rw [hbody]
  have h2buf : (io_write_body (testEnv ss m) fp data k n).2.2.buffer
      = some (memcpy (fun j => if j < k then 0 else junk j) k data n) := by
    rw [hbody]
  have h2open : (io_write_body (testEnv ss m) fp data k n).2.2.isOpen = fp.isOpen := by
    rw [hbody, ← ha]
  have h2ss : (io_write_body (testEnv ss m) fp data k n).2.2.ssize = fp.ssize := by
    rw [hbody, ← ha]
  clear hbody hmod
  generalize (io_write_body (testEnv ss m) fp data k n).2.2 = fp2 at *
  have hinv2 : Inv fp2 := by
    constructor
    · rw [h2open]; exact hinv.isOpen
    · rw [h2file]; exact hinv.wr
    · rw [h2file]; exact hinv.rd
    · rw [h2file, hfile, h2L]; simp
    · rw [h2bb, h2as, h2L]; simp
    · rw [h2L]; simp only [FSIZE_MOD]; omega
    · rw [h2ss]; exact hinv.ssize_lt
  obtain ⟨F, hF, -, -, hFsize, hFcontent⟩ := free_buffer_testEnv ss m fp2 1 hinv2
  have hdirty : fp2.buffer.isSome = true ∧ fp2.unsavedData ≠ 0 := by
    rw [h2buf, h2d]; simp
  rw [if_pos hdirty, h2L] at hFsize
  have hclose : io_close (testEnv ss m) (some fp2) = (FR_OK, some F) := by
    simp only [io_close, io_close_body, hF]
    simp [testEnv, posix]
  have hdata : ∀ i, i < k + n → F.data i = if i < k then 0 else data.getD (i - k) 0 := by
    intro i hi
    have h1 := hFcontent i
    rw [h2bb, h2as, h2buf, h2d] at h1
    have hc : ((some (memcpy (fun j => if j < k then 0 else junk j) k data n)).isSome = true
        ∧ 1 ≠ 0) ∧ 0 * fp2.ssize ≤ i ∧ i < 0 * fp2.ssize + (k + n) :=
      ⟨⟨rfl, one_ne_zero⟩, by omega, by omega⟩
    rw [if_pos hc] at h1
    simp only [Option.getD_some, Nat.zero_mul, Nat.sub_zero] at h1
    unfold PosixFile.content at h1
    rw [hFsize, if_pos hi] at h1
    rw [h1]
    unfold memcpy
    by_cases hik : i < k
    · have hc2 : ¬ (k ≤ i ∧ i < k + n) := by omega
      rw [if_neg hc2]
      simp only [hik, if_true]
    · have hc2 : k ≤ i ∧ i < k + n := by omega
      rw [if_pos hc2, if_neg hik]
  refine ⟨F, by rw [hopen], by rw [hw1], by rw [hw1], by rw [hw1]; exact hclose, hFsize, ?_, ?_⟩
  · apply List.ext_getElem
    · simp [view_length]
    · intro i h1 h2
      rw [view_length] at h1
      simp only [view, List.getElem_map, List.getElem_range, List.getElem_replicate, Nat.zero_add]
      rw [hdata i (by omega), if_pos h1]
  · apply List.ext_getElem
    · rw [view_length, hlen]
    · intro i h1 h2
      rw [view_length] at h1
      simp only [view, List.getElem_map, List.getElem_range]
      have hc3 : ¬ (k + i < k) := by omega
      rw [hdata (k + i) (by omega), if_neg hc3]
      have : k + i - k = i := by omega
      rw [this, List.getD_eq_getElem _ _ h2]

/-- Witness of C3: 4 bytes written at offset 20 of an empty file with 16-byte sectors. -/
theorem sparse_write_into_empty_file_witness :
    ∃ fp f,
      (io_open env16 (onDisk 0 (fun _ => 0)) "testTmpFile" FA_WRITE).1 = some fp ∧
      (io_write env16 (some fp) [7, 8, 9, 10] 20 4).1 = FR_OK ∧
      (io_write env16 (some fp) [7, 8, 9, 10] 20 4).2.1 = 4 ∧
      io_close env16 (io_write env16 (some fp) [7, 8, 9, 10] 20 4).2.2 = (FR_OK, some f) ∧
      f.size = 20 + 4 ∧
      view f.data 0 20 = List.replicate 20 0 ∧
      view f.data 20 4 = [7, 8, 9, 10] :=
  sparse_write_into_empty_file 16 (fun _ => some (fun _ => 170)) "testTmpFile" FA_WRITE 20 4
    [7, 8, 9, 10] (by decide) (by decide) (by decide) (by decide) (by decide)
    (fun _ => rfl) (by decide) rfl (by decide)

/-- C5, evaluated at a failing input: on a freshly opened file of 10 bytes (16-byte sector
unit), `io_read(5, 4294967295)` returns NULL with `br = 0`, although
`min(btr, S - position) = 5` and the window of those 5 bytes is a single sector; the 32-bit
sum `position + btr` wraps to 4. With `btr = 100` the same read returns 5 bytes. -/
theorem read_count_wraps_past_end_of_file :
    (io_read env16 tenOpened 5 4294967295).1 = none ∧
    (io_read env16 tenOpened 5 4294967295).2.1 = 0 ∧
    uadd 5 4294967295 = 4 ∧
    (io_read env16 tenOpened 5 100).1 = some 5 ∧
    (io_read env16 tenOpened 5 100).2.1 = 5 := by
  decide

/-- C6, evaluated at a failing input, with what does hold. A new file is opened on a volume
with room for 30 bytes, 40 bytes are written at offset 0 (they stay in the buffer) and
`io_lseek(100)` is called: every call returns `FR_OK`, the seek stops at 30, and `io_size`
reports 30 while the buffer holds 40 valid bytes. A 1-byte `io_read` at position 30, the
logical size, returns the view at offset 30 with `br = 1` and moves the cursor from 30 to
31; so does a read at 35. In every state reached over the driver of the tests with write
access, where no seek stops short, a read at or past the logical size returns `NULL` with
`br = 0` and leaves the descriptor as it was. -/
theorem read_at_logical_end_after_clipped_seek :
    (newOnFullDisk.isSome = true ∧
      (io_write envFullDisk newOnFullDisk (List.replicate 40 7) 0 40).1 = FR_OK ∧
      (io_write envFullDisk newOnFullDisk (List.replicate 40 7) 0 40).2.1 = 40 ∧
      (io_lseek envFullDisk fortyBuffered 100).1 = FR_OK ∧
      io_size clippedSeek = (FR_OK, 30) ∧ io_tell clippedSeek = (FR_OK, 30)) ∧
    ((io_read envFullDisk clippedSeek 30 1).1 = some 30 ∧
      (io_read envFullDisk clippedSeek 30 1).2.1 = 1 ∧
      io_tell (io_read envFullDisk clippedSeek 30 1).2.2 = (FR_OK, 31) ∧
      (io_read envFullDisk clippedSeek 35 1).1 = some 35 ∧
      (io_read envFullDisk clippedSeek 35 1).2.1 = 1) ∧
    (∀ (ss : Nat) (m : Nat → Option Mem) (fp : IO_FileDescriptor PosixFile)
      (position btr : Nat), Reachable ss fp → (io_size (some fp)).2 ≤ position → 1 ≤ btr →
      io_size (some fp) = (FR_OK, fp.actualFileSize) ∧
      io_read (testEnv ss m) (some fp) position btr = (none, 0, some fp)) :=
  ⟨by decide, by decide,
    fun ss m fp position btr h hpos hbtr => read_past_end_rejected ss m fp position btr h hpos hbtr⟩

/-- C7, evaluated at three failing inputs. With the driver of the tests, reading back three
bytes just written to an empty file returns a non-NULL view with `br = 0`. With a driver whose
`f_read` fails after delivering bytes, reading a 10-byte file returns NULL with `br = 4`. With
a driver whose `f_read` fails without delivering a byte, reading 3 bytes at offset 5 of the
same file returns NULL with `br = 3`: the 32-bit difference `bytesread - offset` wraps and is
cut down to the requested count. -/
theorem io_read_ambiguous_results :
    ((io_read env16 (io_write env16 emptyOpened [1, 2, 3] 0 3).2.2 0 3).1 = some 0 ∧
      (io_read env16 (io_write env16 emptyOpened [1, 2, 3] 0 3).2.2 0 3).2.1 = 0) ∧
    ((io_read envBrokenRead tenOpened 0 4).1 = none ∧
      (io_read envBrokenRead tenOpened 0 4).2.1 = 4) ∧
    ((io_read envFailingRead tenOpened 5 3).1 = none ∧
      (io_read envFailingRead tenOpened 5 3).2.1 = 3) := by
  decide

/-- C8: for every open descriptor (opened flag set, sector unit resolved), every position at
or past `MAX_FILE_SIZE` and every count of at least one byte, `io_write` returns
`FR_INVALID_PARAMETER`, reports `bw = 0`, and the descriptor with its storage is unchanged. -/
theorem io_write_past_ceiling_rejected {σ : Type} (env : Env σ) (fp : IO_FileDescriptor σ)
    (buff : List Nat) (position btw : Nat) (hopen : fp.isOpen ≠ 0) (hss : fp.ssize ≠ 0)
    (hpos : MAX_FILE_SIZE ≤ position) (hbtw : 1 ≤ btw) :
    io_write env (some fp) buff position btw = (FR_INVALID_PARAMETER, 0, some fp) := by
  simp [io_write, io_write_body_ceiling env fp buff position btw hopen hss hpos hbtw]

/-- Witness of C8: a 4-byte write at offset 4294967295 on the open descriptor of an empty
file. -/
theorem io_write_past_ceiling_rejected_witness :
    (fresh16.isOpen ≠ 0 ∧ fresh16.ssize ≠ 0 ∧ MAX_FILE_SIZE ≤ 4294967295 ∧ 1 ≤ 4) ∧
    io_write env16 (some fresh16) [1, 2, 3, 4] 4294967295 4
      = (FR_INVALID_PARAMETER, 0, some fresh16) :=
  ⟨by decide,
    io_write_past_ceiling_rejected env16 fresh16 [1, 2, 3, 4] 4294967295 4
      (by decide) (by decide) (by decide) (by decide)⟩

/-- C9 fails as stated: a 1-byte write at position `MAX_FILE_SIZE` on a newly created empty
file does not return `FR_OK`; it returns `FR_INVALID_PARAMETER`. -/
theorem write_at_ceiling_is_not_ok :
    (io_write env16 emptyOpened [1] MAX_FILE_SIZE 1).1 ≠ FR_OK ∧
    (io_write env16 emptyOpened [1] MAX_FILE_SIZE 1).1 = FR_INVALID_PARAMETER := by
  decide

/-- C9 as amended: for every open descriptor and every count of at least one byte, a write
whose position is exactly `MAX_FILE_SIZE` returns `FR_INVALID_PARAMETER` with zero bytes
written, and changes nothing. -/
theorem io_write_at_ceiling_invalid_parameter {σ : Type} (env : Env σ)
    (fp : IO_FileDescriptor σ) (buff : List Nat) (btw : Nat) (hopen : fp.isOpen ≠ 0)
    (hss : fp.ssize ≠ 0) (hbtw : 1 ≤ btw) :
    io_write env (some fp) buff MAX_FILE_SIZE btw = (FR_INVALID_PARAMETER, 0, some fp) := by
  simp [io_write, io_write_body_ceiling env fp buff MAX_FILE_SIZE btw hopen hss (le_refl _) hbtw]

/-- Witness of C9 as amended: a 1-byte write at `MAX_FILE_SIZE` on the open descriptor of an
empty file. -/
theorem io_write_at_ceiling_invalid_parameter_witness :
    (fresh16.isOpen ≠ 0 ∧ fresh16.ssize ≠ 0 ∧ 1 ≤ 1) ∧
    io_write env16 (some fresh16) [1] MAX_FILE_SIZE 1 = (FR_INVALID_PARAMETER, 0, some fresh16) :=
  ⟨by decide,
    io_write_at_ceiling_invalid_parameter env16 fresh16 [1] 1 (by decide) (by decide)
      (by decide)⟩

/-- C11 fails as stated: a 1-byte write at position 4294967295 is rejected with `bw = 0`, and
`position + bw = 4294967295` is above `MAX_FILE_SIZE`. -/
theorem rejected_write_above_ceiling :
    (io_write env16 emptyOpened [1] 4294967295 1).1 = FR_INVALID_PARAMETER ∧
    (io_write env16 emptyOpened [1] 4294967295 1).2.1 = 0 ∧
    ¬ (4294967295 + (io_write env16 emptyOpened [1] 4294967295 1).2.1 ≤ MAX_FILE_SIZE) := by
  decide

/-- C11 as amended: for every descriptor pointer, driver, position and count, and every
outcome, the byte count `io_write` reports is at most the count requested, and it is either
zero or ends at or below the ceiling: `position + bw <= MAX_FILE_SIZE` in exact arithmetic. -/
theorem io_write_count_below_ceiling {σ : Type} (env : Env σ)
    (fp : Option (IO_FileDescriptor σ)) (buff : List Nat) (position btw : Nat) :
    (io_write env fp buff position btw).2.1 ≤ btw ∧
    ((io_write env fp buff position btw).2.1 = 0 ∨
      position + (io_write env fp buff position btw).2.1 ≤ MAX_FILE_SIZE) := by
  cases fp with
  | none =>
    unfold io_write
    simp only []
    split <;> exact ⟨Nat.zero_le _, Or.inl rfl⟩
  | some d =>
    show (io_write_body env d buff position btw).2.1 ≤ btw ∧
      ((io_write_body env d buff position btw).2.1 = 0 ∨
        position + (io_write_body env d buff position btw).2.1 ≤ MAX_FILE_SIZE)
    rcases io_write_body_count env d buff position btw with h | ⟨hlt, h⟩
    · rw [h]; exact ⟨Nat.zero_le _, Or.inl rfl⟩
    · rw [h]
      have := mod_le' (MAX_FILE_SIZE - position) UINT_MOD
      split
      · exact ⟨by omega, Or.inr (by omega)⟩
      · exact ⟨le_refl _, Or.inr (by omega)⟩

/-- C12 fails as stated: a write of 20000 bytes (more than `MAX_BUFFER_SIZE`) at position
4294967280, below the ceiling, of a file of that size is not refused: the count is first cut
to the 14 bytes below the ceiling, which fit one sector, and `io_write` returns `FR_OK` with
`bw = 14`. -/
theorem long_write_cut_at_ceiling_succeeds :
    (MAX_BUFFER_SIZE < 20000 ∧ 4294967280 < MAX_FILE_SIZE) ∧
    (io_write env16 (some alignedNearCeiling) (List.replicate 20000 1) 4294967280 20000).1
      = FR_OK ∧
    (io_write env16 (some alignedNearCeiling) (List.replicate 20000 1) 4294967280 20000).2.1
      = 14 := by
  decide

/-- C12 as amended: for every open descriptor (any driver), every position and count of at
least one byte with `position + count <= MAX_FILE_SIZE` whose sector window (from the sector
of the position, or of the logical end when the position lies beyond it, to the sector of the
last byte) exceeds `MAX_BUFFER_SIZE`, and in particular for every such count above
`MAX_BUFFER_SIZE`: `io_write` returns `FR_NOT_ENOUGH_CORE` with `bw = 0`, and when the range
lies inside the file on storage `io_read` returns `NULL` with `br = 0`; both leave the whole
descriptor and the storage as they were. -/
theorem oversized_window_rejected {σ : Type} (env : Env σ) (fp : IO_FileDescriptor σ)
    (buff : List Nat) (position count : Nat)
    (hopen : fp.isOpen ≠ 0) (hss : 0 < fp.ssize) (hssu : fp.ssize < UINT_MOD)
    (hcount : 1 ≤ count) (hend : position + count ≤ MAX_FILE_SIZE)
    (hbig : MAX_BUFFER_SIZE < ((position + count - 1) / fp.ssize
        - (if position / fp.ssize * fp.ssize > fp.actualFileSize
            then fp.actualFileSize / fp.ssize else position / fp.ssize) + 1) * fp.ssize
      ∨ MAX_BUFFER_SIZE < count) :
    io_write env (some fp) buff position count = (FR_NOT_ENOUGH_CORE, 0, some fp) ∧
    (position + count ≤ env.drv.f_size fp.file →
      io_read env (some fp) position count = (none, 0, some fp)) := by
  have hwin : MAX_BUFFER_SIZE < ((position + count - 1) / fp.ssize
        - (if position / fp.ssize * fp.ssize > fp.actualFileSize
            then fp.actualFileSize / fp.ssize else position / fp.ssize) + 1) * fp.ssize := by
    rcases hbig with h | h
    · exact h
    · exact lt_of_lt_of_le h (window_ge_count position count fp.ssize fp.actualFileSize hss hcount)
  have hsum : position + count ≤ UINT_MOD := by
    simp only [MAX_FILE_SIZE] at hend
    simp only [UINT_MOD]
    omega
  have hspec : buffer_specs fp count position = (FR_NOT_ENOUGH_CORE, 0, 0, 0) := by
    rw [buffer_specs_eq fp count position hss hssu hcount hsum, if_pos hwin]
  have hc0 : count ≠ 0 := by omega
  have hss0 : fp.ssize ≠ 0 := by omega
  constructor
  · have hpos : ¬ position ≥ MAX_FILE_SIZE := by omega
    have hclamp : ¬ position + count > MAX_FILE_SIZE := by omega
    simp [io_write, io_write_body, hc0, hopen, hss0, hpos, hclamp, hspec]
  · intro hin
    have hno : ¬ (position ≥ env.drv.f_size fp.file ∧
        position ≥ uadd fp.actualSize (umul fp.bufferBegin fp.ssize)) := by omega
    have hc : ¬ (uadd position count > env.drv.f_size fp.file ∧
        uadd position count > uadd fp.actualSize (umul fp.bufferBegin fp.ssize)) := by
      rw [uadd_eq (by simp only [MAX_FILE_SIZE] at hend; simp only [UINT_MOD]; omega)]
      omega
    simp only [io_read, io_read_body, hc0, hopen, hss0, hno, hc, if_false, hspec, ne_eq,
      if_true]
    simp

/-- Witness of C12 as amended: a request of 20000 bytes at offset 0 of a 20000-byte file with
16-byte sectors. -/
theorem oversized_window_rejected_witness :
    (bigFile.isOpen ≠ 0 ∧ 0 + 20000 ≤ MAX_FILE_SIZE ∧ MAX_BUFFER_SIZE < 20000 ∧
      0 + 20000 ≤ env16.drv.f_size bigFile.file) ∧
    io_write env16 (some bigFile) (List.replicate 20000 1) 0 20000
      = (FR_NOT_ENOUGH_CORE, 0, some bigFile) ∧
    io_read env16 (some bigFile) 0 20000 = (none, 0, some bigFile) :=
  have h := oversized_window_rejected env16 bigFile (List.replicate 20000 1) 0 20000
    (by decide) (by decide) (by decide) (by decide) (by decide) (Or.inr (by decide))
  ⟨by decide, h.1, h.2 (by decide)⟩

/-- C13, evaluated at a failing input, with what does hold. A new file is opened on a volume
with room for 30 bytes, 40 bytes are written at offset 0 and `io_lseek(100)` is called:
every call returns `FR_OK` and `io_size` reports 30. A 1-byte `io_write` at position 0 then
returns `FR_OK` with `bw = 1`, and `io_size` reports 40, not `max(30, 0 + 1) = 30`. In every
state reached over the driver of the tests with write access, where no seek stops short,
`io_size` after a write that reports `bw >= 1` is the larger of the size before and
`position + bw`. -/
theorem io_size_jumps_after_clipped_seek :
    (newOnFullDisk.isSome = true ∧
      (io_write envFullDisk newOnFullDisk (List.replicate 40 7) 0 40).1 = FR_OK ∧
      io_size fortyBuffered = (FR_OK, 40) ∧
      (io_lseek envFullDisk fortyBuffered 100).1 = FR_OK ∧
      io_size clippedSeek = (FR_OK, 30)) ∧
    ((io_write envFullDisk clippedSeek [1] 0 1).1 = FR_OK ∧
      (io_write envFullDisk clippedSeek [1] 0 1).2.1 = 1 ∧
      io_size (io_write envFullDisk clippedSeek [1] 0 1).2.2 = (FR_OK, 40) ∧
      max (io_size clippedSeek).2 (0 + 1) = 30) ∧
    (∀ (ss : Nat) (m : Nat → Option Mem) (fp : IO_FileDescriptor PosixFile)
      (buff : List Nat) (position btw : Nat), Reachable ss fp →
      1 ≤ (io_write (testEnv ss m) (some fp) buff position btw).2.1 →
      (io_write (testEnv ss m) (some fp) buff position btw).1 = FR_OK ∧
      io_size (io_write (testEnv ss m) (some fp) buff position btw).2.2
        = (FR_OK, max (io_size (some fp)).2
            (position + (io_write (testEnv ss m) (some fp) buff position btw).2.1))) :=
  ⟨by decide, by decide,
    fun ss m fp buff position btw h hbw =>
      size_after_write_reachable ss m fp buff position btw h hbw⟩

/-- C14: for every open descriptor (any driver) whose window starts at or before the logical
end, and every `newSize` before the start of the window, a successful `io_truncate(newSize)`
leaves the descriptor without a buffer (capacity, valid length and window start 0, dirty flag
cleared) and with logical size `newSize`; the only driver calls are the seek to `newSize` and
the truncation there, made when the file on storage was longer, so no buffered byte is
written. -/
theorem io_truncate_discards_window {σ : Type} (env : Env σ) (fp : IO_FileDescriptor σ)
    (newSize : Nat) (hopen : fp.isOpen ≠ 0)
    (hwf : fp.bufferBegin * fp.ssize ≤ fp.actualFileSize)
    (hL : fp.actualFileSize < FSIZE_MOD)
    (hnew : newSize < fp.bufferBegin * fp.ssize)
    (hok : (io_truncate env (some fp) newSize).1 = FR_OK) :
    (io_truncate env (some fp) newSize).2 =
      some { fp with
        buffer := none, bufferBegin := 0, bufferSize := 0, actualSize := 0, unsavedData := 0
        actualFileSize := newSize
        file := if newSize < env.drv.f_size fp.file
          then (env.drv.f_truncate (env.drv.f_lseek fp.file newSize).2).2 else fp.file } := by
  have hmul : umul fp.bufferBegin fp.ssize = fp.bufferBegin * fp.ssize :=
    umul_eq (by simp only [FSIZE_MOD] at hL; simp only [UINT_MOD]; omega)
  have h1 : ¬ newSize = fp.actualFileSize := by omega
  have h2 : ¬ newSize > fp.actualFileSize := by omega
  have h3 : ¬ (newSize < fp.actualFileSize ∧ newSize ≥ fp.bufferBegin * fp.ssize) := by omega
  have h4 : newSize < fp.actualFileSize ∧ newSize < fp.bufferBegin * fp.ssize := by omega
  have hfree : free_buffer env
      { fp with actualFileSize := newSize, actualSize := 0, unsavedData := 0 } 1
      = (FR_OK,
        { fp with
          actualFileSize := newSize, actualSize := 0, unsavedData := 0
          buffer := none, bufferBegin := 0, bufferSize := 0 }) := by
    unfold free_buffer write_cache
    simp [hopen]
  have hbody : io_truncate_body env fp newSize
      = io_truncate_disk env
        { fp with
          actualFileSize := newSize, actualSize := 0, unsavedData := 0
          buffer := none, bufferBegin := 0, bufferSize := 0 } newSize := by
    unfold io_truncate_body io_size_body
    simp only [hopen, if_false, ne_eq, not_true_eq_false, hmul]
    rw [if_neg h1, if_neg h2, if_neg h3, if_pos h4, hfree]
    simp only [not_true_eq_false, if_false]
  have hok' : (io_truncate_body env fp newSize).1 = FR_OK := hok
  show some (io_truncate_body env fp newSize).2 = _
  rw [hbody] at hok' ⊢
  unfold io_truncate_disk at hok' ⊢
  by_cases hlt : newSize < env.drv.f_size fp.file
  · simp only [hlt, if_true] at hok' ⊢
    by_cases hconf : env.conf.FS_READONLY ≠ 0 ∨ env.conf.FS_MINIMIZE ≠ 0
    · rw [if_pos hconf] at hok'
      simp at hok'
    rw [if_neg hconf] at hok' ⊢
    have hmin : ¬ env.conf.FS_MINIMIZE > 2 := by
      have : env.conf.FS_MINIMIZE = 0 := by
        by_contra hne
        exact hconf (Or.inr hne)
      omega
    simp only [seek, hopen, if_false, hmin] at hok' ⊢
    by_cases hk : (env.drv.f_lseek fp.file newSize).1 = FR_OK
    swap
    · simp only [ne_eq, hk, not_false_eq_true, if_true] at hok'
    simp only [ne_eq, hk, not_true_eq_false, if_false] at hok' ⊢
    by_cases ht : (env.drv.f_truncate (env.drv.f_lseek fp.file newSize).2).1 = FR_OK
    swap
    · simp only [ht, not_false_eq_true, if_true] at hok'
    simp only [ht, not_true_eq_false, if_false]
  · simp only [hlt, if_false]

/-- Witness of C14, the scenario of the specification: a 50-byte file with a dirty window
that starts at byte 32 is truncated to 10 bytes; the buffer is gone, the file on storage is
10 bytes long and the bytes written into the buffer never reached it. -/
theorem io_truncate_discards_window_witness :
    (dirtyFifty.bufferBegin * dirtyFifty.ssize = 32 ∧ dirtyFifty.unsavedData = 1 ∧
      dirtyFifty.actualFileSize = 50 ∧ (io_truncate env16 (some dirtyFifty) 10).1 = FR_OK) ∧
    (io_truncate env16 (some dirtyFifty) 10).2 =
      some { dirtyFifty with
        buffer := none, bufferBegin := 0, bufferSize := 0, actualSize := 0, unsavedData := 0
        actualFileSize := 10
        file := if 10 < env16.drv.f_size dirtyFifty.file
          then (env16.drv.f_truncate (env16.drv.f_lseek dirtyFifty.file 10).2).2
          else dirtyFifty.file } ∧
    ((io_truncate env16 (some dirtyFifty) 10).2.map (fun d => d.file.size)) = some 10 ∧
    ((io_truncate env16 (some dirtyFifty) 10).2.map
      (fun d => view d.file.data 0 10)) = some [1, 2, 3, 4, 5, 6, 7, 8, 9, 10] :=
  ⟨by decide,
    io_truncate_discards_window env16 dirtyFifty 10 (by decide) (by decide) (by decide)
      (by decide) (by decide),
    by decide, by decide⟩

/-- C15, evaluated at a failing input. A 64-byte file is opened and 4 bytes are read at
offset 0: the window is the first sector, capacity 16, valid length 16. `io_truncate(40)`
returns `FR_OK` and keeps the buffer, but sets the valid length to 40: larger than before and
larger than the capacity. A 1-byte write at offset 0 and `io_close` then store 40 bytes out
of the 16-byte block: bytes 16 to 39 of the file, which held 17 to 40, now hold what lies
behind the block (`0xAA` here). -/
theorem shrink_in_place_grows_valid_length :
    (readSixtyFour.bufferBegin = 0 ∧ readSixtyFour.bufferSize = 16 ∧
      readSixtyFour.actualSize = 16 ∧ readSixtyFour.actualFileSize = 64) ∧
    (io_truncate_body env16 readSixtyFour 40).1 = FR_OK ∧
    (io_truncate_body env16 readSixtyFour 40).2.bufferSize = 16 ∧
    (io_truncate_body env16 readSixtyFour 40).2.actualSize = 40 ∧
    (io_close_body env16
      (io_write_body env16 (io_truncate_body env16 readSixtyFour 40).2 [77] 0 1).2.2).1
      = FR_OK ∧
    (io_close_body env16
      (io_write_body env16 (io_truncate_body env16 readSixtyFour 40).2 [77] 0 1).2.2).2.size
      = 40 ∧
    view (io_close_body env16
      (io_write_body env16 (io_truncate_body env16 readSixtyFour 40).2 [77] 0 1).2.2).2.data
      14 4 = [15, 16, 170, 170] := by
  decide

/-- C18: for every open descriptor and every driver, `preallocate` with a target at or below
the size of the file on storage, and `io_truncate` with the logical size itself, return
`FR_OK` and leave the whole descriptor, storage included, as it was. -/
theorem expand_to_current_size_is_noop {σ : Type} (env : Env σ) (fp : IO_FileDescriptor σ)
    (target : Nat) (hopen : fp.isOpen ≠ 0) (ht : target ≤ env.drv.f_size fp.file) :
    preallocate env fp target = (FR_OK, fp) ∧
    io_truncate env (some fp) fp.actualFileSize = (FR_OK, some fp) := by
  constructor
  · unfold preallocate
    rw [if_neg hopen, if_pos ht]
  · simp [io_truncate, io_truncate_body, io_size_body, hopen]

/-- Witness of C18: the open descriptor of a 50-byte file, target 20. -/
theorem expand_to_current_size_is_noop_witness :
    (fifty.isOpen ≠ 0 ∧ 20 ≤ env16.drv.f_size fifty.file ∧ fifty.actualFileSize = 50) ∧
    preallocate env16 fifty 20 = (FR_OK, fifty) ∧
    io_truncate env16 (some fifty) fifty.actualFileSize = (FR_OK, some fifty) :=
  ⟨by decide, expand_to_current_size_is_noop env16 fifty 20 (by decide) (by decide)⟩

/-- C19: for every open descriptor, every driver and every target `p` such that the seek
`io_lseek` issues when `p` lies beyond both the logical size and the file on storage
succeeds: `io_lseek(p)` returns `FR_OK` and leaves the cursor at the smaller of `p` and the
logical size after the call. When `p` is at or below the logical size only the cursor
changes. When `p` is beyond it the driver is asked to seek to `p`, the logical size becomes the
offset `m` the driver reached, and the cursor is the smaller of `p` and `m` (so `m` when the
volume was full). -/
theorem io_lseek_clamps_cursor {σ : Type} (env : Env σ) (fp : IO_FileDescriptor σ) (p : Nat)
    (hopen : fp.isOpen ≠ 0)
    (hseek : fp.actualFileSize < p → env.drv.f_size fp.file < p →
      (seek env fp p).1 = FR_OK) :
    ∃ fp1 : IO_FileDescriptor σ,
      io_lseek env (some fp) p = (FR_OK, some fp1) ∧
      fp1.rwPointer = min p fp1.actualFileSize ∧
      (p ≤ fp.actualFileSize → fp1 = { fp with rwPointer := p }) ∧
      (fp.actualFileSize < p → env.drv.f_size fp.file < p →
        fp1 = { fp with
          file := (env.drv.f_lseek fp.file p).2
          actualFileSize := env.drv.f_tell (env.drv.f_lseek fp.file p).2
          rwPointer := min p (env.drv.f_tell (env.drv.f_lseek fp.file p).2) }) := by
  by_cases h1 : p ≤ fp.actualFileSize
  · refine ⟨{ fp with rwPointer := p }, ?_, ?_, fun _ => rfl, fun h => absurd h (by omega)⟩
    · have h1' : ¬ p > fp.actualFileSize := by omega
      simp only [io_lseek, io_lseek_body, io_size_body, hopen, if_false, ne_eq,
        not_true_eq_false, h1']
      rw [set_cursor_eq]
    · show p = min p fp.actualFileSize
      omega
  have h1' : p > fp.actualFileSize := by omega
  by_cases h2 : p ≤ env.drv.f_size fp.file
  · refine ⟨{ fp with rwPointer := fp.actualFileSize }, ?_, ?_, fun h => absurd h h1,
      fun _ h => absurd h (by omega)⟩
    · have hpre : preallocate env fp p = (FR_OK, fp) := by
        unfold preallocate
        rw [if_neg hopen, if_pos h2]
      simp only [io_lseek, io_lseek_body, io_size_body, hopen, if_false, ne_eq,
        not_true_eq_false, h1', if_true, hpre]
      rw [set_cursor_eq]
    · show fp.actualFileSize = min p fp.actualFileSize
      omega
  have hs := hseek (by omega) (by omega)
  have hmin : ¬ env.conf.FS_MINIMIZE > 2 := by
    intro hgt
    simp [seek, hopen, hgt] at hs
  have hs' : (env.drv.f_lseek fp.file p).1 = FR_OK := by
    simpa [seek, hopen, hmin] using hs
  have hpre : preallocate env fp p
      = (FR_OK,
        { fp with
          file := (env.drv.f_lseek fp.file p).2
          actualFileSize := env.drv.f_tell (env.drv.f_lseek fp.file p).2 }) := by
    unfold preallocate seek
    simp only [hopen, if_false, h2, hmin, hs', ne_eq, not_true_eq_false]
  refine ⟨{ fp with
      file := (env.drv.f_lseek fp.file p).2
      actualFileSize := env.drv.f_tell (env.drv.f_lseek fp.file p).2
      rwPointer := min p (env.drv.f_tell (env.drv.f_lseek fp.file p).2) }, ?_, rfl,
    fun h => absurd h h1, fun _ _ => rfl⟩
  simp only [io_lseek, io_lseek_body, io_size_body, hopen, if_false, ne_eq,
    not_true_eq_false, h1', if_true, hpre]
  by_cases h3 : p > env.drv.f_tell (env.drv.f_lseek fp.file p).2
  · have hm : min p (env.drv.f_tell (env.drv.f_lseek fp.file p).2)
        = env.drv.f_tell (env.drv.f_lseek fp.file p).2 := by omega
    rw [hm]
    simp only [h3, if_true]
    exact congrArg (fun x => (FR_OK, some x))
      (set_cursor_eq
        { fp with
          file := (env.drv.f_lseek fp.file p).2
          actualFileSize := env.drv.f_tell (env.drv.f_lseek fp.file p).2 } _)
  · have hm : min p (env.drv.f_tell (env.drv.f_lseek fp.file p).2) = p := by omega
    rw [hm]
    simp only [h3, if_false]
    exact congrArg (fun x => (FR_OK, some x))
      (set_cursor_eq
        { fp with
          file := (env.drv.f_lseek fp.file p).2
          actualFileSize := env.drv.f_tell (env.drv.f_lseek fp.file p).2 } _)

/-- Witness of C19: on a volume with room for 30 bytes, a seek to offset 100 of a newly
opened empty file succeeds; the logical size and the cursor are both 30. -/
theorem io_lseek_clamps_cursor_witness :
    (fresh16.isOpen ≠ 0 ∧ (seek envFullDisk fresh16 100).1 = FR_OK) ∧
    ((io_lseek envFullDisk (some fresh16) 100).1 = FR_OK ∧
      (io_lseek envFullDisk (some fresh16) 100).2.map (fun d => d.actualFileSize) = some 30 ∧
      (io_lseek envFullDisk (some fresh16) 100).2.map (fun d => d.rwPointer) = some 30) ∧
    ∃ fp1 : IO_FileDescriptor PosixFile,
      io_lseek envFullDisk (some fresh16) 100 = (FR_OK, some fp1) ∧
      fp1.rwPointer = min 100 fp1.actualFileSize ∧
      (100 ≤ fresh16.actualFileSize → fp1 = { fresh16 with rwPointer := 100 }) ∧
      (fresh16.actualFileSize < 100 → envFullDisk.drv.f_size fresh16.file < 100 →
        fp1 = { fresh16 with
          file := (envFullDisk.drv.f_lseek fresh16.file 100).2
          actualFileSize := envFullDisk.drv.f_tell (envFullDisk.drv.f_lseek fresh16.file 100).2
          rwPointer :=
            min 100 (envFullDisk.drv.f_tell (envFullDisk.drv.f_lseek fresh16.file 100).2) }) :=
  ⟨by decide, by decide,
    io_lseek_clamps_cursor envFullDisk fresh16 100 (by decide) (fun _ _ => by decide)⟩

/-- C21, evaluated at a failing input. A file of 4294967264 bytes is opened (16-byte
sectors) and 18 bytes are written at its end: the write succeeds, its computed window is
sectors 268435454 and 268435455, 32 bytes ending at 4 GiB, and that is the buffer. A second
write of 2 bytes at 4294967266 lies inside the window, yet `buffer_exists` answers 0
(NoMatch): the buffer is released and a block of 16 bytes is allocated. -/
theorem second_write_inside_window_reallocates :
    Reachable 16 twoSectorsBelow ∧
    ((io_write_body env16 twoSectorsBelow (List.replicate 18 1) 4294967264 18).1 = FR_OK ∧
      buffer_specs twoSectorsBelow 18 4294967264 = (FR_OK, 268435454, 268435455, 32) ∧
      lastWindow.bufferBegin = 268435454 ∧ lastWindow.bufferSize = 32) ∧
    (268435454 * 16 ≤ 4294967266 ∧ 4294967266 + 2 ≤ 268435454 * 16 + 32) ∧
    (buffer_specs lastWindow 2 4294967266 = (FR_OK, 268435454, 268435454, 16) ∧
      buffer_exists lastWindow 268435454 16 = 0 ∧
      (io_write_body env16 lastWindow [2, 2] 4294967266 2).1 = FR_OK ∧
      secondWindow.bufferBegin = 268435454 ∧ secondWindow.bufferSize = 16) :=
  ⟨reachable_openedOn 16 _ (by decide) (by decide), by decide, by decide, by decide⟩

/-- C22 fails as stated: with a dirty buffer and a driver whose `f_write` fails with
`FR_DISK_ERR` and whose `f_close` fails with `FR_TIMEOUT`, the flush-and-release step fails
with `FR_DISK_ERR`, and `io_close` returns `FR_TIMEOUT`, the error of the second step. -/
theorem io_close_returns_last_error :
    (free_buffer envFailingWriteClose tenWritten 1).1 = FR_DISK_ERR ∧
    (envFailingWriteClose.drv.f_close
      (free_buffer envFailingWriteClose tenWritten 1).2.file).1 = FR_TIMEOUT ∧
    (io_close envFailingWriteClose (some tenWritten)).1 = FR_TIMEOUT := by
  decide

/-- C22 as amended: for every non-null descriptor and every driver, `io_close` runs the
flush-and-release step and then closes the storage handle that step left; it returns the
result of the close when the close fails, and the result of the flush-and-release step when
the close succeeds. -/
theorem io_close_status {σ : Type} (env : Env σ) (fp : IO_FileDescriptor σ) :
    (io_close env (some fp)).2
      = some (env.drv.f_close (free_buffer env fp 1).2.file).2 ∧
    ((env.drv.f_close (free_buffer env fp 1).2.file).1 ≠ FR_OK →
      (io_close env (some fp)).1 = (env.drv.f_close (free_buffer env fp 1).2.file).1) ∧
    ((env.drv.f_close (free_buffer env fp 1).2.file).1 = FR_OK →
      (io_close env (some fp)).1 = (free_buffer env fp 1).1) := by
  refine ⟨rfl, ?_, ?_⟩
  · intro h
    show (io_close_body env fp).1 = _
    unfold io_close_body
    simp only [h, ne_eq, not_false_eq_true, if_true]
  · intro h
    show (io_close_body env fp).1 = _
    unfold io_close_body
    simp only [h, ne_eq, not_true_eq_false, if_false]
    split
    · rfl
    · rename_i hf
      exact (not_not.mp hf).symm

/-- Witness of C22 as amended: with the driver of the tests both steps succeed on the
descriptor holding ten unflushed bytes; with the failing driver the close error is
returned. -/
theorem io_close_status_witness :
    ((io_close env16 (some tenWritten)).1 = FR_OK ∧
      (io_close envFailingWriteClose (some tenWritten)).1 = FR_TIMEOUT) ∧
    ((io_close envFailingWriteClose (some tenWritten)).2
      = some (envFailingWriteClose.drv.f_close
          (free_buffer envFailingWriteClose tenWritten 1).2.file).2 ∧
    ((envFailingWriteClose.drv.f_close
        (free_buffer envFailingWriteClose tenWritten 1).2.file).1 ≠ FR_OK →
      (io_close envFailingWriteClose (some tenWritten)).1
        = (envFailingWriteClose.drv.f_close
            (free_buffer envFailingWriteClose tenWritten 1).2.file).1) ∧
    ((envFailingWriteClose.drv.f_close
        (free_buffer envFailingWriteClose tenWritten 1).2.file).1 = FR_OK →
      (io_close envFailingWriteClose (some tenWritten)).1
        = (free_buffer envFailingWriteClose tenWritten 1).1)) :=
  ⟨by decide, io_close_status envFailingWriteClose tenWritten⟩

/-- C23, checked function by function. On a null descriptor every function of the claim
returns `FR_INVALID_OBJECT`. On a descriptor with `isOpen = 0`, `io_size`, `io_error`,
`io_sync`, `io_truncate`, `io_lseek` and `io_write` return `FR_INVALID_OBJECT` and leave the
descriptor as it was, but `io_tell` returns `FR_OK` with the stored cursor: it tests the
pointer only. The descriptor `allocFileDescriptor` builds, not yet opened, is such an
input. -/
theorem io_tell_accepts_closed_descriptor :
    (io_tell (allocFileDescriptor env16 (onDisk 0 (fun _ => 0))) = (FR_OK, 0) ∧
      io_size (allocFileDescriptor env16 (onDisk 0 (fun _ => 0))) = (FR_INVALID_OBJECT, 0)) ∧
    (∀ (σ : Type) (env : Env σ) (buff : List Nat) (a b : Nat), 1 ≤ b →
      io_size (none : Option (IO_FileDescriptor σ)) = (FR_INVALID_OBJECT, 0) ∧
      io_tell (none : Option (IO_FileDescriptor σ)) = (FR_INVALID_OBJECT, 0) ∧
      io_error env none = FR_INVALID_OBJECT ∧
      io_sync env none = (FR_INVALID_OBJECT, none) ∧
      io_truncate env none a = (FR_INVALID_OBJECT, none) ∧
      io_lseek env none a = (FR_INVALID_OBJECT, none) ∧
      io_write env none buff a b = (FR_INVALID_OBJECT, 0, none)) ∧
    (∀ (σ : Type) (env : Env σ) (fp : IO_FileDescriptor σ) (buff : List Nat) (a b : Nat),
      fp.isOpen = 0 → 1 ≤ b →
      io_size (some fp) = (FR_INVALID_OBJECT, 0) ∧
      io_error env (some fp) = FR_INVALID_OBJECT ∧
      io_sync env (some fp) = (FR_INVALID_OBJECT, some fp) ∧
      io_truncate env (some fp) a = (FR_INVALID_OBJECT, some fp) ∧
      io_lseek env (some fp) a = (FR_INVALID_OBJECT, some fp) ∧
      io_write env (some fp) buff a b = (FR_INVALID_OBJECT, 0, some fp) ∧
      io_tell (some fp) = (FR_OK, fp.rwPointer)) := by
  refine ⟨by decide, ?_, ?_⟩
  · intro σ env buff a b hb
    have hb0 : b ≠ 0 := by omega
    refine ⟨rfl, rfl, rfl, rfl, rfl, rfl, ?_⟩
    simp [io_write, hb0]
  · intro σ env fp buff a b ho hb
    have hb0 : b ≠ 0 := by omega
    refine ⟨?_, ?_, ?_, ?_, ?_, ?_, rfl⟩
    · simp [io_size, io_size_body, ho]
    · simp [io_error, ho]
    · simp [io_sync, io_sync_body, ho]
    · simp [io_truncate, io_truncate_body, ho]
    · simp [io_lseek, io_lseek_body, io_size_body, ho]
    · simp [io_write, io_write_body, hb0, ho]

/-- C24, evaluated at failing inputs. In every build where `f_utime` is available, the time
24:60:60 passes the validation and is handed to the driver, packed with hour 24, minute 60
and 30 two-second units; so is the year 1975, which `fdate` packs as year 2103, and the year
2200, packed as 2072. A month of 13 is rejected. -/
theorem io_set_timestamp_accepts_invalid_fields :
    (∀ (σ : Type) (env : Env σ) (w : σ) (path : String),
      env.conf.FS_READONLY = 0 → env.conf.USE_CHMOD = 1 →
      io_set_timestamp env w path 2020 1 1 24 60 60
        = env.drv.f_utime w path (fdate 2020 1 1) (ftime 24 60 60) ∧
      io_set_timestamp env w path 1975 1 1 0 0 0
        = env.drv.f_utime w path (fdate 1975 1 1) (ftime 0 0 0) ∧
      io_set_timestamp env w path 2200 1 1 0 0 0
        = env.drv.f_utime w path (fdate 2200 1 1) (ftime 0 0 0) ∧
      (io_set_timestamp env w path 2020 13 1 0 0 0).1 = FR_INVALID_PARAMETER) ∧
    (ftime 24 60 60 / 2048 = 24 ∧ ftime 24 60 60 / 32 % 64 = 60 ∧ ftime 24 60 60 % 32 = 30) ∧
    (fdate 1975 1 1 / 512 + 1980 = 2103 ∧ fdate 2200 1 1 / 512 + 1980 = 2072) ∧
    (io_set_timestamp env16 (onDisk 0 (fun _ => 0)) "testTmpFile" 2020 1 1 24 60 60).1
      = FR_OK := by
  refine ⟨?_, by decide, by decide, by decide⟩
  intro σ env w path h1 h2
  refine ⟨?_, ?_, ?_, ?_⟩ <;> simp [io_set_timestamp, h1, h2]

/-- C25, evaluated at a failing input. A 64-byte file is opened and truncated to 40 bytes:
the state is reachable, no buffer was ever allocated (capacity 0), and the valid length is
40. With a buffer in place (4 bytes read first, capacity 16) the valid length after the same
truncation is 40 as well. -/
theorem valid_length_exceeds_capacity :
    Reachable 16 truncatedUnbuffered ∧
    (truncatedUnbuffered.buffer.isNone = true ∧ truncatedUnbuffered.bufferSize = 0 ∧
      truncatedUnbuffered.actualSize = 40) ∧
    Reachable 16 (io_truncate_body env16 readSixtyFour 40).2 ∧
    ((io_truncate_body env16 readSixtyFour 40).2.bufferSize = 16 ∧
      (io_truncate_body env16 readSixtyFour 40).2.actualSize = 40) :=
  ⟨Reachable.truncate (fun _ => some (fun _ => 170)) _ 40
      (reachable_openedOn 16 _ (by decide) (by decide)) (by decide),
    by decide,
    Reachable.truncate (fun _ => some (fun _ => 170)) _ 40
      (Reachable.read (fun _ => some (fun _ => 170)) _ 0 4
        (reachable_openedOn 16 _ (by decide) (by decide)) (by decide) (by decide))
      (by decide),
    by decide⟩

/-- C26, evaluated at a failing input, with what does hold. A new file is opened on a volume
with room for 30 bytes, 40 bytes are written at offset 0 and `io_lseek(100)` is called:
every call returns `FR_OK`; the seek of `preallocate` stops at 30 and the logical size
becomes 30, while the buffer still starts at 0 and holds 40 valid bytes, so
`bufferBegin * ssize + actualSize = 40 > 30`. In every state reached over the driver of the
tests with write access, where no seek stops short, the valid buffered data ends at or
before the logical size. -/
theorem clipped_seek_leaves_valid_data_past_end :
    (newOnFullDisk.isSome = true ∧
      (io_write envFullDisk newOnFullDisk (List.replicate 40 7) 0 40).1 = FR_OK ∧
      (io_write envFullDisk newOnFullDisk (List.replicate 40 7) 0 40).2.1 = 40 ∧
      fortyBuffered.map (fun d => (d.bufferBegin, d.ssize, d.actualSize, d.actualFileSize))
        = some (0, 16, 40, 40) ∧
      (io_lseek envFullDisk fortyBuffered 100).1 = FR_OK) ∧
    (clippedSeek.map (fun d => (d.bufferBegin, d.ssize, d.actualSize, d.actualFileSize))
        = some (0, 16, 40, 30) ∧
      clippedSeek.map (fun d => (d.unsavedData, d.file.size)) = some (1, 30) ∧
      ¬ (0 * 16 + 40 ≤ 30)) ∧
    (∀ (ss : Nat) (fp : IO_FileDescriptor PosixFile), Reachable ss fp →
      fp.bufferBegin * fp.ssize + fp.actualSize ≤ fp.actualFileSize) :=
  ⟨by decide, by decide, fun ss fp h => (inv_of_reachable ss fp h).valid_le⟩

/-- C27, evaluated at two failing inputs, with what does hold. (a) A 50-byte file is opened
with `FA_READ` over the driver of the tests and `io_truncate(10)` is called: the driver
refuses to truncate, the call returns `FR_INT_ERR`, but the logical size is already 10:
`io_size` reports 10 for 50 bytes on storage. (b) A 10-byte file is opened with `FA_READ`
and `io_lseek(100)` is called: it returns `FR_OK`, the file on storage still has 10 bytes,
the dirty flag is clear and `io_size` reports 100. In every state reached over the driver of
the tests with write access, `io_size` reports at least the size on storage, and exactly
that size when the dirty flag is clear. -/
theorem logical_size_differs_from_storage :
    (readOnlyFifty.isSome = true ∧ io_size readOnlyFifty = (FR_OK, 50) ∧
      (io_truncate env16 readOnlyFifty 10).1 = FR_INT_ERR ∧
      io_size (io_truncate env16 readOnlyFifty 10).2 = (FR_OK, 10) ∧
      (io_truncate env16 readOnlyFifty 10).2.map (fun d => (d.file.size, d.unsavedData))
        = some (50, 0)) ∧
    (readOnlyTen.isSome = true ∧ io_size readOnlyTen = (FR_OK, 10) ∧
      (io_lseek env16 readOnlyTen 100).1 = FR_OK ∧
      io_size (io_lseek env16 readOnlyTen 100).2 = (FR_OK, 100) ∧
      (io_lseek env16 readOnlyTen 100).2.map (fun d => (d.file.size, d.unsavedData))
        = some (10, 0)) ∧
    (∀ (ss : Nat) (fp : IO_FileDescriptor PosixFile), Reachable ss fp →
      io_size (some fp) = (FR_OK, fp.actualFileSize) ∧
      fp.file.size ≤ (io_size (some fp)).2 ∧
      (fp.unsavedData = 0 → fp.file.size = (io_size (some fp)).2)) := by
  refine ⟨by decide, by decide, ?_⟩
  intro ss fp h
  obtain ⟨hI, hS⟩ := settled_of_reachable ss fp h
  have hsize : io_size (some fp) = (FR_OK, fp.actualFileSize) := by
    show io_size_body fp = _
    unfold io_size_body
    rw [if_neg hI.isOpen]
  rw [hsize]
  exact ⟨rfl, hI.disk_le, hS.clean⟩

/-- C28: in every state reached from `io_open` or `io_create_contiguous` by reads, writes,
syncs, seeks and truncations, over any driver, configuration and allocator and whatever
each call returns, a set dirty flag comes with an allocated buffer of non-zero capacity. -/
theorem dirty_implies_buffer {σ : Type} (fp : IO_FileDescriptor σ) (h : Reached fp)
    (hd : fp.unsavedData ≠ 0) :
    (∃ b : Mem, fp.buffer = some b) ∧ 0 < fp.bufferSize := by
  have hI := dirty_buffered_of_reached fp h
  have hb := hI.dirty hd
  have hs := hI.sized hb
  refine ⟨?_, by omega⟩
  cases hx : fp.buffer with
  | none => rw [hx] at hb; exact absurd hb (by decide)
  | some x => exact ⟨x, rfl⟩

/-- Witness of C28: ten bytes are written to a new file and `io_sync` is called over a driver
whose `f_write` fails; the sync fails, the dirty flag stays set and the 16-byte buffer is
still there. -/
theorem dirty_implies_buffer_witness :
    (Reached (io_sync_body envFailingWriteClose tenWritten).2 ∧
      (io_sync_body envFailingWriteClose tenWritten).1 = FR_DISK_ERR ∧
      (io_sync_body envFailingWriteClose tenWritten).2.unsavedData ≠ 0 ∧
      (io_sync_body envFailingWriteClose tenWritten).2.bufferSize = 16) ∧
    ((∃ b : Mem, (io_sync_body envFailingWriteClose tenWritten).2.buffer = some b) ∧
      0 < (io_sync_body envFailingWriteClose tenWritten).2.bufferSize) :=
  have hr : Reached (io_sync_body envFailingWriteClose tenWritten).2 :=
    Reached.sync envFailingWriteClose tenWritten
      (Reached.write env16 fresh16 data10 0 10
        (Reached.opened env16 (onDisk 0 (fun _ => 0)) "testTmpFile" FA_WRITE fresh16
          (by
            show (io_open (testEnv 16 (fun _ => some (fun _ => 170))) _ _ _).1 = _
            rw [io_open_testEnv 16 _ _ "testTmpFile" FA_WRITE (by decide) (by decide)
              (by decide) (by decide)]
            rfl)))
  ⟨⟨hr, by decide, by decide, by decide⟩,
    dirty_implies_buffer (io_sync_body envFailingWriteClose tenWritten).2 hr (by decide)⟩

/-- C29 fails as stated: with a sector unit of one byte, `start = 4294967295` and
`bytes = 100`, `buffer_specs` succeeds and returns `end = 98`; the exact value
`(start + bytes - 1) / 1 = 4294967394` does not fit the 32-bit result. -/
theorem buffer_specs_end_wraps :
    buffer_specs byteSectors 100 4294967295 = (FR_OK, 4294967295, 98, 100) ∧
    (4294967295 + 100 - 1) / byteSectors.ssize = 4294967394 := by
  decide

/-- C29 as amended: for every descriptor with a sector unit `0 < s < 2^32`, every 32-bit
`start` and every 32-bit `bytes >= 1` such that `s >= 2` or `start + bytes <= 2^32`, with
`end = (start + bytes - 1) / s` and `begin = L / s` if `(start / s) * s > L` and `start / s`
otherwise: `buffer_specs` fails with `FR_NOT_ENOUGH_CORE` exactly when
`(end - begin + 1) * s > MAX_BUFFER_SIZE`, and otherwise returns `begin`, `end` and
`size = (end - begin + 1) * s` as exact integers; the window starts at or before `start` and
covers the request. -/
theorem buffer_specs_geometry {σ : Type} (fp : IO_FileDescriptor σ) (bytes start : Nat)
    (hss : 0 < fp.ssize) (hssu : fp.ssize < UINT_MOD) (hb : 1 ≤ bytes)
    (hstart : start < UINT_MOD) (hbytes : bytes < UINT_MOD)
    (hrange : 2 ≤ fp.ssize ∨ start + bytes ≤ UINT_MOD) :
    ∃ b e : Nat,
      b = (if start / fp.ssize * fp.ssize > fp.actualFileSize
        then fp.actualFileSize / fp.ssize else start / fp.ssize) ∧
      e = (start + bytes - 1) / fp.ssize ∧
      buffer_specs fp bytes start =
        (if (e - b + 1) * fp.ssize > MAX_BUFFER_SIZE then (FR_NOT_ENOUGH_CORE, 0, 0, 0)
          else (FR_OK, b, e, (e - b + 1) * fp.ssize)) ∧
      b ≤ e ∧ b * fp.ssize ≤ start ∧ start + bytes ≤ b * fp.ssize + (e - b + 1) * fp.ssize := by
  have helt : (start + bytes - 1) / fp.ssize < UINT_MOD := by
    apply (Nat.div_lt_iff_lt_mul hss).mpr
    rcases hrange with h | h
    · have : UINT_MOD * 2 ≤ UINT_MOD * fp.ssize := Nat.mul_le_mul_left _ h
      simp only [UINT_MOD] at *
      omega
    · have : UINT_MOD * 1 ≤ UINT_MOD * fp.ssize := Nat.mul_le_mul_left _ hss
      simp only [UINT_MOD] at *
      omega
  refine ⟨_, _, rfl, rfl,
    buffer_specs_exact fp bytes start hss hssu hb hstart hbytes helt, ?_, ?_, ?_⟩
  · have hq : start / fp.ssize ≤ (start + bytes - 1) / fp.ssize :=
      Nat.div_le_div_right (by omega)
    split
    · rename_i h
      have : fp.actualFileSize / fp.ssize ≤ start / fp.ssize := by
        apply Nat.div_le_div_right
        have := div_mul_le' start fp.ssize
        omega
      omega
    · exact hq
  · have h1 := div_mul_le' start fp.ssize
    split
    · rename_i h
      have := div_mul_le' fp.actualFileSize fp.ssize
      omega
    · exact h1
  · have hw := window_ge_count start bytes fp.ssize fp.actualFileSize hss hb
    have hble : (if start / fp.ssize * fp.ssize > fp.actualFileSize
        then fp.actualFileSize / fp.ssize else start / fp.ssize) ≤ start / fp.ssize := by
      split
      · rename_i h
        apply Nat.div_le_div_right
        have := div_mul_le' start fp.ssize
        omega
      · exact le_refl _
    have hq : start / fp.ssize ≤ (start + bytes - 1) / fp.ssize :=
      Nat.div_le_div_right (by omega)
    have h2 := lt_div_mul_add (start + bytes - 1) fp.ssize hss
    generalize (if start / fp.ssize * fp.ssize > fp.actualFileSize
        then fp.actualFileSize / fp.ssize else start / fp.ssize) = b at *
    generalize (start + bytes - 1) / fp.ssize = e at *
    have h4 : (e - b + 1) * fp.ssize + b * fp.ssize = e * fp.ssize + fp.ssize := by
      rw [← Nat.add_mul]
      have : e - b + 1 + b = e + 1 := by omega
      rw [this, Nat.add_mul, Nat.one_mul]
    omega

/-- Witness of C29 as amended: 18 bytes at offset 4294967264 of a file of that size, 16-byte
sectors; the window is the last two sectors below 4 GiB. -/
theorem buffer_specs_geometry_witness :
    buffer_specs twoSectorsBelow 18 4294967264 = (FR_OK, 268435454, 268435455, 32) ∧
    ∃ b e : Nat,
      b = (if 4294967264 / twoSectorsBelow.ssize * twoSectorsBelow.ssize
          > twoSectorsBelow.actualFileSize
        then twoSectorsBelow.actualFileSize / twoSectorsBelow.ssize
        else 4294967264 / twoSectorsBelow.ssize) ∧
      e = (4294967264 + 18 - 1) / twoSectorsBelow.ssize ∧
      buffer_specs twoSectorsBelow 18 4294967264 =
        (if (e - b + 1) * twoSectorsBelow.ssize > MAX_BUFFER_SIZE
          then (FR_NOT_ENOUGH_CORE, 0, 0, 0)
          else (FR_OK, b, e, (e - b + 1) * twoSectorsBelow.ssize)) ∧
      b ≤ e ∧ b * twoSectorsBelow.ssize ≤ 4294967264 ∧
      4294967264 + 18 ≤ b * twoSectorsBelow.ssize + (e - b + 1) * twoSectorsBelow.ssize :=
  ⟨by decide,
    buffer_specs_geometry twoSectorsBelow 18 4294967264 (by decide) (by decide) (by decide)
      (by decide) (by decide) (Or.inl (by decide))⟩

/-- C30, evaluated at two failing inputs, both windows that `buffer_specs` produces on
reachable states. (a) The buffer is the two sectors ending at 4 GiB (start sector 268435454,
capacity 32, 18 valid bytes) and the required window is its first sector: in exact
arithmetic it lies inside the buffer and inside the valid bytes (FullMatch), but
`buffer_exists` returns 0. (b) The buffer is the single sector 268435454 (capacity 16) and
the required window is the next sector, which ends at 4 GiB: in exact arithmetic it extends
past the capacity (NoMatch), but `buffer_exists` returns 2; the write that follows stores its
bytes at offset 18 of the 16-byte block. -/
theorem buffer_exists_wraps_at_four_gib :
    ((lastWindow.bufferBegin = 268435454 ∧ lastWindow.bufferSize = 32 ∧
        lastWindow.actualSize = 18 ∧ lastWindow.buffer.isSome = true) ∧
      buffer_specs lastWindow 2 4294967266 = (FR_OK, 268435454, 268435454, 16) ∧
      (¬ (268435454 < lastWindow.bufferBegin) ∧
        268435454 * lastWindow.ssize + 16
          ≤ lastWindow.bufferBegin * lastWindow.ssize + lastWindow.actualSize) ∧
      buffer_exists lastWindow 268435454 16 = 0) ∧
    ((secondWindow.bufferBegin = 268435454 ∧ secondWindow.bufferSize = 16 ∧
        secondWindow.buffer.isSome = true) ∧
      buffer_specs secondWindow 2 4294967282 = (FR_OK, 268435455, 268435455, 16) ∧
      268435455 * secondWindow.ssize + 16
        > secondWindow.bufferBegin * secondWindow.ssize + secondWindow.bufferSize ∧
      buffer_exists secondWindow 268435455 16 = 2 ∧
      (io_write_body env16 secondWindow [3, 3] 4294967282 2).1 = FR_OK ∧
      (io_write_body env16 secondWindow [3, 3] 4294967282 2).2.2.bufferSize = 16 ∧
      (io_write_body env16 secondWindow [3, 3] 4294967282 2).2.2.actualSize = 20) := by
  decide

/-- C31 fails as stated: the descriptor holds a 16-byte buffer on the last sector below 4 GiB
and 16 bytes are handed to `modif_cache` at position 4294967280, so that
`offset + count = 16 <= bufferCapacity`. The call returns `FR_OK` with `bw = 16` and a valid
length of 16, but the cursor is 0 and the logical size stays 4294967280: both
`position + count` and `bufferBegin * ssize + validBytes` are 4294967296, which the 32-bit
fields cannot hold. -/
theorem modif_cache_wraps_at_four_gib :
    (lastSectorBuffer.buffer.isSome = true ∧ lastSectorBuffer.bufferBegin = 268435455 ∧
      lastSectorBuffer.ssize = 16 ∧ lastSectorBuffer.bufferSize = 16 ∧
      lastSectorBuffer.actualSize = 0 ∧ lastSectorBuffer.actualFileSize = 4294967280) ∧
    (4294967280 - lastSectorBuffer.bufferBegin * lastSectorBuffer.ssize) + 16
      ≤ lastSectorBuffer.bufferSize ∧
    (modif_cache lastSectorBuffer (List.replicate 16 1) 4294967280 16).1 = FR_OK ∧
    (modif_cache lastSectorBuffer (List.replicate 16 1) 4294967280 16).2.1 = 16 ∧
    (modif_cache lastSectorBuffer (List.replicate 16 1) 4294967280 16).2.2.actualSize = 16 ∧
    (modif_cache lastSectorBuffer (List.replicate 16 1) 4294967280 16).2.2.rwPointer = 0 ∧
    (modif_cache lastSectorBuffer (List.replicate 16 1) 4294967280 16).2.2.actualFileSize
      = 4294967280 ∧
    4294967280 + 16 = 4294967296 ∧
    max lastSectorBuffer.actualFileSize
      (lastSectorBuffer.bufferBegin * lastSectorBuffer.ssize + 16) = 4294967296 := by
  decide

/-- C31 as amended: for every descriptor with a buffer and every `(position, count)` with
`bufferBegin * ssize <= position`, `offset = position - bufferBegin * ssize`,
`offset + count <= bufferCapacity`, `position + count < 2^32` and
`bufferBegin * ssize + validBytes < 2^32`, `modif_cache` returns `FR_OK` with `bw = count`
and leaves the dirty flag set, the valid length `max(validBytes, offset + count)`, the logical
size `max(logicalSize, bufferBegin * ssize + new valid length)`, the cursor
`position + count`, and `bufferBegin`, `bufferCapacity` and `ssize` as they were; a valid
length within the capacity stays within it. -/
theorem modif_cache_bookkeeping {σ : Type} (fp : IO_FileDescriptor σ) (data : List Nat)
    (position count : Nat) (b : Mem) (hb : fp.buffer = some b)
    (hP : fp.bufferBegin * fp.ssize ≤ position)
    (hcap : position - fp.bufferBegin * fp.ssize + count ≤ fp.bufferSize)
    (hpos : position + count < UINT_MOD)
    (hv : fp.bufferBegin * fp.ssize + fp.actualSize < UINT_MOD) :
    (modif_cache fp data position count).1 = FR_OK ∧
    (modif_cache fp data position count).2.1 = count ∧
    (modif_cache fp data position count).2.2.unsavedData = 1 ∧
    (modif_cache fp data position count).2.2.actualSize
      = max fp.actualSize (position - fp.bufferBegin * fp.ssize + count) ∧
    (modif_cache fp data position count).2.2.actualFileSize
      = max fp.actualFileSize
          (fp.bufferBegin * fp.ssize + (modif_cache fp data position count).2.2.actualSize) ∧
    (modif_cache fp data position count).2.2.rwPointer = position + count ∧
    (modif_cache fp data position count).2.2.bufferBegin = fp.bufferBegin ∧
    (modif_cache fp data position count).2.2.bufferSize = fp.bufferSize ∧
    (modif_cache fp data position count).2.2.ssize = fp.ssize ∧
    (fp.actualSize ≤ fp.bufferSize →
      (modif_cache fp data position count).2.2.actualSize ≤ fp.bufferSize) := by
  rw [modif_cache_eq fp data position count b hb hP hpos hv]
  refine ⟨rfl, rfl, rfl, rfl, rfl, rfl, rfl, rfl, rfl, ?_⟩
  intro h
  exact max_le h hcap

/-- Witness of C31 as amended: after ten bytes at offset 0 of a new file, three bytes are put
at offset 12 of the same 16-byte buffer. -/
theorem modif_cache_bookkeeping_witness :
    (tenWritten.bufferBegin = 0 ∧ tenWritten.bufferSize = 16 ∧ tenWritten.actualSize = 10 ∧
      tenWritten.actualFileSize = 10 ∧
      (modif_cache tenWritten [7, 8, 9] 12 3).2.2.actualSize = 15 ∧
      (modif_cache tenWritten [7, 8, 9] 12 3).2.2.actualFileSize = 15) ∧
    ((modif_cache tenWritten [7, 8, 9] 12 3).1 = FR_OK ∧
    (modif_cache tenWritten [7, 8, 9] 12 3).2.1 = 3 ∧
    (modif_cache tenWritten [7, 8, 9] 12 3).2.2.unsavedData = 1 ∧
    (modif_cache tenWritten [7, 8, 9] 12 3).2.2.actualSize
      = max tenWritten.actualSize (12 - tenWritten.bufferBegin * tenWritten.ssize + 3) ∧
    (modif_cache tenWritten [7, 8, 9] 12 3).2.2.actualFileSize
      = max tenWritten.actualFileSize
          (tenWritten.bufferBegin * tenWritten.ssize
            + (modif_cache tenWritten [7, 8, 9] 12 3).2.2.actualSize) ∧
    (modif_cache tenWritten [7, 8, 9] 12 3).2.2.rwPointer = 12 + 3 ∧
    (modif_cache tenWritten [7, 8, 9] 12 3).2.2.bufferBegin = tenWritten.bufferBegin ∧
    (modif_cache tenWritten [7, 8, 9] 12 3).2.2.bufferSize = tenWritten.bufferSize ∧
    (modif_cache tenWritten [7, 8, 9] 12 3).2.2.ssize = tenWritten.ssize ∧
    (tenWritten.actualSize ≤ tenWritten.bufferSize →
      (modif_cache tenWritten [7, 8, 9] 12 3).2.2.actualSize ≤ tenWritten.bufferSize)) :=
  ⟨by decide,
    modif_cache_bookkeeping tenWritten [7, 8, 9] 12 3 (tenWritten.buffer.getD (fun _ => 0))
      (by rfl) (by decide) (by decide) (by decide) (by decide)⟩

/-- C32: for every descriptor with a buffer `b` and every `(position, count)` with
`bufferBegin * ssize <= position`, `offset = position - bufferBegin * ssize` and
`offset + count <= bufferCapacity`: after `modif_cache` the buffer holds `data` at
`[offset, offset + count)`, zeros at `[validBytes, offset)`, and its former bytes below
`min(validBytes, offset)` and from `offset + count` on; every byte that changed lies inside
the capacity; the zero-filling loop makes exactly `offset - validBytes` turns (none when
`offset <= validBytes`) and then stops. -/
theorem modif_cache_contents {σ : Type} (fp : IO_FileDescriptor σ) (data : List Nat)
    (position count : Nat) (b : Mem) (hb : fp.buffer = some b)
    (hP : fp.bufferBegin * fp.ssize ≤ position) (hpos : position < UINT_MOD)
    (hcap : position - fp.bufferBegin * fp.ssize + count ≤ fp.bufferSize) :
    ∃ b1 : Mem,
      (modif_cache fp data position count).2.2.buffer = some b1 ∧
      (∀ i, i < count → b1 (position - fp.bufferBegin * fp.ssize + i) = data.getD i 0) ∧
      (∀ j, fp.actualSize ≤ j → j < position - fp.bufferBegin * fp.ssize → b1 j = 0) ∧
      (∀ j, j < min fp.actualSize (position - fp.bufferBegin * fp.ssize) → b1 j = b j) ∧
      (∀ j, position - fp.bufferBegin * fp.ssize + count ≤ j → b1 j = b j) ∧
      (∀ j, b1 j ≠ b j → j < fp.bufferSize) ∧
      zero_fill_steps (position - fp.bufferBegin * fp.ssize)
        (position - fp.bufferBegin * fp.ssize) fp.actualSize
        = position - fp.bufferBegin * fp.ssize - fp.actualSize ∧
      ¬ (position - fp.bufferBegin * fp.ssize
        > (zero_fill (position - fp.bufferBegin * fp.ssize)
            (position - fp.bufferBegin * fp.ssize) b fp.actualSize).2) := by
  have hmul : umul fp.bufferBegin fp.ssize = fp.bufferBegin * fp.ssize :=
    umul_eq (by omega)
  have hoff : usub position (umul fp.bufferBegin fp.ssize)
      = position - fp.bufferBegin * fp.ssize := by
    rw [hmul]; exact usub_eq hpos hP
  have hz := zero_fill_spec (position - fp.bufferBegin * fp.ssize)
    (position - fp.bufferBegin * fp.ssize) b fp.actualSize (by omega)
  have hst := zero_fill_steps_spec (position - fp.bufferBegin * fp.ssize)
    (position - fp.bufferBegin * fp.ssize) b fp.actualSize (by omega)
  generalize position - fp.bufferBegin * fp.ssize = off at *
  refine ⟨memcpy (fun j => if fp.actualSize ≤ j ∧ j < off then 0 else b j) off data count,
    ?_, ?_, ?_, ?_, ?_, ?_, hst.1, hst.2⟩
  · simp only [modif_cache, hoff, hb, Option.getD_some, hz, Option.map_some']
  · intro i hi
    simp only [memcpy]
    rw [if_pos ⟨by omega, by omega⟩]
    congr 1
    omega
  · intro j h1 h2
    simp only [memcpy]
    rw [if_neg (by omega), if_pos ⟨h1, h2⟩]
  · intro j hj
    simp only [memcpy]
    rw [if_neg (by omega), if_neg (by omega)]
  · intro j hj
    simp only [memcpy]
    rw [if_neg (by omega), if_neg (by omega)]
  · intro j hj
    by_contra hge
    apply hj
    simp only [memcpy]
    rw [if_neg (by omega), if_neg (by omega)]

/-- Witness of C32: three bytes are put at offset 12 of the buffer that holds ten valid
bytes; bytes 10 and 11 become zero in two turns of the loop. -/
theorem modif_cache_contents_witness :
    ((modif_cache tenWritten [7, 8, 9] 12 3).2.2.buffer.map (fun m => view m 0 16)
      = some [1, 2, 3, 4, 5, 6, 7, 8, 9, 10, 0, 0, 7, 8, 9, 170]) ∧
    ∃ b1 : Mem,
      (modif_cache tenWritten [7, 8, 9] 12 3).2.2.buffer = some b1 ∧
      (∀ i, i < 3 → b1 (12 - tenWritten.bufferBegin * tenWritten.ssize + i)
        = [7, 8, 9].getD i 0) ∧
      (∀ j, tenWritten.actualSize ≤ j → j < 12 - tenWritten.bufferBegin * tenWritten.ssize →
        b1 j = 0) ∧
      (∀ j, j < min tenWritten.actualSize (12 - tenWritten.bufferBegin * tenWritten.ssize) →
        b1 j = (tenWritten.buffer.getD (fun _ => 0)) j) ∧
      (∀ j, 12 - tenWritten.bufferBegin * tenWritten.ssize + 3 ≤ j →
        b1 j = (tenWritten.buffer.getD (fun _ => 0)) j) ∧
      (∀ j, b1 j ≠ (tenWritten.buffer.getD (fun _ => 0)) j → j < tenWritten.bufferSize) ∧
      zero_fill_steps (12 - tenWritten.bufferBegin * tenWritten.ssize)
        (12 - tenWritten.bufferBegin * tenWritten.ssize) tenWritten.actualSize
        = 12 - tenWritten.bufferBegin * tenWritten.ssize - tenWritten.actualSize ∧
      ¬ (12 - tenWritten.bufferBegin * tenWritten.ssize
        > (zero_fill (12 - tenWritten.bufferBegin * tenWritten.ssize)
            (12 - tenWritten.bufferBegin * tenWritten.ssize)
            (tenWritten.buffer.getD (fun _ => 0)) tenWritten.actualSize).2) :=
  ⟨by decide,
    modif_cache_contents tenWritten [7, 8, 9] 12 3 (tenWritten.buffer.getD (fun _ => 0))
      (by rfl) (by decide) (by decide) (by decide)⟩

/-- C33, evaluated at two failing inputs, both on reachable states. (a) After two writes at
the end of a file of 4294967264 bytes the buffer is sector 268435454, capacity 16. A write
of 2 bytes at 4294967282, below the ceiling, is classified FullMatch (the end of its window,
4 GiB, wraps to 0 in `buffer_exists`), so `io_write` goes straight to `modif_cache` with
`offset = 18`: `offset + count = 20 > 16`, bytes 16 to 19 of the 16-byte block are written.
(b) On a file of 4294967266 bytes a write of 20 bytes at 4294967270 allocates 32 bytes; the
`io_read` that fills the start of the window finds NoMatch for the same reason and replaces
the buffer by one of 16 bytes; `modif_cache` then runs with `offset + count = 26 > 16`. -/
theorem io_write_overruns_buffer :
    (Reachable 16 secondWindow ∧ 4294967282 < MAX_FILE_SIZE ∧
      (secondWindow.bufferBegin = 268435454 ∧ secondWindow.bufferSize = 16 ∧
        secondWindow.buffer.isSome = true) ∧
      buffer_exists secondWindow (buffer_specs secondWindow 2 4294967282).2.1
        (buffer_specs secondWindow 2 4294967282).2.2.2 = 2 ∧
      io_write_body env16 secondWindow [3, 3] 4294967282 2
        = modif_cache secondWindow [3, 3] 4294967282 2 ∧
      secondWindow.bufferBegin * secondWindow.ssize ≤ 4294967282 ∧
      (4294967282 - secondWindow.bufferBegin * secondWindow.ssize) + 2 = 20 ∧
      (io_write_body env16 secondWindow [3, 3] 4294967282 2).1 = FR_OK ∧
      (io_write_body env16 secondWindow [3, 3] 4294967282 2).2.2.bufferSize = 16 ∧
      (io_write_body env16 secondWindow [3, 3] 4294967282 2).2.2.buffer.map
        (fun m => view m 16 4) = some [0, 0, 3, 3]) ∧
    (Reachable 16 thirtyBelow ∧ 4294967270 < MAX_FILE_SIZE ∧
      buffer_specs thirtyBelow 20 4294967270 = (FR_OK, 268435454, 268435455, 32) ∧
      (io_write_body env16 thirtyBelow (List.replicate 20 1) 4294967270 20).1 = FR_OK ∧
      (io_write_body env16 thirtyBelow (List.replicate 20 1) 4294967270 20).2.2.bufferBegin
        = 268435454 ∧
      (io_write_body env16 thirtyBelow (List.replicate 20 1) 4294967270 20).2.2.bufferSize
        = 16 ∧
      (4294967270 - 268435454 * 16) + 20 = 26 ∧
      (io_write_body env16 thirtyBelow (List.replicate 20 1) 4294967270 20).2.2.actualSize
        = 26 ∧
      (io_write_body env16 thirtyBelow (List.replicate 20 1) 4294967270 20).2.2.buffer.map
        (fun m => view m 14 12) = some [1, 1, 1, 1, 1, 1, 1, 1, 1, 1, 1, 1]) :=
  ⟨⟨Reachable.write (fun _ => some (fun _ => 170)) lastWindow [2, 2] 4294967266 2
        (Reachable.write (fun _ => some (fun _ => 170)) twoSectorsBelow (List.replicate 18 1)
          4294967264 18 (reachable_openedOn 16 _ (by decide) (by decide)) (by decide)
          (by decide))
        (by decide) (by decide),
      by decide, by decide, by decide,
      io_write_body_match env16 secondWindow [3, 3] 4294967282 2 2 268435455 268435455 16
        (by decide) (by decide) (by decide) (by decide) (by decide) (by decide) (by decide)
        (by decide),
      by decide, by decide, by decide, by decide, by decide⟩,
    ⟨reachable_openedOn 16 _ (by decide) (by decide), by decide, by decide, by decide,
      by decide, by decide, by decide, by decide, by decide⟩⟩

/-- C34: for every descriptor holding a buffer, every driver and every value of
`ignoreWriteErrors`. When the flag is 0 and the flush (`write_cache`) fails, `free_buffer`
returns the flush error and the buffer, `bufferBegin`, `bufferSize`, `actualSize` and the
dirty flag are as before. In every other case the buffer is released and `bufferBegin`,
`bufferSize`, `actualSize` and the dirty flag are 0, the cursor is as before and the logical
size is the one the flush left; for a clean buffer on an open descriptor nothing else
changes at all. -/
theorem free_buffer_release {σ : Type} (env : Env σ) (fp : IO_FileDescriptor σ) (ign : Nat)
    (b : Mem) (hb : fp.buffer = some b) :
    ((ign = 0 ∧ (write_cache env fp).1 ≠ FR_OK) →
      (free_buffer env fp ign).1 = (write_cache env fp).1 ∧
      (free_buffer env fp ign).2.buffer = some b ∧
      (free_buffer env fp ign).2.bufferBegin = fp.bufferBegin ∧
      (free_buffer env fp ign).2.bufferSize = fp.bufferSize ∧
      (free_buffer env fp ign).2.actualSize = fp.actualSize ∧
      (free_buffer env fp ign).2.unsavedData = fp.unsavedData) ∧
    (¬ (ign = 0 ∧ (write_cache env fp).1 ≠ FR_OK) →
      (free_buffer env fp ign).1 = (write_cache env fp).1 ∧
      (free_buffer env fp ign).2.buffer = none ∧
      (free_buffer env fp ign).2.bufferBegin = 0 ∧
      (free_buffer env fp ign).2.bufferSize = 0 ∧
      (free_buffer env fp ign).2.actualSize = 0 ∧
      (free_buffer env fp ign).2.unsavedData = 0 ∧
      (free_buffer env fp ign).2.rwPointer = fp.rwPointer ∧
      (free_buffer env fp ign).2.actualFileSize = (write_cache env fp).2.actualFileSize) ∧
    (fp.isOpen ≠ 0 → fp.unsavedData = 0 →
      free_buffer env fp ign =
        (FR_OK,
          { fp with
            buffer := none, bufferBegin := 0, bufferSize := 0, unsavedData := 0,
            actualSize := 0 })) := by
  have hsome : fp.buffer.isSome = true := by rw [hb]; rfl
  obtain ⟨hfr, hdirty⟩ := write_cache_frame env fp
  refine ⟨?_, ?_, ?_⟩
  · intro h
    have hu := hdirty h.2
    unfold free_buffer
    simp only [hsome, if_true]
    rw [if_pos ⟨trivial, h.1, h.2⟩]
    generalize write_cache env fp = W at hfr hu ⊢
    rw [hfr]
    exact ⟨rfl, hb, rfl, rfl, rfl, hu⟩
  · intro h
    unfold free_buffer
    simp only [hsome, if_true]
    rw [if_neg (fun hc => h ⟨hc.2.1, hc.2.2⟩)]
    generalize write_cache env fp = W at hfr ⊢
    rw [hfr]
    exact ⟨rfl, rfl, rfl, rfl, rfl, rfl, rfl, rfl⟩
  · intro ho hu
    have hw : write_cache env fp = (FR_OK, fp) := by
      unfold write_cache
      simp only [ho, if_false, hu, ne_eq, not_true_eq_false]
    unfold free_buffer
    simp only [hsome, if_true, hw, ne_eq, not_true_eq_false, and_false, if_false]

/-- Witness of C34: ten unflushed bytes over a driver whose `f_write` fails. With
`ignoreWriteErrors = 0` the error comes back and the buffer stays, dirty; with
`ignoreWriteErrors = 1` the buffer is released. -/
theorem free_buffer_release_witness :
    ((free_buffer envFailingWriteClose tenWritten 0).1 = FR_DISK_ERR ∧
      (free_buffer envFailingWriteClose tenWritten 0).2.buffer.isSome = true ∧
      (free_buffer envFailingWriteClose tenWritten 0).2.unsavedData = 1 ∧
      (free_buffer envFailingWriteClose tenWritten 1).1 = FR_DISK_ERR ∧
      (free_buffer envFailingWriteClose tenWritten 1).2.buffer.isNone = true) ∧
    (((0 = 0 ∧ (write_cache envFailingWriteClose tenWritten).1 ≠ FR_OK) →
      (free_buffer envFailingWriteClose tenWritten 0).1
        = (write_cache envFailingWriteClose tenWritten).1 ∧
      (free_buffer envFailingWriteClose tenWritten 0).2.buffer
        = some (tenWritten.buffer.getD (fun _ => 0)) ∧
      (free_buffer envFailingWriteClose tenWritten 0).2.bufferBegin = tenWritten.bufferBegin ∧
      (free_buffer envFailingWriteClose tenWritten 0).2.bufferSize = tenWritten.bufferSize ∧
      (free_buffer envFailingWriteClose tenWritten 0).2.actualSize = tenWritten.actualSize ∧
      (free_buffer envFailingWriteClose tenWritten 0).2.unsavedData
        = tenWritten.unsavedData) ∧
    (¬ (0 = 0 ∧ (write_cache envFailingWriteClose tenWritten).1 ≠ FR_OK) →
      (free_buffer envFailingWriteClose tenWritten 0).1
        = (write_cache envFailingWriteClose tenWritten).1 ∧
      (free_buffer envFailingWriteClose tenWritten 0).2.buffer = none ∧
      (free_buffer envFailingWriteClose tenWritten 0).2.bufferBegin = 0 ∧
      (free_buffer envFailingWriteClose tenWritten 0).2.bufferSize = 0 ∧
      (free_buffer envFailingWriteClose tenWritten 0).2.actualSize = 0 ∧
      (free_buffer envFailingWriteClose tenWritten 0).2.unsavedData = 0 ∧
      (free_buffer envFailingWriteClose tenWritten 0).2.rwPointer = tenWritten.rwPointer ∧
      (free_buffer envFailingWriteClose tenWritten 0).2.actualFileSize
        = (write_cache envFailingWriteClose tenWritten).2.actualFileSize) ∧
    (tenWritten.isOpen ≠ 0 → tenWritten.unsavedData = 0 →
      free_buffer envFailingWriteClose tenWritten 0 =
        (FR_OK,
          { tenWritten with
            buffer := none, bufferBegin := 0, bufferSize := 0, unsavedData := 0,
            actualSize := 0 }))) :=
  ⟨by decide,
    free_buffer_release envFailingWriteClose tenWritten 0
      (tenWritten.buffer.getD (fun _ => 0)) (by rfl)⟩

/-- C35: for every open descriptor and every driver. (1) When the descriptor is dirty, the
seek to the start of the window succeeds, the build is not read-only and `f_write` succeeds
but reports a count other than `actualSize`, `write_cache` and `io_sync` return `FR_INT_ERR`
and the dirty flag is as before. (2) Whenever `write_cache` leaves a dirty descriptor clean,
it returned `FR_OK` and `f_write` had succeeded and reported exactly `actualSize` bytes.
(3) When the descriptor is not dirty, `write_cache` returns `FR_OK` and the descriptor with
its storage handle is unchanged, whatever the driver. -/
theorem write_cache_short_write {σ : Type} (env : Env σ) (fp : IO_FileDescriptor σ)
    (hopen : fp.isOpen ≠ 0) :
    (fp.unsavedData ≠ 0 →
      (seek env (preallocate env fp fp.actualFileSize).2
        (umul fp.bufferBegin fp.ssize)).1 = FR_OK →
      env.conf.FS_READONLY = 0 →
      (env.drv.f_write
        (seek env (preallocate env fp fp.actualFileSize).2
          (umul fp.bufferBegin fp.ssize)).2.file
        (fp.buffer.getD (fun _ => 0)) fp.actualSize).1 = FR_OK →
      (env.drv.f_write
        (seek env (preallocate env fp fp.actualFileSize).2
          (umul fp.bufferBegin fp.ssize)).2.file
        (fp.buffer.getD (fun _ => 0)) fp.actualSize).2.1 % UINT_MOD ≠ fp.actualSize →
      (write_cache env fp).1 = FR_INT_ERR ∧
      (write_cache env fp).2.unsavedData = fp.unsavedData ∧
      (io_sync_body env fp).1 = FR_INT_ERR ∧
      (io_sync_body env fp).2.unsavedData = fp.unsavedData) ∧
    (fp.unsavedData ≠ 0 → (write_cache env fp).2.unsavedData = 0 →
      (write_cache env fp).1 = FR_OK ∧
      (env.drv.f_write
        (seek env (preallocate env fp fp.actualFileSize).2
          (umul fp.bufferBegin fp.ssize)).2.file
        (fp.buffer.getD (fun _ => 0)) fp.actualSize).1 = FR_OK ∧
      (env.drv.f_write
        (seek env (preallocate env fp fp.actualFileSize).2
          (umul fp.bufferBegin fp.ssize)).2.file
        (fp.buffer.getD (fun _ => 0)) fp.actualSize).2.1 % UINT_MOD = fp.actualSize) ∧
    (fp.unsavedData = 0 → write_cache env fp = (FR_OK, fp)) := by
  have hp := preallocate_frame env fp fp.actualFileSize
  have hsz : io_size_body fp = (FR_OK, fp.actualFileSize) := by
    unfold io_size_body; rw [if_neg hopen]
  have hwc : fp.unsavedData ≠ 0 → write_cache env fp =
      (let k := seek env (preallocate env fp fp.actualFileSize).2
          (umul fp.bufferBegin fp.ssize)
       if k.1 ≠ FR_OK then (k.1, k.2)
       else if env.conf.FS_READONLY ≠ 0 then (FR_DENIED, k.2)
       else
        let w := env.drv.f_write k.2.file (fp.buffer.getD (fun _ => 0)) fp.actualSize
        if w.1 ≠ FR_OK then (w.1, { k.2 with file := w.2.2 })
        else if w.2.1 % UINT_MOD ≠ fp.actualSize then (FR_INT_ERR, { k.2 with file := w.2.2 })
        else (FR_OK, { k.2 with file := w.2.2, unsavedData := 0 })) := by
    intro hd
    unfold write_cache
    simp only [hopen, if_false, hd, ne_eq, not_false_eq_true, if_true, hsz, not_true_eq_false]
    have hk := seek_frame env (preallocate env fp fp.actualFileSize).2
      (umul (preallocate env fp fp.actualFileSize).2.bufferBegin
        (preallocate env fp fp.actualFileSize).2.ssize)
    have e1 : (preallocate env fp fp.actualFileSize).2.bufferBegin = fp.bufferBegin := by
      rw [hp]
    have e2 : (preallocate env fp fp.actualFileSize).2.ssize = fp.ssize := by rw [hp]
    rw [e1, e2] at hk ⊢
    have e3 : (seek env (preallocate env fp fp.actualFileSize).2
        (umul fp.bufferBegin fp.ssize)).2.buffer = fp.buffer := by rw [hk, hp]
    have e4 : (seek env (preallocate env fp fp.actualFileSize).2
        (umul fp.bufferBegin fp.ssize)).2.actualSize = fp.actualSize := by rw [hk, hp]
    rw [e3, e4]
  have hku : (seek env (preallocate env fp fp.actualFileSize).2
      (umul fp.bufferBegin fp.ssize)).2.unsavedData = fp.unsavedData := by
    rw [seek_frame env (preallocate env fp fp.actualFileSize).2
      (umul fp.bufferBegin fp.ssize), hp]
  refine ⟨?_, ?_, ?_⟩
  · intro hd hk hro hw hn
    have hW : write_cache env fp = (FR_INT_ERR,
        { (seek env (preallocate env fp fp.actualFileSize).2
            (umul fp.bufferBegin fp.ssize)).2 with
          file := (env.drv.f_write
            (seek env (preallocate env fp fp.actualFileSize).2
              (umul fp.bufferBegin fp.ssize)).2.file
            (fp.buffer.getD (fun _ => 0)) fp.actualSize).2.2 }) := by
      rw [hwc hd]
      simp only [hk, hro, hw, ne_eq, not_true_eq_false, if_false, hn, not_false_eq_true, if_true]
    have hS : io_sync_body env fp = write_cache env fp := by
      unfold io_sync_body
      rw [if_neg hopen]
      simp only [hW, ne_eq, reduceCtorEq, not_false_eq_true, if_true]
    rw [hS, hW]
    exact ⟨rfl, hku, rfl, hku⟩
  · intro hd hc
    rw [hwc hd] at hc ⊢
    simp only [] at hc ⊢
    generalize seek env (preallocate env fp fp.actualFileSize).2
      (umul fp.bufferBegin fp.ssize) = K at hc hku ⊢
    generalize env.drv.f_write K.2.file (fp.buffer.getD (fun _ => 0)) fp.actualSize = W at hc ⊢
    by_cases h1 : K.1 ≠ FR_OK
    · rw [if_pos h1] at hc
      exact absurd (hku.symm.trans hc) hd
    · rw [if_neg h1] at hc ⊢
      by_cases h2 : env.conf.FS_READONLY ≠ 0
      · rw [if_pos h2] at hc
        exact absurd (hku.symm.trans hc) hd
      · rw [if_neg h2] at hc ⊢
        by_cases h3 : W.1 ≠ FR_OK
        · rw [if_pos h3] at hc
          exact absurd (hku.symm.trans hc) hd
        · rw [if_neg h3] at hc ⊢
          by_cases h4 : W.2.1 % UINT_MOD ≠ fp.actualSize
          · rw [if_pos h4] at hc
            exact absurd (hku.symm.trans hc) hd
          · rw [if_neg h4]
            exact ⟨rfl, not_not.mp h3, not_not.mp h4⟩
  · intro hu
    unfold write_cache
    simp only [hopen, if_false, hu, ne_eq, not_true_eq_false]

/-- Witness of C35: ten unflushed bytes over a driver that stores and reports nine. The flush
and `io_sync` return `FR_INT_ERR` and the descriptor stays dirty; over the driver of the
tests the same flush succeeds and clears the flag. -/
theorem write_cache_short_write_witness :
    (tenWritten.isOpen ≠ 0 ∧ tenWritten.unsavedData = 1 ∧ tenWritten.actualSize = 10 ∧
      (write_cache envShortWrite tenWritten).1 = FR_INT_ERR ∧
      (write_cache envShortWrite tenWritten).2.unsavedData = 1 ∧
      (io_sync_body envShortWrite tenWritten).1 = FR_INT_ERR ∧
      (write_cache env16 tenWritten).1 = FR_OK ∧
      (write_cache env16 tenWritten).2.unsavedData = 0) ∧
    ((tenWritten.unsavedData ≠ 0 →
      (seek envShortWrite (preallocate envShortWrite tenWritten tenWritten.actualFileSize).2
        (umul tenWritten.bufferBegin tenWritten.ssize)).1 = FR_OK →
      envShortWrite.conf.FS_READONLY = 0 →
      (envShortWrite.drv.f_write
        (seek envShortWrite
          (preallocate envShortWrite tenWritten tenWritten.actualFileSize).2
          (umul tenWritten.bufferBegin tenWritten.ssize)).2.file
        (tenWritten.buffer.getD (fun _ => 0)) tenWritten.actualSize).1 = FR_OK →
      (envShortWrite.drv.f_write
        (seek envShortWrite
          (preallocate envShortWrite tenWritten tenWritten.actualFileSize).2
          (umul tenWritten.bufferBegin tenWritten.ssize)).2.file
        (tenWritten.buffer.getD (fun _ => 0)) tenWritten.actualSize).2.1 % UINT_MOD
        ≠ tenWritten.actualSize →
      (write_cache envShortWrite tenWritten).1 = FR_INT_ERR ∧
      (write_cache envShortWrite tenWritten).2.unsavedData = tenWritten.unsavedData ∧
      (io_sync_body envShortWrite tenWritten).1 = FR_INT_ERR ∧
      (io_sync_body envShortWrite tenWritten).2.unsavedData = tenWritten.unsavedData) ∧
    (tenWritten.unsavedData ≠ 0 →
      (write_cache envShortWrite tenWritten).2.unsavedData = 0 →
      (write_cache envShortWrite tenWritten).1 = FR_OK ∧
      (envShortWrite.drv.f_write
        (seek envShortWrite
          (preallocate envShortWrite tenWritten tenWritten.actualFileSize).2
          (umul tenWritten.bufferBegin tenWritten.ssize)).2.file
        (tenWritten.buffer.getD (fun _ => 0)) tenWritten.actualSize).1 = FR_OK ∧
      (envShortWrite.drv.f_write
        (seek envShortWrite
          (preallocate envShortWrite tenWritten tenWritten.actualFileSize).2
          (umul tenWritten.bufferBegin tenWritten.ssize)).2.file
        (tenWritten.buffer.getD (fun _ => 0)) tenWritten.actualSize).2.1 % UINT_MOD
        = tenWritten.actualSize) ∧
    (tenWritten.unsavedData = 0 →
      write_cache envShortWrite tenWritten = (FR_OK, tenWritten))) :=
  ⟨by decide, write_cache_short_write envShortWrite tenWritten (by decide)⟩

/-- C36: for every open descriptor, every driver and every target above the size of the
file on storage, `preallocate(target)` succeeds exactly when seeking is available
(`FS_MINIMIZE <= 2`) and the driver's `f_lseek(target)` succeeds; then it returns `FR_OK`,
the handle is the one the seek left and the logical size is what `f_tell` reports on it,
whatever the target. Nothing else in the descriptor changes. -/
theorem preallocate_uses_f_tell {σ : Type} (env : Env σ) (fp : IO_FileDescriptor σ)
    (target : Nat) (hopen : fp.isOpen ≠ 0) (hgt : env.drv.f_size fp.file < target) :
    ((preallocate env fp target).1 = FR_OK ↔
      (env.conf.FS_MINIMIZE ≤ 2 ∧ (env.drv.f_lseek fp.file target).1 = FR_OK)) ∧
    ((preallocate env fp target).1 = FR_OK →
      preallocate env fp target =
        (FR_OK,
          { fp with
            file := (env.drv.f_lseek fp.file target).2,
            actualFileSize := env.drv.f_tell (env.drv.f_lseek fp.file target).2 })) := by
  have hng : ¬ target ≤ env.drv.f_size fp.file := by omega
  by_cases hmin : env.conf.FS_MINIMIZE > 2
  · have hs : seek env fp target = (FR_DENIED, fp) := by
      unfold seek
      rw [if_neg hopen, if_pos hmin]
    have hpre : preallocate env fp target = (FR_DENIED, fp) := by
      unfold preallocate
      simp only [hopen, if_false, hng, hs, ne_eq, reduceCtorEq, not_false_eq_true, if_true]
    rw [hpre]
    have hne : ¬ ((FR_DENIED, fp) : FRESULT × IO_FileDescriptor σ).1 = FR_OK := by simp
    exact ⟨⟨fun h => absurd h hne, fun h => absurd h.1 (by omega)⟩, fun h => absurd h hne⟩
  · have hs : seek env fp target
        = ((env.drv.f_lseek fp.file target).1,
            { fp with file := (env.drv.f_lseek fp.file target).2 }) := by
      unfold seek
      rw [if_neg hopen, if_neg hmin]
    by_cases hl : (env.drv.f_lseek fp.file target).1 = FR_OK
    · have hpre : preallocate env fp target =
          (FR_OK,
            { fp with
              file := (env.drv.f_lseek fp.file target).2,
              actualFileSize := env.drv.f_tell (env.drv.f_lseek fp.file target).2 }) := by
        unfold preallocate
        simp only [hopen, if_false, hng, hs, hl, ne_eq, not_true_eq_false]
      rw [hpre]
      exact ⟨⟨fun _ => ⟨by omega, hl⟩, fun _ => rfl⟩, fun _ => rfl⟩
    · have hpre : (preallocate env fp target).1 = (env.drv.f_lseek fp.file target).1 := by
        unfold preallocate
        simp only [hopen, if_false, hng, hs, hl, ne_eq, not_false_eq_true, if_true]
      rw [hpre]
      exact ⟨⟨fun h => absurd h hl, fun h => absurd h.2 hl⟩, fun h => absurd h hl⟩

/-- Witness of C36: a 10-byte file on a volume with room for 30 bytes; `preallocate(100)`
returns `FR_OK` and the logical size is 30, not 100. -/
theorem preallocate_uses_f_tell_witness :
    (tenOnDisk.isOpen ≠ 0 ∧ envFullDisk.drv.f_size tenOnDisk.file < 100 ∧
      (preallocate envFullDisk tenOnDisk 100).1 = FR_OK ∧
      (preallocate envFullDisk tenOnDisk 100).2.actualFileSize = 30 ∧
      (preallocate envFullDisk tenOnDisk 100).2.file.size = 30) ∧
    (((preallocate envFullDisk tenOnDisk 100).1 = FR_OK ↔
      (envFullDisk.conf.FS_MINIMIZE ≤ 2 ∧
        (envFullDisk.drv.f_lseek tenOnDisk.file 100).1 = FR_OK)) ∧
    ((preallocate envFullDisk tenOnDisk 100).1 = FR_OK →
      preallocate envFullDisk tenOnDisk 100 =
        (FR_OK,
          { tenOnDisk with
            file := (envFullDisk.drv.f_lseek tenOnDisk.file 100).2,
            actualFileSize :=
              envFullDisk.drv.f_tell (envFullDisk.drv.f_lseek tenOnDisk.file 100).2 }))) :=
  ⟨by decide, preallocate_uses_f_tell envFullDisk tenOnDisk 100 (by decide) (by decide)⟩

/-- C37, evaluated at a failing input, with what does hold. A file of 4294967292 bytes is
opened and 16 bytes are read at offset 16000, so the buffer is sector 1000, wholly valid.
`io_read(4294967288, 16)` then passes both end-of-file tests, because `position + btr`
wraps to 8 in 32 bits, and its window is classified FullMatch: the call returns the view at
offset 4294951288 of the 16-byte buffer with `br = 16`, though 4 bytes are left before the
end of the file, and sets the cursor to 8, not to `position + btr = 4294967304`. For every
request with `position + btr < 2^32` that passes the two tests and is classified FullMatch,
over any driver, `io_read` returns the view at `position - bufferBegin * ssize` with
`br = btr` and changes nothing but the cursor, which becomes `position + btr`. -/
theorem full_match_read_wraps_cursor :
    (Reachable 16 fourBelowRead ∧
      (fourBelowRead.bufferBegin = 1000 ∧ fourBelowRead.bufferSize = 16 ∧
        fourBelowRead.actualSize = 16 ∧ fourBelowRead.file.size = 4294967292) ∧
      ¬ (4294967288 ≥ env16.drv.f_size fourBelowRead.file ∧
        4294967288 ≥ uadd fourBelowRead.actualSize
          (umul fourBelowRead.bufferBegin fourBelowRead.ssize)) ∧
      ¬ (uadd 4294967288 16 > env16.drv.f_size fourBelowRead.file ∧
        uadd 4294967288 16 > uadd fourBelowRead.actualSize
          (umul fourBelowRead.bufferBegin fourBelowRead.ssize)) ∧
      buffer_specs fourBelowRead 16 4294967288 = (FR_OK, 268435455, 268435456, 32) ∧
      buffer_exists fourBelowRead 268435455 32 = 2 ∧
      (io_read_body env16 fourBelowRead 4294967288 16).1 = some 4294951288 ∧
      (io_read_body env16 fourBelowRead 4294967288 16).2.1 = 16 ∧
      (io_read_body env16 fourBelowRead 4294967288 16).2.2.rwPointer = 8 ∧
      4294967288 + 16 = 4294967304 ∧
      fourBelowRead.file.size - 4294967288 = 4) ∧
    (∀ (σ : Type) (env : Env σ) (fp : IO_FileDescriptor σ) (position btr : Nat),
      btr ≠ 0 → fp.isOpen ≠ 0 → fp.ssize ≠ 0 → position + btr < UINT_MOD →
      ¬ (position ≥ env.drv.f_size fp.file ∧
        position ≥ uadd fp.actualSize (umul fp.bufferBegin fp.ssize)) →
      ¬ (uadd position btr > env.drv.f_size fp.file ∧
        uadd position btr > uadd fp.actualSize (umul fp.bufferBegin fp.ssize)) →
      (buffer_specs fp btr position).1 = FR_OK →
      buffer_exists fp (buffer_specs fp btr position).2.1
        (buffer_specs fp btr position).2.2.2 = 2 →
      io_read_body env fp position btr =
        (some (position - fp.bufferBegin * fp.ssize), btr,
          { fp with rwPointer := position + btr })) := by
  refine ⟨⟨?_, by decide, by decide, by decide, by decide, by decide, by decide, by decide,
    by decide, by decide, by decide⟩, ?_⟩
  · exact Reachable.read (fun _ => some (fun _ => 170)) fourBelow 16000 16
      (reachable_openedOn 16 _ (by decide) (by decide)) (by decide) (by decide)
  · intro σ env fp position btr h0 hopen hss hsum heof hclamp hs hm
    have hpos : position < UINT_MOD := by omega
    have hs1 : buffer_specs fp btr position
        = (FR_OK, (buffer_specs fp btr position).2.1, (buffer_specs fp btr position).2.2.1,
            (buffer_specs fp btr position).2.2.2) := by
      rw [← hs]
    have hfull := io_read_body_full env fp position btr btr _ _ _ h0 hopen hss heof
      (if_neg hclamp) hs1 hm
    have hb := buffer_exists_full_begin fp _ _ hm
    have hbeg := (buffer_specs_begin fp btr position hpos).2
    have hle : fp.bufferBegin * fp.ssize ≤ position :=
      le_trans (Nat.mul_le_mul_right _ hb) hbeg
    have hmul : umul fp.bufferBegin fp.ssize = fp.bufferBegin * fp.ssize :=
      umul_eq (by omega)
    rw [hfull, hmul, usub_eq hpos hle, uadd_eq (show btr + position < UINT_MOD by omega),
      Nat.add_comm btr position]

/-- C38, evaluated at a failing input. On the 50-byte file whose byte `i` holds `i + 1`, two
bytes are written at offset 32: the state is reachable, the buffer is the window 32 to 47
with two valid bytes, and the logical content at 34 to 39 is 35 to 40, the bytes on storage.
A second write of two bytes at offset 40 ends inside the logical size and finds the window
buffered (PartialMatch); it returns `FR_OK` with `bw = 2`, and the logical content at 34 to
39, outside `[40, 42)`, is now zero. After `io_close` the file on storage holds zeros at 34
to 39. -/
theorem second_write_zeroes_bytes_between :
    Reachable 16 twoAtThirtyTwo ∧
    ((io_write_body env16 fifty [9, 9] 32 2).1 = FR_OK ∧
      twoAtThirtyTwo.bufferBegin = 2 ∧ twoAtThirtyTwo.bufferSize = 16 ∧
      twoAtThirtyTwo.actualSize = 2 ∧ twoAtThirtyTwo.actualFileSize = 50) ∧
    (40 + 2 ≤ twoAtThirtyTwo.actualFileSize ∧
      buffer_specs twoAtThirtyTwo 2 40 = (FR_OK, 2, 2, 16) ∧
      buffer_exists twoAtThirtyTwo 2 16 = 1 ∧
      (io_write_body env16 twoAtThirtyTwo [7, 7] 40 2).1 = FR_OK ∧
      (io_write_body env16 twoAtThirtyTwo [7, 7] 40 2).2.1 = 2) ∧
    ((List.range 6).map (fun i => logicalContent twoAtThirtyTwo (34 + i))
        = [35, 36, 37, 38, 39, 40] ∧
      (List.range 6).map (fun i => logicalContent twoAtForty (34 + i))
        = [0, 0, 0, 0, 0, 0]) ∧
    ((io_close_body env16 twoAtThirtyTwo).1 = FR_OK ∧
      view (io_close_body env16 twoAtThirtyTwo).2.data 32 10
        = [9, 9, 35, 36, 37, 38, 39, 40, 41, 42] ∧
      (io_close_body env16 twoAtForty).1 = FR_OK ∧
      (io_close_body env16 twoAtForty).2.size = 50 ∧
      view (io_close_body env16 twoAtForty).2.data 32 10
        = [9, 9, 0, 0, 0, 0, 0, 0, 7, 7]) :=
  ⟨Reachable.write (fun _ => some (fun _ => 170)) fifty [9, 9] 32 2
      (reachable_openedOn 16 _ (by decide) (by decide)) (by decide) (by decide),
    by decide, by decide, by decide, by decide⟩

/-- C39, evaluated at a failing input. On the 50-byte file whose byte `i` holds `i + 1`, two
bytes `9, 9` are written at offset 32: the state is reachable and dirty, and the logical
content at 32 and 33 is `9, 9`. `io_read(32, 2)` is classified PartialMatch and fills the
whole buffer from storage: it returns `33, 34`, the bytes on storage, and the logical content
at 32 and 33 is now `33, 34` while the dirty flag is still set. After `io_close` the file
holds `33, 34` at 32 and 33: the write is lost. Without the read, `io_close` stores
`9, 9`. -/
theorem partial_match_read_drops_unflushed_bytes :
    Reachable 16 twoAtThirtyTwo ∧
    (twoAtThirtyTwo.unsavedData = 1 ∧ twoAtThirtyTwo.actualFileSize = 50 ∧
      (List.range 2).map (fun i => logicalContent twoAtThirtyTwo (32 + i)) = [9, 9]) ∧
    (buffer_specs twoAtThirtyTwo 2 32 = (FR_OK, 2, 2, 16) ∧
      buffer_exists twoAtThirtyTwo 2 16 = 1 ∧
      (io_read_body env16 twoAtThirtyTwo 32 2).1 = some 0 ∧
      (io_read_body env16 twoAtThirtyTwo 32 2).2.1 = 2 ∧
      readBack.buffer.map (fun m => view m 0 2) = some [33, 34]) ∧
    (readBack.unsavedData = 1 ∧ readBack.actualFileSize = 50 ∧
      (List.range 2).map (fun i => logicalContent readBack (32 + i)) = [33, 34]) ∧
    ((io_close_body env16 readBack).1 = FR_OK ∧
      view (io_close_body env16 readBack).2.data 32 2 = [33, 34] ∧
      (io_close_body env16 twoAtThirtyTwo).1 = FR_OK ∧
      view (io_close_body env16 twoAtThirtyTwo).2.data 32 2 = [9, 9]) :=
  ⟨Reachable.write (fun _ => some (fun _ => 170)) fifty [9, 9] 32 2
      (reachable_openedOn 16 _ (by decide) (by decide)) (by decide) (by decide),
    by decide, by decide, by decide, by decide⟩

/-- C40, evaluated at failing inputs, with what does hold. In the build of the tests the
years 1975 and 2200 are accepted (the call returns `FR_OK`), but the year field of the date
word decodes to 123 and to 92: `year - 1980` is negative for 1975 and is 220, above 127, for
2200. For every timestamp that passes the validation, the month, day, hour, minute and
two-second fields decode back to the input, and so does the year when
`1980 <= year <= 2107`. -/
theorem fdate_year_does_not_round_trip :
    ((io_set_timestamp env16 (onDisk 0 (fun _ => 0)) "testTmpFile" 1975 1 1 0 0 0).1 = FR_OK ∧
      fdate 1975 1 1 >>> 9 = 123 ∧ 1975 < 1980 ∧
      (io_set_timestamp env16 (onDisk 0 (fun _ => 0)) "testTmpFile" 2200 1 1 0 0 0).1
        = FR_OK ∧
      fdate 2200 1 1 >>> 9 = 92 ∧ 2200 - 1980 = 220) ∧
    (∀ year month day hour min sec : Nat, year < WORD_MOD →
      ¬ (year < 1970 ∨ month > 12 ∨ month = 0 ∨ day > 31 ∨ day = 0 ∨ hour > 24 ∨ min > 60
        ∨ sec > 60) →
      (fdate year month day >>> 5) &&& 15 = month ∧
      fdate year month day &&& 31 = day ∧
      ftime hour min sec >>> 11 = hour ∧
      (ftime hour min sec >>> 5) &&& 63 = min ∧
      ftime hour min sec &&& 31 = sec / 2 ∧
      (1980 ≤ year → year ≤ 2107 → fdate year month day >>> 9 = year - 1980)) := by
  refine ⟨by decide, ?_⟩
  intro year month day hour min sec hy hacc
  have hm : month ≤ 12 := by omega
  have hd : day ≤ 31 := by omega
  have hmin : min ≤ 60 := by omega
  have hsec : sec ≤ 60 := by omega
  have hh : hour ≤ 24 := by omega
  have e15 : (15 : Nat) = 2 ^ 4 - 1 := by decide
  have e31 : (31 : Nat) = 2 ^ 5 - 1 := by decide
  have e63 : (63 : Nat) = 2 ^ 6 - 1 := by decide
  have hq : ∃ q, ((year + UINT_MOD - 1980) % UINT_MOD * 512) % UINT_MOD = q * 512 ∧
      (1980 ≤ year → year ≤ 2107 → q = year - 1980) := by
    refine ⟨((year + UINT_MOD - 1980) % UINT_MOD * 512) % UINT_MOD / 512, ?_, ?_⟩
    · simp only [UINT_MOD]
      omega
    · intro h1 h2
      simp only [UINT_MOD]
      omega
  obtain ⟨q, hq1, hq2⟩ := hq
  have hfd : fdate year month day = (q * 512 + month * 32 + day) % WORD_MOD := by
    unfold fdate
    rw [hq1, fdate_sum q month day hm hd]
  have hft : ftime hour min sec = (hour * 2048 + min * 32 + sec / 2) % WORD_MOD := by
    unfold ftime
    rw [ftime_sum hour min sec hmin hsec]
  rw [hfd, hft]
  simp only [Nat.shiftRight_eq_div_pow]
  rw [e15, e31, e63]
  simp only [Nat.and_pow_two_sub_one_eq_mod, WORD_MOD]
  refine ⟨by omega, by omega, by omega, by omega, by omega, ?_⟩
  intro h1 h2
  have := hq2 h1 h2
  omega

end FatFsIO
